import Mathlib

/-!
# seltabl: the struct tag parser (`tools/seltabl-lsp/pkg/parsers/struct.go`)

A shallow embedding of `ParseTags` and of the `Tags` / `Tag` methods, with the
properties the specification states about them.

Go strings are byte sequences; a string is a list of byte values here.
-/

set_option linter.dupNamespace false

namespace Seltabl

/-- Go `string`: a sequence of bytes (each value below 256). -/
abbrev Str := List Nat

/-- Bytes of an ASCII text, to write literals readably. -/
def ascii (s : String) : Str := s.data.map Char.toNat

/-! ## Errors and results -/

/-- Sentinel errors declared at the top of `struct.go`. -/
inductive TagError where
  | errTagSyntax
  | errTagKeySyntax
  | errTagValueSyntax
  | errKeyNotSet
  | errTagNotExist
  deriving DecidableEq, Repr

/-- How a run stops without a result: a returned error, a Go runtime panic on an
index or slice bound, or the bound on loop iterations of this embedding. -/
inductive Abort where
  | err (e : TagError)
  | indexOutOfRange
  | outOfFuel
  deriving DecidableEq, Repr

/-- Go `Tag`: a single key with its value split in name and options. `Options` is a
Go slice that may be nil: `none` is nil. -/
structure Tag where
  Key : Str
  Name : Str
  Options : Option (List Str)
  Line : Int
  Start : Int
  End : Int
  deriving DecidableEq, Repr

/-- Go `Tags`: the tags of one struct field, in order. -/
structure Tags where
  tags : List Tag
  deriving DecidableEq, Repr

deriving instance DecidableEq for Except

/-! ## Checked indexing -/

/-- Go `s[i]`, which panics when `i` is not below `len(s)`. -/
def idx {α : Type} (s : List α) (i : Nat) : Except Abort α :=
  match s.get? i with
  | some b => .ok b
  | none => .error .indexOutOfRange

/-- Go `s[i:]`, which panics when `i` exceeds `len(s)`. -/
def sliceFrom {α : Type} (s : List α) (i : Nat) : Except Abort (List α) :=
  if i ≤ s.length then .ok (s.drop i) else .error .indexOutOfRange

/-- Go `s[:i]`, which panics when `i` exceeds `len(s)`. -/
def sliceTo {α : Type} (s : List α) (i : Nat) : Except Abort (List α) :=
  if i ≤ s.length then .ok (s.take i) else .error .indexOutOfRange

/-! ## Library functions used by the parser -/

/-- Go `strings.Split(s, ",")`: the components of `s` between commas; never empty. -/
def Split (s : Str) : List Str := s.splitOn 44

/-- Go `strings.Join(xs, ",")`. -/
def Join (xs : List Str) : Str := [44].intercalate xs

/-- Go `utf8.RuneError`, U+FFFD. -/
def RuneError : Nat := 0xFFFD

/-- Continuation byte test, `locb <= b <= hicb`. -/
def isCont (b : Nat) : Bool := 0x80 ≤ b && b ≤ 0xBF

/-- Go `utf8.DecodeRuneInString`: the first rune of `s` and its width in bytes;
`(RuneError, 1)` for an invalid or short encoding, `(RuneError, 0)` for the empty
string. The accepted second-byte ranges are those of Go's `acceptRanges`. -/
def DecodeRuneInString (s : Str) : Nat × Nat :=
  match s with
  | [] => (RuneError, 0)
  | s0 :: t =>
    if s0 < 0x80 then (s0, 1)
    else if s0 < 0xC2 then (RuneError, 1)
    else if s0 < 0xE0 then
      match t with
      | s1 :: _ => if isCont s1 then ((s0 % 0x20) * 0x40 + s1 % 0x40, 2) else (RuneError, 1)
      | _ => (RuneError, 1)
    else if s0 < 0xF0 then
      match t with
      | s1 :: s2 :: _ =>
        let lo := if s0 = 0xE0 then 0xA0 else 0x80
        let hi := if s0 = 0xED then 0x9F else 0xBF
        if lo ≤ s1 && s1 ≤ hi && isCont s2 then
          ((s0 % 0x10) * 0x1000 + (s1 % 0x40) * 0x40 + s2 % 0x40, 3)
        else (RuneError, 1)
      | _ => (RuneError, 1)
    else if s0 < 0xF5 then
      match t with
      | s1 :: s2 :: s3 :: _ =>
        let lo := if s0 = 0xF0 then 0x90 else 0x80
        let hi := if s0 = 0xF4 then 0x8F else 0xBF
        if lo ≤ s1 && s1 ≤ hi && isCont s2 && isCont s3 then
          ((s0 % 0x08) * 0x40000 + (s1 % 0x40) * 0x1000 + (s2 % 0x40) * 0x40 + s3 % 0x40, 4)
        else (RuneError, 1)
      | _ => (RuneError, 1)
    else (RuneError, 1)

/-- Go `utf8.ValidString`: every rune of `s` decodes without error. The first
argument bounds the number of runes examined (`len(s)` is enough). -/
def validFrom : Nat → Str → Bool
  | _, [] => true
  | 0, _ :: _ => false
  | f + 1, s0 :: t =>
    let (r, n) := DecodeRuneInString (s0 :: t)
    if r = RuneError ∧ n = 1 then false else validFrom f ((s0 :: t).drop n)

/-- Go `utf8.ValidString(s)`. -/
def ValidString (s : Str) : Bool := validFrom s.length s

/-- Go `utf8.ValidRune`: a code point that is not a surrogate half. -/
def ValidRune (r : Nat) : Bool := r < 0xD800 || (0xDFFF < r && r ≤ 0x10FFFF)

/-- Go `utf8.AppendRune(nil, r)`: the UTF-8 encoding of `r`; U+FFFD for an invalid
rune. -/
def EncodeRune (r : Nat) : Str :=
  if r < 0x80 then [r]
  else if r < 0x800 then [0xC0 + r / 0x40, 0x80 + r % 0x40]
  else if !ValidRune r then [0xEF, 0xBF, 0xBD]
  else if r < 0x10000 then [0xE0 + r / 0x1000, 0x80 + (r / 0x40) % 0x40, 0x80 + r % 0x40]
  else [0xF0 + r / 0x40000, 0x80 + (r / 0x1000) % 0x40, 0x80 + (r / 0x40) % 0x40,
        0x80 + r % 0x40]

/-- Value of a hexadecimal digit (`unhex` of strconv). -/
def unhex (b : Nat) : Option Nat :=
  if 48 ≤ b ∧ b ≤ 57 then some (b - 48)
  else if 97 ≤ b ∧ b ≤ 102 then some (b - 97 + 10)
  else if 65 ≤ b ∧ b ≤ 70 then some (b - 65 + 10)
  else none

/-- Reads `n` hexadecimal digits from the front of `s`, accumulating in `v`. -/
def readHex : Nat → Nat → Str → Option (Nat × Str)
  | 0, v, s => some (v, s)
  | _ + 1, _, [] => none
  | n + 1, v, b :: s =>
    match unhex b with
    | some x => readHex n (v * 16 + x) s
    | none => none

/-- Go `strconv.UnquoteChar(s, '"')`: decodes the first character or escape sequence
of `s`; returns the value, whether it is a multibyte rune, and the rest of `s`. -/
def UnquoteChar (s : Str) : Option (Nat × Bool × Str) :=
  match s with
  | [] => none
  | c :: t =>
    if c = 34 then none
    else if c ≥ 0x80 then
      let (r, size) := DecodeRuneInString (c :: t)
      some (r, true, (c :: t).drop size)
    else if c ≠ 92 then some (c, false, t)
    else
      match t with
      | [] => none
      | e :: s =>
        if e = 97 then some (7, false, s)
        else if e = 98 then some (8, false, s)
        else if e = 102 then some (12, false, s)
        else if e = 110 then some (10, false, s)
        else if e = 114 then some (13, false, s)
        else if e = 116 then some (9, false, s)
        else if e = 118 then some (11, false, s)
        else if e = 120 then
          match readHex 2 0 s with
          | some (v, s) => some (v, false, s)
          | none => none
        else if e = 117 ∨ e = 85 then
          match readHex (if e = 117 then 4 else 8) 0 s with
          | some (v, s) => if ValidRune v then some (v, true, s) else none
          | none => none
        else if 48 ≤ e ∧ e ≤ 55 then
          match s with
          | d1 :: d2 :: s =>
            if 48 ≤ d1 ∧ d1 ≤ 55 ∧ 48 ≤ d2 ∧ d2 ≤ 55 then
              let v := ((e - 48) * 8 + (d1 - 48)) * 8 + (d2 - 48)
              if v > 255 then none else some (v, false, s)
            else none
          | _ => none
        else if e = 92 then some (92, false, s)
        else if e = 34 then some (34, false, s)
        else none

/-- The loop of `strconv.unquote` over a double-quoted body with escape
sequences: decodes characters up to the terminating quote and returns the decoded
bytes with what follows the quote. The first argument bounds the iterations. -/
def unquoteLoop : Nat → Str → Str → Option (Str × Str)
  | 0, _, _ => none
  | f + 1, inp, buf =>
    match inp with
    | [] => none
    | c :: t =>
      if c = 34 then some (buf, t)
      else
        match UnquoteChar (c :: t) with
        | none => none
        | some (r, multibyte, rem) =>
          if c = 10 then none
          else if r < 0x80 ∨ multibyte = false then unquoteLoop f rem (buf ++ [r % 256])
          else unquoteLoop f rem (buf ++ EncodeRune r)

/-- Go `strconv.Unquote(s)` for a string that starts with a double quote, the only
way `ParseTags` calls it (raw and single-quoted literals are not covered and give
`none` here). `none` is `ErrSyntax`. -/
def Unquote (s : Str) : Option Str :=
  match s with
  | 34 :: t =>
    if t.length < 1 then none
    else
      match t.indexOf? 34 with
      | none => none
      | some e =>
        let body := t.take e
        if ¬ 92 ∈ body ∧ ¬ 10 ∈ body ∧ ValidString body then
          if t.drop (e + 1) = [] then some body else none
        else
          match unquoteLoop (t.length + 1) t [] with
          | some (out, []) => some out
          | _ => none
  | _ => none

/-! ## ParseTags -/

/-- First loop of an iteration, `for i < len(tag) && tag[i] == ' ' { i++ }`,
started at `i`; the first argument bounds the iterations. -/
def skipSpace (tag : Str) : Nat → Nat → Except Abort Nat
  | 0, _ => .error .outOfFuel
  | f + 1, i =>
    if i < tag.length then
      match idx tag i with
      | .error a => .error a
      | .ok c => if c = 32 then skipSpace tag f (i + 1) else .ok i
    else .ok i

/-- Loop condition of the key scan on one byte:
`c > ' ' && c != ':' && c != '"' && c != 0x7f`. -/
def isKeyByte (c : Nat) : Bool := c > 32 && c != 58 && c != 34 && c != 127

/-- Key scan, `for i < len(tag) && tag[i] > ' ' && ... { i++ }`, started at `i`. -/
def scanKey (tag : Str) : Nat → Nat → Except Abort Nat
  | 0, _ => .error .outOfFuel
  | f + 1, i =>
    if i < tag.length then
      match idx tag i with
      | .error a => .error a
      | .ok c => if isKeyByte c then scanKey tag f (i + 1) else .ok i
    else .ok i

/-- Quoted string scan,
`for i < len(tag) && tag[i] != '"' { if tag[i] == '\\' { i++ }; i++ }`, started
at `i`. -/
def scanQuoted (tag : Str) : Nat → Nat → Except Abort Nat
  | 0, _ => .error .outOfFuel
  | f + 1, i =>
    if i < tag.length then
      match idx tag i with
      | .error a => .error a
      | .ok c =>
        if c ≠ 34 then
          match idx tag i with
          | .error a => .error a
          | .ok c2 => scanQuoted tag f ((if c2 = 92 then i + 1 else i) + 1)
        else .ok i
    else .ok i

/-- What one iteration of the loop of `ParseTags` does when it does not return an
error: leave the loop (`break`), or append a tag and continue on the rest. -/
inductive Step where
  | brk
  | emit (t : Tag) (rest : Str)
  deriving DecidableEq, Repr

/-- Body of the loop `for tag != ""` of `ParseTags`, on the remaining input. -/
def parseStep (tag : Str) (start end_ line : Int) : Except Abort Step :=
  match skipSpace tag (tag.length + 1) 0 with
  | .error a => .error a
  | .ok i =>
  match sliceFrom tag i with
  | .error a => .error a
  | .ok tag =>
  if tag = [] then .ok .brk else
  match scanKey tag (tag.length + 1) 0 with
  | .error a => .error a
  | .ok i =>
  if i = 0 then .error (.err .errTagKeySyntax) else
  if i + 1 ≥ tag.length then .error (.err .errTagSyntax) else
  match idx tag i with
  | .error a => .error a
  | .ok c =>
  if c ≠ 58 then .error (.err .errTagSyntax) else
  match idx tag (i + 1) with
  | .error a => .error a
  | .ok q =>
  if q ≠ 34 then .error (.err .errTagValueSyntax) else
  match sliceTo tag i with
  | .error a => .error a
  | .ok key =>
  match sliceFrom tag (i + 1) with
  | .error a => .error a
  | .ok tag =>
  match scanQuoted tag (tag.length + 1) 1 with
  | .error a => .error a
  | .ok i =>
  if i ≥ tag.length then .error (.err .errTagValueSyntax) else
  match sliceTo tag (i + 1) with
  | .error a => .error a
  | .ok qvalue =>
  match sliceFrom tag (i + 1) with
  | .error a => .error a
  | .ok tag =>
  match Unquote qvalue with
  | none => .error (.err .errTagValueSyntax)
  | some value =>
  let res := Split value
  match idx res 0 with
  | .error a => .error a
  | .ok name =>
  match sliceFrom res 1 with
  | .error a => .error a
  | .ok options =>
  let options := if options.length = 0 then none else some options
  .ok (.emit { Key := key, Name := name, Options := options,
               Start := start, End := end_, Line := line } tag)

/-- The loop `for tag != ""` of `ParseTags`: `tags` is what has been appended so
far; the first argument bounds the iterations. -/
def parseLoop (start end_ line : Int) : Nat → Str → List Tag → Except Abort (List Tag)
  | 0, _, _ => .error .outOfFuel
  | f + 1, tag, tags =>
    if tag ≠ [] then
      match parseStep tag start end_ line with
      | .error a => .error a
      | .ok .brk => .ok tags
      | .ok (.emit t rest) => parseLoop start end_ line f rest (tags ++ [t])
    else .ok tags

/-- Go `ParseTags(tag, start, end, line)`: `.ok none` is the pair `(nil, nil)`,
`.ok (some t)` a pointer to a fresh `Tags`, `.error (.err e)` the pair `(nil, e)`. -/
def ParseTags (tag : Str) (start end_ line : Int) : Except Abort (Option Tags) :=
  let hasTag := tag ≠ []
  match parseLoop start end_ line (tag.length + 1) tag [] with
  | .error a => .error a
  | .ok tags =>
    if hasTag ∧ tags.length = 0 then .ok none
    else .ok (some { tags := tags })

/-! ## Methods of Tags and Tag -/

/-- Go `(*Tags).Tags`. -/
def Tags.Tags (t : Seltabl.Tags) : List Tag := t.tags

/-- Go `(*Tags).Keys`. -/
def Tags.Keys (t : Seltabl.Tags) : List Str := t.tags.map (·.Key)

/-- Elements of a Go slice that may be nil. -/
def elems {α : Type} : Option (List α) → List α
  | none => []
  | some xs => xs

/-- Go `(*Tag).HasOption`. -/
def Tag.HasOption (t : Tag) (opt : Str) : Bool := (elems t.Options).any (· = opt)

/-- Go `(*Tag).Value`. -/
def Tag.Value (t : Tag) : Str :=
  let options := Join (elems t.Options)
  if options ≠ [] then t.Name ++ [44] ++ options else t.Name

/-- Go `strconv.IsPrint`: decided by ranges up to U+00FF; above, Go consults its
Unicode tables (`isPrint16`, `isNotPrint16`, `isPrint32`, `isNotPrint32`), which
are the parameter `tbl` here. -/
def IsPrint (tbl : Nat → Bool) (r : Nat) : Bool :=
  if r ≤ 0xFF then
    if 0x20 ≤ r ∧ r ≤ 0x7E then true
    else if 0xA1 ≤ r then r != 0xAD
    else false
  else tbl r

/-- One digit of `lowerhex = "0123456789abcdef"`. -/
def lowerhex (n : Nat) : Nat := if n < 10 then 48 + n else 97 + (n - 10)

/-- The hexadecimal digits of `r` taken from bit `4 * n` downwards. -/
def hexDigits : Nat → Nat → Str
  | 0, _ => []
  | n + 1, r => lowerhex ((r / 16 ^ n) % 16) :: hexDigits n r

/-- Go `appendEscapedRune(nil, r, '"', false, false)` of strconv. -/
def appendEscapedRune (tbl : Nat → Bool) (r : Nat) : Str :=
  if r = 34 ∨ r = 92 then [92, r]
  else if IsPrint tbl r then EncodeRune r
  else if r = 7 then [92, 97]
  else if r = 8 then [92, 98]
  else if r = 12 then [92, 102]
  else if r = 10 then [92, 110]
  else if r = 13 then [92, 114]
  else if r = 9 then [92, 116]
  else if r = 11 then [92, 118]
  else if r < 32 ∨ r = 0x7F then [92, 120, lowerhex (r / 16), lowerhex (r % 16)]
  else if !ValidRune r then [92, 117] ++ hexDigits 4 0xFFFD
  else if r < 0x10000 then [92, 117] ++ hexDigits 4 r
  else [92, 85] ++ hexDigits 8 r

/-- The loop of `appendQuotedWith` over the runes of `s`; the first argument
bounds the iterations (`len(s)` is enough). -/
def quoteLoop (tbl : Nat → Bool) : Nat → Str → Str
  | _, [] => []
  | 0, _ :: _ => []
  | f + 1, s0 :: t =>
    let (r, width) := if s0 ≥ 0x80 then DecodeRuneInString (s0 :: t) else (s0, 1)
    if width = 1 ∧ r = RuneError then
      [92, 120, lowerhex (s0 / 16), lowerhex (s0 % 16)] ++ quoteLoop tbl f t
    else appendEscapedRune tbl r ++ quoteLoop tbl f ((s0 :: t).drop width)

/-- Go `strconv.Quote(s)`, what the verb `%q` of `fmt` prints for a string. -/
def Quote (tbl : Nat → Bool) (s : Str) : Str := [34] ++ quoteLoop tbl s.length s ++ [34]

/-- Go `(*Tag).String`: `fmt.Sprintf("%s:%q", t.Key, t.Value())`. -/
def Tag.String (tbl : Nat → Bool) (t : Tag) : Str := t.Key ++ [58] ++ Quote tbl t.Value

/-- Go `(*Tags).String`: the tags written one after the other, a space after each
but the last. -/
def Tags.String (tbl : Nat → Bool) (t : Seltabl.Tags) : Str :=
  let tags := t.Tags
  if tags.length = 0 then []
  else
    tags.enum.foldl
      (fun buf p => buf ++ p.2.String tbl ++ (if p.1 ≠ tags.length - 1 then [32] else [])) []

/-! ## Proof device: the end of an iteration as a function of its own -/

/-- The statements of the loop body of `ParseTags` that follow the scan of the
quoted string, for the key `key`, the input `tag` that starts at the opening quote
and the index `i` where the scan stopped. `parseStep` is proved to end with it. -/
def valueTail (key tag : Str) (i : Nat) (start end_ line : Int) : Except Abort Step :=
  if i ≥ tag.length then .error (.err .errTagValueSyntax) else
  match sliceTo tag (i + 1) with
  | .error a => .error a
  | .ok qvalue =>
  match sliceFrom tag (i + 1) with
  | .error a => .error a
  | .ok tag =>
  match Unquote qvalue with
  | none => .error (.err .errTagValueSyntax)
  | some value =>
  let res := Split value
  match idx res 0 with
  | .error a => .error a
  | .ok name =>
  match sliceFrom res 1 with
  | .error a => .error a
  | .ok options =>
  let options := if options.length = 0 then none else some options
  .ok (.emit { Key := key, Name := name, Options := options,
               Start := start, End := end_, Line := line } tag)

/-! ## Predicates used to state the properties -/

/-- A byte that `strconv.Unquote` copies as it is: ASCII, and neither a quote, a
backslash nor a newline. -/
def isPlain (b : Nat) : Bool := b < 128 && b != 34 && b != 92 && b != 10

/-- ASCII letter. -/
def isLetter (b : Nat) : Bool := (65 ≤ b && b ≤ 90) || (97 ≤ b && b ≤ 122)

/-- ASCII letter or digit. -/
def isAlnum (b : Nat) : Bool := isLetter b || (48 ≤ b && b ≤ 57)

/-- Number of backslashes that end `pre`. -/
def trailingBackslashes (pre : Str) : Nat := (pre.reverse.takeWhile (· = 92)).length

/-- No unescaped double quote in `body`: every double quote of `body` directly
follows a run of backslashes of odd length. -/
def noUnescapedQuote (body : Str) : Bool :=
  (List.range body.length).all fun j =>
    body.get? j != some 34 || trailingBackslashes (body.take j) % 2 == 1

/-- What an iteration can do: return one of the declared errors, leave the loop,
or append a tag and go on with a strictly shorter input. -/
def StepReturns (tag : Str) (r : Except Abort Step) : Prop :=
  (∃ e, r = .error (.err e)) ∨ r = .ok .brk ∨
    ∃ t rest, r = .ok (.emit t rest) ∧ rest.length < tag.length

/-! ## Get, Set and AddOptions

The slice `t.tags` holds pointers in Go; the tags are values here. Two entries of
a slice that are the same pointer have the same content, and every method below
treats equal contents alike, so that the values after a call are those of the
pointees. -/

/-- Go `(*Tags).Get`: the first tag with the key, or `errTagNotExist`. -/
def Tags.Get (t : Seltabl.Tags) (key : Str) : Except TagError Tag :=
  match t.tags.find? (fun tag => tag.Key = key) with
  | some tag => .ok tag
  | none => .error .errTagNotExist

/-- Go `(*Tags).Set`: the receiver after the call and the returned error (`none`
is nil). Every tag with the key of `tag` is overwritten by `tag`; when there is
none, `tag` is appended. -/
def Tags.Set (t : Seltabl.Tags) (tag : Tag) : Seltabl.Tags × Option TagError :=
  if tag.Key = [] then (t, some .errKeyNotSet)
  else
    let added := t.tags.any (fun tg => tg.Key = tag.Key)
    let tags := t.tags.map (fun tg => if tg.Key = tag.Key then tag else tg)
    ({ tags := if !added then tags ++ [tag] else tags }, none)

/-- Body of the inner loop of `AddOptions` for one option,
`if !tag.HasOption(opt) { tag.Options = append(tag.Options, opt) }`, on the value
of the tag: what `Memory.addOption` does to the value of the tag it works on
(`addOption_spec`). -/
def addOption (tag : Tag) (opt : Str) : Tag :=
  if !tag.HasOption opt then { tag with Options := some (elems tag.Options ++ [opt]) }
  else tag

/-- Go `(*Tags).AddOptions` on the values of the tags: the receiver after the call,
when the options of the tags with the key share no backing array with those of
another tag (`AddOptions_refines`). The call in memory, where `append` may write
into a backing array that another tag shares, is `Memory.AddOptions`. -/
def Tags.AddOptions (t : Seltabl.Tags) (key : Str) (options : List Str) : Seltabl.Tags :=
  { tags := t.tags.map (fun tag => if tag.Key ≠ key then tag else options.foldl addOption tag) }

/-! ## AddOptions in memory

`Options` is a Go slice: a pointer into a backing array, a length and a capacity.
`append` writes in place when the capacity allows it, and two tags may hold slices
of one backing array, so that `AddOptions` is embedded over a memory: the string
slots of all backing arrays by address, and the `Tag` structs by address. The field
`tags` of `Tags` holds pointers; everything that stores into it (`ParseTags`,
`Set` after reading `tag.Key`) stores a pointer that is not nil. The variadic
`options` is a slice too, which the caller may have cut from any array. -/

/-- Go slice header of a `[]string`: the address of its first element, its length
and its capacity. -/
structure Slice where
  ptr : Nat
  len : Nat
  cap : Nat
  deriving DecidableEq, Repr

/-- The header of a slice that may be nil: the nil slice has length and capacity
0. -/
def hdr : Option Slice → Slice
  | none => { ptr := 0, len := 0, cap := 0 }
  | some s => s

/-- Go `Tag` as it lies in memory: `Options` is a slice header, `none` the nil
slice. -/
structure TagObj where
  Key : Str
  Name : Str
  Options : Option Slice
  Line : Int
  Start : Int
  End : Int
  deriving DecidableEq, Repr

/-- The memory: the string slots of the backing arrays by address, the first
address that is not allocated yet, and the `Tag` structs by address. -/
structure Memory where
  slots : Nat → Str
  next : Nat
  objs : Nat → TagObj

/-- The elements of a slice: the slots from its pointer on, as many as its
length. -/
def readSlice (slots : Nat → Str) (s : Slice) : List Str :=
  (List.range s.len).map (fun i => slots (s.ptr + i))

/-- The `Tag` that a struct in memory holds, its options read from the slots. -/
def TagObj.val (slots : Nat → Str) (o : TagObj) : Tag :=
  { Key := o.Key, Name := o.Name,
    Options := o.Options.map (readSlice slots),
    Line := o.Line, Start := o.Start, End := o.End }

/-- The `Tag` at the address `p`. -/
def Memory.tagAt (m : Memory) (p : Nat) : Tag := (m.objs p).val m.slots

/-- The value of a `Tags` whose field `tags` holds the pointers `ptrs`. -/
def Memory.tagsAt (m : Memory) (ptrs : List Nat) : Tags := { tags := ptrs.map m.tagAt }

/-- Go runtime `growslice`: the capacity of the array that `append` allocates when
the capacity `oldCap` does not hold `needed` elements. It is at least `needed`;
beyond that it is the choice of the runtime, `grow`. -/
def growslice (grow : Nat → Nat) (oldCap needed : Nat) : Nat := max (grow oldCap) needed

/-- Go `append(s, x)` on a `[]string`: the memory after it and the header it
returns. With spare capacity the element is written in place, behind the last
one, into the backing array of `s`; without, a new array is allocated, the
elements are copied into it, `x` is written behind them and the rest of it is
zero. -/
def Memory.append (grow : Nat → Nat) (m : Memory) (s : Option Slice) (x : Str) :
    Memory × Slice :=
  if (hdr s).len < (hdr s).cap then
    ({ m with slots := Function.update m.slots ((hdr s).ptr + (hdr s).len) x },
      { ptr := (hdr s).ptr, len := (hdr s).len + 1, cap := (hdr s).cap })
  else
    ({ m with
        slots := fun a =>
          if m.next ≤ a ∧ a < m.next + growslice grow (hdr s).cap ((hdr s).len + 1) then
            if a < m.next + (hdr s).len then m.slots ((hdr s).ptr + (a - m.next))
            else if a = m.next + (hdr s).len then x
            else []
          else m.slots a
        next := m.next + growslice grow (hdr s).cap ((hdr s).len + 1) },
      { ptr := m.next, len := (hdr s).len + 1,
        cap := growslice grow (hdr s).cap ((hdr s).len + 1) })

/-- Body of the inner loop of `AddOptions` for the tag at the address `p` and one
option: `if !tag.HasOption(opt) { tag.Options = append(tag.Options, opt) }`. -/
def Memory.addOption (grow : Nat → Nat) (p : Nat) (m : Memory) (opt : Str) : Memory :=
  if !(m.tagAt p).HasOption opt then
    match m.append grow (m.objs p).Options opt with
    | (m1, s) => { m1 with objs := Function.update m1.objs p { m1.objs p with Options := some s } }
  else m

/-- The inner loop of `AddOptions` for the tag at the address `p`,
`for _, opt := range options`: the elements of `options` are read one after the
other, each when its turn comes. -/
def Memory.addOptions (grow : Nat → Nat) (p : Nat) (options : Slice) (m : Memory) : Memory :=
  (List.range options.len).foldl
    (fun m i => m.addOption grow p (m.slots (options.ptr + i))) m

/-- Body of the outer loop of `AddOptions` for the pointer `p`: a tag with another
key is skipped; `t.tags[i] = tag` stores the pointer that was read. -/
def Memory.visit (grow : Nat → Nat) (key : Str) (options : Slice) (m : Memory) (p : Nat) :
    Memory :=
  if (m.objs p).Key ≠ key then m
  else m.addOptions grow p options

/-- Go `(*Tags).AddOptions` on the receiver whose field `tags` holds the pointers
`ptrs`, for the slice `options` of the variadic parameter (of length 0 when no
option is given): the memory after the call. -/
def Memory.AddOptions (grow : Nat → Nat) (m : Memory) (ptrs : List Nat) (key : Str)
    (options : Slice) : Memory :=
  ptrs.foldl (Memory.visit grow key options) m

/-- The slice `s` is within the allocated memory and its length within its
capacity, as it is for every slice of a Go program. -/
def Slice.valid (next : Nat) (s : Slice) : Prop := s.len ≤ s.cap ∧ s.ptr + s.cap ≤ next

instance (next : Nat) (s : Slice) : Decidable (s.valid next) :=
  inferInstanceAs (Decidable (s.len ≤ s.cap ∧ s.ptr + s.cap ≤ next))

/-- The slices `s` and `u` have no slot of their backing arrays in common. -/
def Slice.apart (s u : Slice) : Prop :=
  s.cap = 0 ∨ u.cap = 0 ∨ s.ptr + s.cap ≤ u.ptr ∨ u.ptr + u.cap ≤ s.ptr

instance (s u : Slice) : Decidable (s.apart u) :=
  inferInstanceAs (Decidable (s.cap = 0 ∨ u.cap = 0 ∨ s.ptr + s.cap ≤ u.ptr ∨ u.ptr + u.cap ≤ s.ptr))

/-- The options of the tags at `ptrs` are valid slices of the memory. -/
def Memory.validAt (m : Memory) (ptrs : List Nat) : Prop :=
  ∀ p ∈ ptrs, (hdr (m.objs p).Options).valid m.next

instance (m : Memory) (ptrs : List Nat) : Decidable (m.validAt ptrs) :=
  inferInstanceAs (Decidable (∀ p ∈ ptrs, (hdr (m.objs p).Options).valid m.next))

/-- The options of a tag with the key `key` share no slot of a backing array with
the options of another tag of `ptrs`. -/
def Memory.unshared (m : Memory) (ptrs : List Nat) (key : Str) : Prop :=
  ∀ p ∈ ptrs, ∀ q ∈ ptrs, (m.objs p).Key = key → q ≠ p →
    (hdr (m.objs p).Options).apart (hdr (m.objs q).Options)

instance (m : Memory) (ptrs : List Nat) (key : Str) : Decidable (m.unshared ptrs key) :=
  inferInstanceAs (Decidable (∀ p ∈ ptrs, ∀ q ∈ ptrs, (m.objs p).Key = key → q ≠ p →
    (hdr (m.objs p).Options).apart (hdr (m.objs q).Options)))

/-- The slice `options` is a valid slice of the memory and shares no slot of a
backing array with the options of a tag with the key `key`. -/
def Memory.optionsApart (m : Memory) (ptrs : List Nat) (key : Str) (options : Slice) : Prop :=
  options.valid m.next ∧
    ∀ p ∈ ptrs, (m.objs p).Key = key → (hdr (m.objs p).Options).apart options

instance (m : Memory) (ptrs : List Nat) (key : Str) (options : Slice) :
    Decidable (m.optionsApart ptrs key options) :=
  inferInstanceAs (Decidable (options.valid m.next ∧
    ∀ p ∈ ptrs, (m.objs p).Key = key → (hdr (m.objs p).Options).apart options))

/-! ## ParseStructs

The Go parser and the walk of the syntax tree are library code. What
`ParseStructs` reads of the tree is kept: for every `*ast.StructType`, in the
order in which `ast.Inspect` visits them, the list `s.Fields.List`, and of every
field its names, its type as `%s` prints it, its tag literal (nil when there is
none) and the positions the file set gives for it. -/

/-- Go `strings.Contains(s, sub)`. -/
def Contains : Str → Str → Bool
  | [], sub => sub.isPrefixOf []
  | c :: s, sub => sub.isPrefixOf (c :: s) || Contains s sub

/-- The text handed to `parser.ParseFile`: `"package main\n"` is put in front of
the source when `"package "` does not occur in it. -/
def wrapSource (src : Str) : Str :=
  if !Contains src (ascii "package ") then ascii "package main" ++ [10] ++ src else src

/-- What is read of an `*ast.Field`. -/
structure AstField where
  /-- Names `field.Names[i].Name`; empty for an embedded field. -/
  Names : List Str
  /-- Result of `fmt.Sprintf("%s", field.Type)`. -/
  Type_ : Str
  /-- Text `field.Tag.Value`, with its quotes; `none` when `field.Tag` is nil. -/
  Tag : Option Str
  /-- Value of `fset.Position(field.Pos()).Offset`. -/
  Offset : Int
  /-- Value of `fset.Position(field.End()).Offset`. -/
  EndOffset : Int
  /-- Value of `fset.Position(field.Pos()).Line`. -/
  Line : Int
  deriving DecidableEq, Repr

/-- The struct types of a parsed file in the order of the walk, each as its list
of fields. -/
abbrev AstFile := List (List AstField)

/-- Go `Field`. -/
structure Field where
  Name : Str
  Type_ : Str
  Line : Int
  Tags : Tags
  Start : Int
  End : Int
  deriving DecidableEq, Repr

/-- Go `Structure`. -/
structure Structure where
  Fields : List Field
  deriving DecidableEq, Repr

/-- How `ParseStructs`, or one of its tasks, ends without a result: one of the two
returned errors, a runtime panic, or the iteration bound of `ParseTags` here. -/
inductive StructsAbort where
  /-- Error `failed to parse struct: %w` around the error of the parser. -/
  | parseFile (e : Str)
  /-- Error `failed to parse tags: %w` around an error of `ParseTags`. -/
  | parseTags (e : TagError)
  /-- Panic: nil pointer dereference. -/
  | nilDereference
  /-- Panic: index or slice bounds out of range. -/
  | indexOutOfRange
  | outOfFuel
  deriving DecidableEq, Repr

/-- The text between the quotes of a tag literal,
`field.Tag.Value[1:len(field.Tag.Value)-1]` (for a literal of two bytes or more). -/
def tagInterior (value : Str) : Str := (value.drop 1).take (value.length - 1 - 1)

/-- The zero value of `Field`, what `make([]Field, n)` holds. -/
def zeroField : Field :=
  { Name := [], Type_ := [], Line := 0, Tags := { tags := [] }, Start := 0, End := 0 }

/-- The function given to `eg.Go` for one field: the `Field` it stores in its slot,
or the error it returns, or the panic it raises. -/
def fieldTask (field : AstField) : Except StructsAbort Field :=
  match field.Tag with
  | none => .error .nilDereference
  | some value =>
    if value.length < 2 then .error .indexOutOfRange
    else
      match ParseTags (tagInterior value) field.Offset field.EndOffset field.Line with
      | .error (.err e) => .error (.parseTags e)
      | .error .indexOutOfRange => .error .indexOutOfRange
      | .error .outOfFuel => .error .outOfFuel
      | .ok tags =>
        match field.Names with
        | [] => .error .indexOutOfRange
        | name :: _ =>
          match tags with
          | none => .error .nilDereference
          | some tags =>
            .ok { Name := name, Type_ := field.Type_, Tags := tags, Line := field.Line,
                  Start := field.Offset, End := 0 }

/-- The tasks of one struct type, completing in the order `order` (indices into
`fields`): `slots` is `structure.Fields`, `err` the first error the group has
recorded. The tasks share nothing but the group and each writes its own slot, so
that running them one after the other in the order of their completion stands for
their concurrent run. A panic in a task ends the process. -/
def runTasks (fields : List AstField) :
    List Nat → List Field → Option TagError → Except StructsAbort (List Field × Option TagError)
  | [], slots, err => .ok (slots, err)
  | idx :: order, slots, err =>
    match fields.get? idx with
    | none => runTasks fields order slots err
    | some field =>
      match fieldTask field with
      | .ok f => runTasks fields order (slots.set idx f) err
      | .error (.parseTags e) =>
        runTasks fields order slots (match err with | none => some e | some e0 => some e0)
      | .error a => .error a

/-- The callback of `ast.Inspect` over the struct types `structs`, the first of
which is the `k`-th of the file: `sched k` is the order in which the tasks of the
`k`-th struct type complete. -/
def inspectStructs (sched : Nat → List Nat) :
    Nat → List (List AstField) → List Structure → Option TagError →
      Except StructsAbort (List Structure × Option TagError)
  | _, [], structures, err => .ok (structures, err)
  | k, fields :: rest, structures, err =>
    match runTasks fields (sched k) (List.replicate fields.length zeroField) err with
    | .error a => .error a
    | .ok (slots, err) =>
      match err with
      | some _ => inspectStructs sched (k + 1) rest structures err
      | none => inspectStructs sched (k + 1) rest (structures ++ [{ Fields := slots }]) err

/-- Go `ParseStructs(ctx, src)`, for the parser `ParseFile` (the struct types of the
file, or the error of the parser) and the completion orders `sched`. The context
only serves to create the error group. -/
def ParseStructs (ParseFile : Str → Except Str AstFile) (sched : Nat → List Nat) (src : Str) :
    Except StructsAbort (List Structure) :=
  match ParseFile (wrapSource src) with
  | .error e => .error (.parseFile e)
  | .ok file =>
    match inspectStructs sched 0 file [] none with
    | .error a => .error a
    | .ok (structures, err) =>
      match err with
      | some e => .error (.parseTags e)
      | none => .ok structures

/-- A schedule that lets the tasks of every struct type of `file` complete, each
once: `sched k` is a permutation of the indices of the fields of the `k`-th struct
type. -/
def validSched (file : AstFile) (sched : Nat → List Nat) : Prop :=
  ∀ k fields, file.get? k = some fields → (sched k).Perm (List.range fields.length)

/-- The schedule in which the tasks complete from the first field to the last. -/
def seqSched (file : AstFile) : Nat → List Nat :=
  fun k => List.range ((file.getD k []).length)

/-- A field that has a name and carries a well-formed tag literal: a literal from
which `ParseTags` makes a set of tags. -/
def wellTagged (f : AstField) : Bool :=
  match f.Tag, f.Names with
  | some value, _ :: _ =>
    2 ≤ value.length &&
      (match ParseTags (tagInterior value) f.Offset f.EndOffset f.Line with
       | .ok (some _) => true
       | _ => false)
  | _, _ => false

/-- A field whose tag literal is rejected by `ParseTags`. -/
def rejectedTag (f : AstField) : Bool :=
  match f.Tag with
  | some value =>
    2 ≤ value.length &&
      (match ParseTags (tagInterior value) f.Offset f.EndOffset f.Line with
       | .error (.err _) => true
       | _ => false)
  | none => false

/-- A field that carries a well-formed tag literal: a literal from which
`ParseTags` makes a set of tags. Nothing is asked of the names of the field. -/
def carriesTags (f : AstField) : Bool :=
  match f.Tag with
  | some value =>
    2 ≤ value.length &&
      (match ParseTags (tagInterior value) f.Offset f.EndOffset f.Line with
       | .ok (some _) => true
       | _ => false)
  | none => false

/-- The entry `e` carries the name, the line and the start offset of the field `f`
and the tags that `ParseTags` yields for its literal. -/
def entryOf (f : AstField) (e : Field) : Prop :=
  f.Names.head? = some e.Name ∧ e.Line = f.Line ∧ e.Start = f.Offset ∧
    ∃ value, f.Tag = some value ∧
      ParseTags (tagInterior value) f.Offset f.EndOffset f.Line = .ok (some e.Tags)

/-- Proof device: the `Field` that the task of `f` stores, the zero value when it
stores none. -/
def taskField (f : AstField) : Field :=
  match fieldTask f with
  | .ok x => x
  | .error _ => zeroField

/-- A panic of `ParseStructs`: nil pointer dereference or index out of range. -/
def isPanic (a : StructsAbort) : Prop := a = .nilDereference ∨ a = .indexOutOfRange

/-! ## The dispatcher of the root command (`tools/seltabls/cmd`)

`Root.HandleMessage` decodes a frame, switches on the method, and may write a
response, change the documents of the state, return an error or end the process.
The codec (`rpc`), the decoding of the bodies (`json.Unmarshal` into the request
types of `lsp`) and the handlers of `analysis.State` are not part of these
sources: they are the fields of `Lib`. The log is not kept. -/

/-- Go `map[string]string`, the documents of `analysis.State`: the text of a URI, if
it has an entry. -/
abbrev Documents := Str → Option Str

/-- Go `m[k] = v` on the documents. -/
def Documents.set (d : Documents) (k v : Str) : Documents :=
  fun x => if x = k then some v else d x

/-- The part of `analysis.State` that the dispatcher reads and writes, and the rest
of it, which only the handlers of `Lib` see. -/
structure State where
  Documents : Documents
  Rest : Str

/-- The values that `HandleMessage` builds to be written. -/
inductive Response where
  /-- Value `lsp.NewInitializeResponse(request.ID)`. -/
  | initializeResult (id : Int)
  /-- Value `lsp.PublishDiagnosticsNotification` with its `jsonrpc`, method, URI and
  diagnostics. -/
  | publishDiagnostics (rpc method uri : Str) (diagnostics : List Str)
  /-- Value `lsp.ShutdownResponse` with its `jsonrpc` and id. -/
  | shutdown (rpc : Str) (id : Int)
  /-- Value returned by a handler of the state. -/
  | fromState (payload : Str)
  deriving DecidableEq, Repr

/-- What an `io.Writer` does on its next calls of `Write`: for each call, how many
bytes it takes at most and the error it returns. When the list is used up, every
call takes all the bytes and returns no error. `written` is what it has taken. -/
structure Writer where
  written : List Str
  script : List (Nat × Option Str)
  deriving DecidableEq, Repr

/-- Go `w.Write(p)`: the writer after the call, the count and the error returned. -/
def Writer.Write (w : Writer) (p : Str) : Writer × Nat × Option Str :=
  match w.script with
  | [] => ({ written := w.written ++ [p], script := [] }, p.length, none)
  | (n, err) :: rest =>
    ({ written := w.written ++ [p.take n], script := rest }, min n p.length, err)

/-- The library and the collaborators of the dispatcher. -/
structure Lib where
  /-- Go `rpc.DecodeMessage`: the method and the contents of a frame. -/
  DecodeMessage : Str → Except Str (Str × Str)
  /-- Go `rpc.EncodeMessage`. -/
  EncodeMessage : Response → Except Str Str
  /-- Go `json.Unmarshal` into `lsp.InitializeRequest`: the id of the request. -/
  unmarshalInitializeRequest : Str → Except Str Int
  /-- Go `json.Unmarshal` into `lsp.InitializedParamsRequest`. -/
  unmarshalInitialized : Str → Except Str Unit
  /-- Go `json.Unmarshal` into `lsp.DidOpenTextDocumentNotification`: URI and text. -/
  unmarshalDidOpen : Str → Except Str (Str × Str)
  /-- Go `json.Unmarshal` into `lsp.DidCloseTextDocumentParamsNotification`: URI. -/
  unmarshalDidClose : Str → Except Str Str
  /-- Go `json.Unmarshal` into `lsp.CompletionRequest`. -/
  unmarshalCompletion : Str → Except Str Str
  /-- Go `json.Unmarshal` into `lsp.TextDocumentDidChangeNotification`: URI and the
  texts of the content changes. -/
  unmarshalDidChange : Str → Except Str (Str × List Str)
  /-- Go `json.Unmarshal` into `lsp.HoverRequest`. -/
  unmarshalHover : Str → Except Str Str
  /-- Go `json.Unmarshal` into `lsp.CodeActionRequest`. -/
  unmarshalCodeAction : Str → Except Str Str
  /-- Go `json.Unmarshal` into `lsp.ShutdownRequest`: the id of the request. -/
  unmarshalShutdown : Str → Except Str Int
  /-- Go `json.Unmarshal` into `lsp.CancelRequest`: the id of the request. -/
  unmarshalCancel : Str → Except Str Int
  /-- Go `State.OpenDocument(uri, &text)`: the state after it and the diagnostics. -/
  OpenDocument : State → Str → Str → State × Except Str (List Str)
  /-- Go `State.UpdateDocument(uri, text)`. -/
  UpdateDocument : State → Str → Str → State × Except Str (List Str)
  /-- Go `State.CreateTextDocumentCompletion` on the decoded request. -/
  CreateTextDocumentCompletion : State → Str → State × Except Str Str
  /-- Go `State.Hover` on the decoded request. -/
  Hover : State → Str → State × Except Str Str
  /-- Go `State.TextDocumentCodeAction` on the decoded request. -/
  TextDocumentCodeAction : State → Str → State × Str
  /-- Go `State.CancelRequest(request.ID)`. -/
  CancelRequest : State → Int → State × Except Str Str

/-- The receiver of `HandleMessage`: the state and the writer of `Root`. -/
structure Root where
  State : State
  Writer : Writer

/-- How a call of `HandleMessage` ends: it returns to its caller, with an error or
nil, or the process ends (`os.Exit`, also through `log.Fatal`) with a status. -/
inductive Outcome where
  | returned (err : Option Str)
  | exited (code : Nat)
  deriving DecidableEq, Repr

/-- Go `(*Root).writeResponse`: the writer after the call and the error returned. -/
def writeResponse (lib : Lib) (w : Writer) (method : Str) (msg : Response) :
    Writer × Option Str :=
  match lib.EncodeMessage msg with
  | .error e =>
    (w, some (ascii "failed to encode message (" ++ method ++ ascii "): " ++ e))
  | .ok reply =>
    match w.Write reply with
    | (w, res, err) =>
      match err with
      | some e =>
        (w, some (ascii "failed to write message (" ++ method ++ ascii "): " ++ e))
      | none =>
        if res ≠ reply.length then
          (w, some (ascii "failed to write all message (" ++ method ++ ascii "): %!w(<nil>)"))
        else (w, none)

/-- The end of `HandleMessage`, after the switch: the response, when there is one,
is encoded for the log. -/
def afterSwitch (lib : Lib) (s : Root) (response : Option Response) : Root × Outcome :=
  match response with
  | some r =>
    match lib.EncodeMessage r with
    | .error e => (s, .returned (some (ascii "failed to encode message: " ++ e)))
    | .ok _ => (s, .returned none)
  | none => (s, .returned none)

/-- A response is written and the switch is left: the common end of the cases that
answer. -/
def respond (lib : Lib) (s : Root) (method : Str) (response : Response) (failure : Str) :
    Root × Outcome :=
  match writeResponse lib s.Writer method response with
  | (w, some e) => ({ s with Writer := w }, .returned (some (failure ++ e)))
  | (w, none) => afterSwitch lib { s with Writer := w } (some response)

/-- The loop of the case `textDocument/didChange` over the content changes: the
state and the diagnostics gathered, or the error of `UpdateDocument`. -/
def updateAll (lib : Lib) (uri : Str) :
    List Str → State → List Str → State × Except Str (List Str)
  | [], st, diagnostics => (st, .ok diagnostics)
  | text :: changes, st, diagnostics =>
    match lib.UpdateDocument st uri text with
    | (st, .error e) => (st, .error e)
    | (st, .ok diags) => updateAll lib uri changes st (diagnostics ++ diags)

/-- Go `(*Root).HandleMessage(ctx, msg)`: the receiver after the call and how the
call ends. -/
def Root.HandleMessage (lib : Lib) (s : Root) (msg : Str) : Root × Outcome :=
  match lib.DecodeMessage msg with
  | .error e => (s, .returned (some (ascii "failed to decode message: " ++ e)))
  | .ok (method, contents) =>
    if method = ascii "initialize" then
      match lib.unmarshalInitializeRequest contents with
      | .error e =>
        (s, .returned (some (ascii "decode initialize request (initialize) failed: " ++ e)))
      | .ok id =>
        respond lib s method (.initializeResult id) (ascii "failed to write (initialize) response: ")
    else if method = ascii "initialized" then
      match lib.unmarshalInitialized contents with
      | .error _ => (s, .exited 1)
      | .ok _ => afterSwitch lib s none
    else if method = ascii "textDocument/didOpen" then
      match lib.unmarshalDidOpen contents with
      | .error e =>
        (s, .returned (some (ascii "decode (textDocument/didOpen) request failed: " ++ e)))
      | .ok (uri, text) =>
        match lib.OpenDocument s.State uri text with
        | (st, .error e) =>
          ({ s with State := st }, .returned (some (ascii "failed to open document: " ++ e)))
        | (st, .ok diagnostics) =>
          respond lib { s with State := st } method
            (.publishDiagnostics (ascii "2.0") (ascii "textDocument/publishDiagnostics") uri
              diagnostics)
            (ascii "failed to write response: ")
    else if method = ascii "textDocument/didClose" then
      match lib.unmarshalDidClose contents with
      | .error e => (s, .returned (some (ascii "decode (didClose) request failed: " ++ e)))
      | .ok uri =>
        afterSwitch lib
          { s with State := { s.State with Documents := s.State.Documents.set uri [] } } none
    else if method = ascii "textDocument/completion" then
      match lib.unmarshalCompletion contents with
      | .error e =>
        (s, .returned (some (ascii
          "failed to unmarshal completion request (textDocument/completion): " ++ e)))
      | .ok request =>
        match lib.CreateTextDocumentCompletion s.State request with
        | (st, .error e) =>
          ({ s with State := st }, .returned (some (ascii "failed to get completions: " ++ e)))
        | (st, .ok payload) =>
          respond lib { s with State := st } method (.fromState payload)
            (ascii "failed to write response: ")
    else if method = ascii "textDocument/didChange" then
      match lib.unmarshalDidChange contents with
      | .error e =>
        (s, .returned (some (ascii "decode (textDocument/didChange) request failed: " ++ e)))
      | .ok (uri, changes) =>
        match updateAll lib uri changes s.State [] with
        | (st, .error e) =>
          ({ s with State := st }, .returned (some (ascii "failed to update document: " ++ e)))
        | (st, .ok diagnostics) =>
          respond lib { s with State := st } method
            (.publishDiagnostics (ascii "2.0") (ascii "textDocument/publishDiagnostics") uri
              diagnostics)
            (ascii "failed to write response: ")
    else if method = ascii "textDocument/hover" then
      match lib.unmarshalHover contents with
      | .error e => (s, .returned (some (ascii "failed unmarshal of hover request (): " ++ e)))
      | .ok request =>
        match lib.Hover s.State request with
        | (st, .error e) =>
          ({ s with State := st }, .returned (some (ascii "failed to get hover: " ++ e)))
        | (st, .ok payload) =>
          respond lib { s with State := st } method (.fromState payload)
            (ascii "failed to write response: ")
    else if method = ascii "textDocument/codeAction" then
      match lib.unmarshalCodeAction contents with
      | .error e =>
        (s, .returned (some (ascii
          "failed to unmarshal of codeAction request (textDocument/codeAction): " ++ e)))
      | .ok request =>
        match lib.TextDocumentCodeAction s.State request with
        | (st, payload) =>
          respond lib { s with State := st } method (.fromState payload)
            (ascii "failed to write response: ")
    else if method = ascii "textDocument/didSave" then
      afterSwitch lib s none
    else if method = ascii "shutdown" then
      match lib.unmarshalShutdown contents with
      | .error e => (s, .returned (some (ascii "decode (shutdown) request failed: " ++ e)))
      | .ok id =>
        match writeResponse lib s.Writer method (.shutdown (ascii "2.0") id) with
        | (w, some e) =>
          ({ s with Writer := w },
            .returned (some (ascii "write (shutdown) response failed: " ++ e)))
        | (w, none) => ({ s with Writer := w }, .exited 0)
    else if method = ascii "$/cancelRequest" then
      match lib.unmarshalCancel contents with
      | .error e =>
        (s, .returned (some (ascii
          "failed to unmarshal cancel request ($/cancelRequest): " ++ e)))
      | .ok id =>
        match lib.CancelRequest s.State id with
        | (st, .error e) =>
          ({ s with State := st }, .returned (some (ascii "failed to cancel request: " ++ e)))
        | (st, .ok payload) =>
          respond lib { s with State := st } method (.fromState payload)
            (ascii "failed to write response: ")
    else if method = ascii "exit" then
      (s, .exited 0)
    else
      (s, .returned (some (ascii "unknown method: " ++ method)))

/-! ## The dispatcher of the server package (`tools/seltabls/pkg/server`)

`server.HandleMessage` switches on the method of a decoded message inside a
`for`/`select` loop and returns a response and an error. The constants of the
package `methods`, the decoding of the bodies and the handlers of `analysis` and
`lsp` are not part of these sources. -/

/-- Modelled from the spec: constant `methods.MethodInitialize`, which is not among
the sources, with the name of the method table. -/
def MethodInitialize : Str := ascii "initialize"

/-- Modelled from the spec: constant `methods.MethodRequestTextDocumentDidOpen`,
with the name of the method table. -/
def MethodRequestTextDocumentDidOpen : Str := ascii "textDocument/didOpen"

/-- Modelled from the spec: constant `methods.MethodRequestTextDocumentCompletion`,
with the name of the method table. -/
def MethodRequestTextDocumentCompletion : Str := ascii "textDocument/completion"

/-- Modelled from the spec: constant `methods.MethodRequestTextDocumentHover`, with
the name of the method table. -/
def MethodRequestTextDocumentHover : Str := ascii "textDocument/hover"

/-- Modelled from the spec: constant `methods.MethodRequestTextDocumentCodeAction`,
with the name of the method table. -/
def MethodRequestTextDocumentCodeAction : Str := ascii "textDocument/codeAction"

/-- Modelled from the spec: constant `methods.MethodShutdown`, with the name of the
method table. -/
def MethodShutdown : Str := ascii "shutdown"

/-- Modelled from the spec: constant `methods.MethodCancelRequest`, with the name of
the method table. -/
def MethodCancelRequest : Str := ascii "$/cancelRequest"

/-- Modelled from the spec: constant `methods.MethodNotificationInitialized`, with
the name of the method table. -/
def MethodNotificationInitialized : Str := ascii "initialized"

/-- Modelled from the spec: constant `methods.MethodNotificationExit`, with the name
of the method table. -/
def MethodNotificationExit : Str := ascii "exit"

/-- Modelled from the spec: constant
`methods.MethodNotificationTextDocumentDidSave`, with the name of the method
table. -/
def MethodNotificationTextDocumentDidSave : Str := ascii "textDocument/didSave"

/-- Modelled from the spec: constant `methods.NotificationTextDocumentDidClose`,
with the name of the method table. -/
def NotificationTextDocumentDidClose : Str := ascii "textDocument/didClose"

/-- Modelled from the spec: constant
`methods.NotificationMethodTextDocumentDidChange`, with the name of the method
table. -/
def NotificationMethodTextDocumentDidChange : Str := ascii "textDocument/didChange"

/-- Modelled from the spec: the names of the method table, which are the cases of
the two dispatchers. -/
def methodTable : List Str :=
  [MethodInitialize, MethodNotificationInitialized, MethodRequestTextDocumentDidOpen,
   NotificationMethodTextDocumentDidChange, NotificationTextDocumentDidClose,
   MethodNotificationTextDocumentDidSave, MethodRequestTextDocumentCompletion,
   MethodRequestTextDocumentHover, MethodRequestTextDocumentCodeAction, MethodCancelRequest,
   MethodShutdown, MethodNotificationExit]

/-- Go `rpc.BaseMessage`, as far as the dispatcher reads it. -/
structure BaseMessage where
  Method : Str
  Content : Str
  deriving DecidableEq, Repr

/-- The library and the collaborators of `server.HandleMessage`. A handler gets
the state and the decoded request and gives the state after it, the response (nil
or not) and the error. -/
structure ServerLib where
  /-- Go `json.Unmarshal` of the content into the request type of the method. -/
  unmarshal : Str → Str → Except Str Str
  /-- Go `lsp.NewInitializeResponse`. -/
  NewInitializeResponse : Str → Option Str × Option Str
  /-- Go `analysis.OpenDocument`. -/
  OpenDocument : State → Str → State × Option Str × Option Str
  /-- Go `analysis.CreateTextDocumentCompletion`. -/
  CreateTextDocumentCompletion : State → Str → State × Option Str × Option Str
  /-- Go `analysis.NewHoverResponse`. -/
  NewHoverResponse : State → Str → State × Option Str × Option Str
  /-- Go `analysis.TextDocumentCodeAction`. -/
  TextDocumentCodeAction : State → Str → State × Option Str × Option Str
  /-- Go `lsp.NewShutdownResponse`. -/
  NewShutdownResponse : Str → Option Str × Option Str
  /-- Go `state.CancelRequest`. -/
  CancelRequest : State → Str → State × Option Str × Option Str
  /-- Go `analysis.UpdateDocument`. -/
  UpdateDocument : State → Str → State × Option Str × Option Str
  /-- URI of a decoded `didSave` request, `request.Params.TextDocument.URI`. -/
  saveURI : Str → Str
  /-- Go `url.Parse`: the path of the URI. -/
  urlPath : Str → Except Str Str
  /-- Go `os.ReadFile`. -/
  ReadFile : Str → Except Str Str

/-- How a call of `server.HandleMessage` ends: it returns a response (nil or not)
and an error (nil or not), or the process ends. -/
inductive ServerOutcome where
  | returned (response : Option Str) (err : Option Str)
  | exited (code : Nat)
  deriving DecidableEq, Repr

/-- Go `server.HandleMessage(ctx, state, msg)`. The context is `done`: whether
`hCtx.Done()` is closed when the loop comes to its `i`-th iteration. The first
argument bounds the iterations of the `for` loop: `none` is a call that is still
in the loop after that many iterations. A call starts at iteration 0. -/
def Server.HandleMessage (lib : ServerLib) (done : Nat → Bool) :
    Nat → Nat → State → BaseMessage → Option (State × ServerOutcome)
  | 0, _, _, _ => none
  | fuel + 1, i, state, msg =>
    if done i then
      some (state, .returned none (some (ascii "context cancelled: context canceled")))
    else if msg.Method = MethodInitialize then
      match lib.unmarshal MethodInitialize msg.Content with
      | .error e =>
        some (state, .returned none
          (some (ascii "decode initialize request (initialize) failed: " ++ e)))
      | .ok request =>
        match lib.NewInitializeResponse request with
        | (response, err) => some (state, .returned response err)
    else if msg.Method = MethodRequestTextDocumentDidOpen then
      match lib.unmarshal MethodRequestTextDocumentDidOpen msg.Content with
      | .error e =>
        some (state, .returned none
          (some (ascii "decode (textDocument/didOpen) request failed: " ++ e)))
      | .ok request =>
        match lib.OpenDocument state request with
        | (st, response, err) => some (st, .returned response err)
    else if msg.Method = MethodRequestTextDocumentCompletion then
      match lib.unmarshal MethodRequestTextDocumentCompletion msg.Content with
      | .error e =>
        some (state, .returned none (some (ascii
          "failed to unmarshal completion request (textDocument/completion): " ++ e)))
      | .ok request =>
        match lib.CreateTextDocumentCompletion state request with
        | (st, response, err) => some (st, .returned response err)
    else if msg.Method = MethodRequestTextDocumentHover then
      match lib.unmarshal MethodRequestTextDocumentHover msg.Content with
      | .error e =>
        some (state, .returned none (some (ascii "failed unmarshal of hover request (): " ++ e)))
      | .ok request =>
        match lib.NewHoverResponse state request with
        | (st, _, some e) => some (st, .returned none (some (ascii "failed to get hover: " ++ e)))
        | (st, response, none) => some (st, .returned response none)
    else if msg.Method = MethodRequestTextDocumentCodeAction then
      match lib.unmarshal MethodRequestTextDocumentCodeAction msg.Content with
      | .error e =>
        some (state, .returned none (some (ascii
          "failed to unmarshal of codeAction request (textDocument/codeAction): " ++ e)))
      | .ok request =>
        match lib.TextDocumentCodeAction state request with
        | (st, response, err) => some (st, .returned response err)
    else if msg.Method = MethodShutdown then
      match lib.unmarshal MethodShutdown msg.Content with
      | .error e =>
        some (state, .returned none (some (ascii "decode (shutdown) request failed: " ++ e)))
      | .ok request =>
        match lib.NewShutdownResponse request with
        | (response, err) => some (state, .returned response err)
    else if msg.Method = MethodCancelRequest then
      match lib.unmarshal MethodCancelRequest msg.Content with
      | .error e =>
        some (state, .returned none (some (ascii
          "failed to unmarshal cancel request ($/cancelRequest): " ++ e)))
      | .ok request =>
        match lib.CancelRequest state request with
        | (st, _, some e) =>
          some (st, .returned none (some (ascii "failed to cancel request: " ++ e)))
        | (st, none, none) =>
          some (st, .returned none (some (ascii "failed to cancel request: %!w(<nil>)")))
        | (st, some response, none) => some (st, .returned (some response) none)
    else if msg.Method = MethodNotificationInitialized then
      match lib.unmarshal MethodNotificationInitialized msg.Content with
      | .error e =>
        some (state, .returned none (some (ascii "decode (initialized) request failed: " ++ e)))
      | .ok _ => some (state, .returned none none)
    else if msg.Method = MethodNotificationExit then
      some (state, .exited 0)
    else if msg.Method = MethodNotificationTextDocumentDidSave then
      match lib.unmarshal MethodNotificationTextDocumentDidSave msg.Content with
      | .error e =>
        some (state, .returned none (some (ascii "decode (didSave) request failed: " ++ e)))
      | .ok request =>
        match lib.urlPath (lib.saveURI request) with
        | .error e => some (state, .returned none (some (ascii "failed to parse uri: " ++ e)))
        | .ok path =>
          match lib.ReadFile path with
          | .error e => some (state, .returned none (some (ascii "failed to read file: " ++ e)))
          | .ok read =>
            some ({ state with Documents := state.Documents.set (lib.saveURI request) read },
              .returned none none)
    else if msg.Method = NotificationTextDocumentDidClose then
      match lib.unmarshal NotificationTextDocumentDidClose msg.Content with
      | .error e =>
        some (state, .returned none (some (ascii "decode (didClose) request failed: " ++ e)))
      | .ok _ => Server.HandleMessage lib done fuel (i + 1) state msg
    else if msg.Method = NotificationMethodTextDocumentDidChange then
      match lib.unmarshal NotificationMethodTextDocumentDidChange msg.Content with
      | .error e =>
        some (state, .returned none
          (some (ascii "decode (textDocument/didChange) request failed: " ++ e)))
      | .ok request =>
        match lib.UpdateDocument state request with
        | (st, response, err) => some (st, .returned response err)
    else
      some (state, .returned none (some (ascii "unknown method: " ++ msg.Method)))

/-! ## The two read loops -/

/-- Go `(*Root).handle`: it hands the frame to `HandleMessage`, logs the error, if
any, and returns nil. -/
def Root.handle (lib : Lib) (s : Root) (msg : Str) : Root × Outcome :=
  match s.HandleMessage lib msg with
  | (s1, .exited code) => (s1, .exited code)
  | (s1, .returned _) => (s1, .returned none)

/-- The loop `for scanner.Scan()` of the command that `(*Root).ReturnCmd` returns,
on the frames that the scanner yields: the receiver at the end, the frames that
were handed to `handle`, and the status when the process ended before the end of
the input (`none`: the loop ended with the input and the command returned nil).
An error of `handle` is logged and the loop goes on. -/
def Root.ReturnCmd (lib : Lib) : Root → List Str → Root × List Str × Option Nat
  | s, [] => (s, [], none)
  | s, msg :: frames =>
    match Root.handle lib s msg with
    | (s1, .exited code) => (s1, [msg], some code)
    | (s1, .returned _) =>
      match Root.ReturnCmd lib s1 frames with
      | (s2, handled, status) => (s2, msg :: handled, status)

/-- The loop `for scanner.Scan()` of the command that `NewLSPCmd` returns, on the
frames that the scanner yields, for the handler `handle` (the state and the writer
it works on are `σ`): the state at the end, the frames that were handed to the
handler, and the error that the command returns (`none` is nil). -/
def NewLSPCmd {σ : Type} (DecodeMessage : Str → Except Str (Str × Str))
    (handle : σ → Str → σ × Option Str) : σ → List Str → σ × List Str × Option Str
  | s, [] => (s, [], none)
  | s, msg :: frames =>
    match DecodeMessage msg with
    | .error e => (s, [], some (ascii "failed to decode message: " ++ e))
    | .ok _ =>
      match handle s msg with
      | (s1, some e) => (s1, [msg], some (ascii "failed to handle message: " ++ e))
      | (s1, none) =>
        match NewLSPCmd DecodeMessage handle s1 frames with
        | (s2, handled, err) => (s2, msg :: handled, err)

/-! ## Sample inputs, to apply the theorems to -/

/-- The source `type A struct {`, then the fields `X int` with the tag literal
`json:"x"` and `Y int` with the tag literal `json:"y,omitempty"`, each on a line
of its own after a tab, then `}`. -/
def sampleSrc : Str :=
  ascii "type A struct \x7b" ++ [10, 9] ++ ascii "X int " ++ [96] ++ ascii "json:" ++ [34] ++
    ascii "x" ++ [34, 96, 10, 9] ++ ascii "Y int " ++ [96] ++ ascii "json:" ++ [34] ++
    ascii "y,omitempty" ++ [34, 96, 10] ++ ascii "\x7d"

/-- The field `X` of `sampleSrc` as parsed after the line `package main`: it starts
at offset 30, on line 3, and ends at offset 46. -/
def sampleX : AstField :=
  { Names := [ascii "X"], Type_ := ascii "int",
    Tag := some ([96] ++ ascii "json:" ++ [34] ++ ascii "x" ++ [34, 96]),
    Offset := 30, EndOffset := 46, Line := 3 }

/-- The field `Y` of `sampleSrc`: offsets 48 to 74, line 4. -/
def sampleY : AstField :=
  { Names := [ascii "Y"], Type_ := ascii "int",
    Tag := some ([96] ++ ascii "json:" ++ [34] ++ ascii "y,omitempty" ++ [34, 96]),
    Offset := 48, EndOffset := 74, Line := 4 }

/-- The struct types of `sampleSrc`. -/
def sampleFile : AstFile := [[sampleX, sampleY]]

/-- The field `X int` with the tag literal `json:x`, which `ParseTags` rejects. -/
def sampleBadX : AstField :=
  { Names := [ascii "X"], Type_ := ascii "int", Tag := some ([96] ++ ascii "json:x" ++ [96]),
    Offset := 30, EndOffset := 44, Line := 3 }

/-- The field `X int` without tag of `type A struct { X int }`. -/
def sampleBareX : AstField :=
  { Names := [ascii "X"], Type_ := ascii "int", Tag := none,
    Offset := 29, EndOffset := 34, Line := 2 }

/-- A stand-in for the library of the dispatcher: a frame is a method, a newline
and the contents; contents decode to their length, and do not decode when empty;
the handlers of the state return nothing of interest. -/
def sampleLib : Lib :=
  { DecodeMessage := fun msg =>
      .ok (msg.takeWhile (· ≠ 10), msg.drop ((msg.takeWhile (· ≠ 10)).length + 1))
    EncodeMessage := fun r =>
      match r with
      | .initializeResult id => .ok (ascii "initialize " ++ [id.toNat])
      | .publishDiagnostics _ _ uri _ => .ok (ascii "diagnostics " ++ uri)
      | .shutdown rpc id => .ok (ascii "shutdown " ++ rpc ++ [32, id.toNat])
      | .fromState payload => .ok payload
    unmarshalInitializeRequest := fun c => if c = [] then .error (ascii "EOF") else .ok c.length
    unmarshalInitialized := fun c => if c = [] then .error (ascii "EOF") else .ok ()
    unmarshalDidOpen := fun c => if c = [] then .error (ascii "EOF") else .ok (c, c)
    unmarshalDidClose := fun c => if c = [] then .error (ascii "EOF") else .ok c
    unmarshalCompletion := fun c => if c = [] then .error (ascii "EOF") else .ok c
    unmarshalDidChange := fun c => if c = [] then .error (ascii "EOF") else .ok (c, [c])
    unmarshalHover := fun c => if c = [] then .error (ascii "EOF") else .ok c
    unmarshalCodeAction := fun c => if c = [] then .error (ascii "EOF") else .ok c
    unmarshalShutdown := fun c => if c = [] then .error (ascii "EOF") else .ok c.length
    unmarshalCancel := fun c => if c = [] then .error (ascii "EOF") else .ok c.length
    OpenDocument := fun st uri text =>
      ({ st with Documents := st.Documents.set uri text }, .ok [])
    UpdateDocument := fun st uri text =>
      ({ st with Documents := st.Documents.set uri text }, .ok [])
    CreateTextDocumentCompletion := fun st c => (st, .ok c)
    Hover := fun st c => (st, .ok c)
    TextDocumentCodeAction := fun st c => (st, c)
    CancelRequest := fun st _ => (st, .ok []) }

/-- A receiver with one open document and a writer that takes everything. -/
def sampleRoot : Root :=
  { State := { Documents := fun u => if u = ascii "a.go" then some (ascii "package a") else none,
               Rest := [] },
    Writer := { written := [], script := [] } }

/-- A receiver like `sampleRoot` whose writer fails on its first call of `Write`,
taking nothing, and takes everything afterwards. -/
def sampleBrokenRoot : Root :=
  { State := sampleRoot.State,
    Writer := { written := [], script := [(0, some (ascii "broken pipe"))] } }

/-- A receiver like `sampleRoot` whose writer takes three bytes on its first call
of `Write`, without error, and everything afterwards. -/
def sampleShortRoot : Root :=
  { State := sampleRoot.State,
    Writer := { written := [], script := [(3, none)] } }

/-- A stand-in for `rpc.DecodeMessage`: the one of `sampleLib`, but a frame
without a newline does not decode. -/
def sampleDecode (msg : Str) : Except Str (Str × Str) :=
  if 10 ∈ msg then sampleLib.DecodeMessage msg else .error (ascii "no header")

/-- A stand-in for a handler of the `lsp` subcommand: its state is the number of
frames it has accepted, and it returns an error for a method that is not in the
method table. -/
def sampleHandler (accepted : Nat) (msg : Str) : Nat × Option Str :=
  if msg.takeWhile (· ≠ 10) ∈ methodTable then (accepted + 1, none)
  else (accepted, some (ascii "unknown method: " ++ msg.takeWhile (· ≠ 10)))

/-- A stand-in for the library of `server.HandleMessage`: contents decode to
themselves, and do not decode when empty; a handler answers with the request. -/
def sampleServerLib : ServerLib :=
  { unmarshal := fun _ c => if c = [] then .error (ascii "EOF") else .ok c
    NewInitializeResponse := fun c => (some c, none)
    OpenDocument := fun st c => (st, some c, none)
    CreateTextDocumentCompletion := fun st c => (st, some c, none)
    NewHoverResponse := fun st c => (st, some c, none)
    TextDocumentCodeAction := fun st c => (st, some c, none)
    NewShutdownResponse := fun c => (some c, none)
    CancelRequest := fun st c => (st, some c, none)
    UpdateDocument := fun st c => (st, some c, none)
    saveURI := fun c => c
    urlPath := fun u => .ok u
    ReadFile := fun _ => .error (ascii "no such file") }

/-- The tags of the literal `json:"x" xml:"y"` of a field on line 3, from offset 30
to offset 54. -/
def sampleTags : Tags :=
  { tags := [{ Key := ascii "json", Name := ascii "x", Options := none,
               Line := 3, Start := 30, End := 54 },
             { Key := ascii "xml", Name := ascii "y", Options := none,
               Line := 3, Start := 30, End := 54 }] }

/-- The embedded field `io.Reader` with the tag literal `json:"r"`, on the line 3
of the parsed text after a tab: it has no name; offsets 30 to 50. -/
def sampleEmbedded : AstField :=
  { Names := [], Type_ := ascii "&\x7bio Reader\x7d",
    Tag := some ([96] ++ ascii "json:" ++ [34] ++ ascii "r" ++ [34, 96]),
    Offset := 30, EndOffset := 50, Line := 3 }

/-- The field `A, B int` with the tag literal `json:"x"`, which declares two
names; offsets 30 to 49, line 3. -/
def sampleTwoNames : AstField :=
  { Names := [ascii "A", ascii "B"], Type_ := ascii "int",
    Tag := some ([96] ++ ascii "json:" ++ [34] ++ ascii "x" ++ [34, 96]),
    Offset := 30, EndOffset := 49, Line := 3 }

/-- The field `Y int` without tag that follows `sampleBadX` on the line 4; offsets
46 to 51. -/
def sampleBareY : AstField :=
  { Names := [ascii "Y"], Type_ := ascii "int", Tag := none,
    Offset := 46, EndOffset := 51, Line := 4 }

/-- The backing array `o1 o2 o3 a` of four strings at the address 0, the tag
`json` whose options are the four of them, and the tag `xml` whose options are the
first three, with a capacity of four: what `base := []string{"o1", "o2", "o3",
"a"}` and the tags `&Tag{Key: "json", Options: base}` and
`&Tag{Key: "xml", Options: base[:3]}` are in memory. The slot at the address 4
holds `b`, the one option of a call `AddOptions("xml", "b")`. -/
def sharedMemory : Memory :=
  { slots := fun a =>
      if a = 0 then ascii "o1" else if a = 1 then ascii "o2" else if a = 2 then ascii "o3"
      else if a = 3 then ascii "a" else if a = 4 then ascii "b" else []
    next := 5
    objs := fun p =>
      if p = 0 then
        { Key := ascii "json", Name := ascii "x", Options := some { ptr := 0, len := 4, cap := 4 },
          Line := 3, Start := 30, End := 54 }
      else
        { Key := ascii "xml", Name := ascii "y", Options := some { ptr := 0, len := 3, cap := 4 },
          Line := 3, Start := 30, End := 54 } }

/-- The tags `json` and `xml` with a backing array each: `json` has the options
`o1 o2` in an array of four slots at the address 0, `xml` the option `o1` in an
array of one slot at the address 4. The slots from the address 5 on hold
`b o1 b c d`, the options of a call of `AddOptions`. -/
def apartMemory : Memory :=
  { slots := fun a =>
      if a = 0 then ascii "o1" else if a = 1 then ascii "o2" else if a = 4 then ascii "o1"
      else if a = 5 then ascii "b" else if a = 6 then ascii "o1" else if a = 7 then ascii "b"
      else if a = 8 then ascii "c" else if a = 9 then ascii "d" else []
    next := 10
    objs := fun p =>
      if p = 0 then
        { Key := ascii "json", Name := ascii "x", Options := some { ptr := 0, len := 2, cap := 4 },
          Line := 3, Start := 30, End := 54 }
      else
        { Key := ascii "xml", Name := ascii "y", Options := some { ptr := 4, len := 1, cap := 1 },
          Line := 3, Start := 30, End := 54 } }

/-- The tag `json` with the option `x` in the slot 1 of an array of three slots
that begins at the address 0: what `base := []string{"w", "x", "y"}` and
`&Tag{Key: "json", Options: base[1:2]}` are in memory. -/
def overlapMemory : Memory :=
  { slots := fun a =>
      if a = 0 then ascii "w" else if a = 1 then ascii "x" else if a = 2 then ascii "y" else []
    next := 3
    objs := fun _ =>
      { Key := ascii "json", Name := ascii "n", Options := some { ptr := 1, len := 1, cap := 2 },
        Line := 3, Start := 30, End := 54 } }

/-! # Theorems -/

/-! ## Reading and slicing -/

theorem get?_append_cons {α : Type} (a : List α) (b : α) (r : List α) :
    (a ++ b :: r).get? a.length = some b := by
  induction a with
  | nil => rfl
  | cons x a ih => simpa using ih

theorem idx_eq_ok {α : Type} {s : List α} {i : Nat} {b : α} (h : s.get? i = some b) :
    idx s i = .ok b := by
  unfold idx; rw [h]

theorem idx_append_cons {α : Type} (a : List α) (b : α) (r : List α) :
    idx (a ++ b :: r) a.length = .ok b :=
  idx_eq_ok (get?_append_cons a b r)

theorem sliceFrom_append {α : Type} (a r : List α) :
    sliceFrom (a ++ r) a.length = .ok r := by
  simp [sliceFrom]

theorem sliceTo_append {α : Type} (a r : List α) :
    sliceTo (a ++ r) a.length = .ok a := by
  simp [sliceTo]

/-! ## The three scanning loops -/

theorem skipSpace_end (tag : Str) (f i : Nat) (h : tag.length ≤ i) :
    skipSpace tag (f + 1) i = .ok i := by
  rw [skipSpace, if_neg (by omega)]

theorem skipSpace_at (tag : Str) (f i c : Nat) (h : tag.get? i = some c) :
    skipSpace tag (f + 1) i = if c = 32 then skipSpace tag f (i + 1) else .ok i := by
  have hlt : i < tag.length := by
    by_contra hn
    rw [List.get?_eq_none.mpr (by omega)] at h
    cases h
  rw [skipSpace, if_pos hlt, idx_eq_ok h]

theorem scanKey_end (tag : Str) (f i : Nat) (h : tag.length ≤ i) :
    scanKey tag (f + 1) i = .ok i := by
  rw [scanKey, if_neg (by omega)]

theorem scanKey_at (tag : Str) (f i c : Nat) (h : tag.get? i = some c) :
    scanKey tag (f + 1) i = if isKeyByte c then scanKey tag f (i + 1) else .ok i := by
  have hlt : i < tag.length := by
    by_contra hn
    rw [List.get?_eq_none.mpr (by omega)] at h
    cases h
  rw [scanKey, if_pos hlt, idx_eq_ok h]

theorem scanQuoted_end (tag : Str) (f i : Nat) (h : tag.length ≤ i) :
    scanQuoted tag (f + 1) i = .ok i := by
  rw [scanQuoted, if_neg (by omega)]

theorem scanQuoted_at (tag : Str) (f i c : Nat) (h : tag.get? i = some c) :
    scanQuoted tag (f + 1) i =
      if c ≠ 34 then scanQuoted tag f ((if c = 92 then i + 1 else i) + 1) else .ok i := by
  have hlt : i < tag.length := by
    by_contra hn
    rw [List.get?_eq_none.mpr (by omega)] at h
    cases h
  rw [scanQuoted, if_pos hlt, idx_eq_ok h]

/-- The space loop runs over a block of spaces and stops at a byte that is not
a space, or at the end of the input. -/
theorem skipSpace_run (sp : Str) (hsp : ∀ b ∈ sp, b = 32) (post : Str)
    (hpost : ∀ c r, post = c :: r → c ≠ 32) :
    ∀ (a : Str) (f : Nat), sp.length < f →
      skipSpace (a ++ (sp ++ post)) f a.length = .ok (a.length + sp.length) := by
  induction sp with
  | nil =>
    intro a f hf
    obtain ⟨f, rfl⟩ : ∃ g, f = g + 1 := ⟨f - 1, by simp at hf; omega⟩
    cases post with
    | nil => simpa using skipSpace_end a f a.length (le_refl _)
    | cons c r =>
      have hc := hpost c r rfl
      rw [List.nil_append, skipSpace_at _ f _ c (get?_append_cons a c r), if_neg hc]
      rfl
  | cons b sp ih =>
    intro a f hf
    obtain ⟨f, rfl⟩ : ∃ g, f = g + 1 := ⟨f - 1, by simp at hf; omega⟩
    have hb : b = 32 := hsp b (by simp)
    have ih2 := ih (fun b hb => hsp b (by simp [hb])) (a ++ [b]) f (by simp at hf; omega)
    rw [List.cons_append, skipSpace_at _ f _ b (get?_append_cons a b _), if_pos hb]
    simp only [List.append_assoc, List.singleton_append, List.length_append, List.length_singleton,
      List.length_cons, List.length_nil, Nat.zero_add] at ih2 ⊢
    rw [ih2]; congr 1; omega

/-- The key loop runs over a block of key bytes and stops at a byte that is not
a key byte, or at the end of the input. -/
theorem scanKey_run (k : Str) (hk : ∀ b ∈ k, isKeyByte b = true) (post : Str)
    (hpost : ∀ c r, post = c :: r → isKeyByte c = false) :
    ∀ (a : Str) (f : Nat), k.length < f →
      scanKey (a ++ (k ++ post)) f a.length = .ok (a.length + k.length) := by
  induction k with
  | nil =>
    intro a f hf
    obtain ⟨f, rfl⟩ : ∃ g, f = g + 1 := ⟨f - 1, by simp at hf; omega⟩
    cases post with
    | nil => simpa using scanKey_end a f a.length (le_refl _)
    | cons c r =>
      have hc := hpost c r rfl
      rw [List.nil_append, scanKey_at _ f _ c (get?_append_cons a c r), hc]
      rfl
  | cons b k ih =>
    intro a f hf
    obtain ⟨f, rfl⟩ : ∃ g, f = g + 1 := ⟨f - 1, by simp at hf; omega⟩
    have hb : isKeyByte b = true := hk b (by simp)
    have ih2 := ih (fun b hb => hk b (by simp [hb])) (a ++ [b]) f (by simp at hf; omega)
    rw [List.cons_append, scanKey_at _ f _ b (get?_append_cons a b _), hb]
    simp only [List.append_assoc, List.singleton_append, List.length_append, List.length_singleton,
      List.length_cons, List.length_nil, Nat.zero_add, if_true] at ih2 ⊢
    rw [ih2]; congr 1; omega

/-- The quoted-string loop runs over a block of bytes that are neither a quote
nor a backslash and stops at the quote that follows. -/
theorem scanQuoted_run (v : Str) (hv : ∀ b ∈ v, b ≠ 34 ∧ b ≠ 92) (post : Str) :
    ∀ (a : Str) (f : Nat), v.length < f →
      scanQuoted (a ++ (v ++ 34 :: post)) f a.length = .ok (a.length + v.length) := by
  induction v with
  | nil =>
    intro a f hf
    obtain ⟨f, rfl⟩ : ∃ g, f = g + 1 := ⟨f - 1, by simp at hf; omega⟩
    rw [List.nil_append, scanQuoted_at _ f _ 34 (get?_append_cons a 34 post)]
    rfl
  | cons b v ih =>
    intro a f hf
    obtain ⟨f, rfl⟩ : ∃ g, f = g + 1 := ⟨f - 1, by simp at hf; omega⟩
    have hb := hv b (by simp)
    have ih2 := ih (fun b hb => hv b (by simp [hb])) (a ++ [b]) f (by simp at hf; omega)
    rw [List.cons_append, scanQuoted_at _ f _ b (get?_append_cons a b _), if_pos hb.1, if_neg hb.2]
    simp only [List.append_assoc, List.singleton_append, List.length_append, List.length_singleton,
      List.length_cons, List.length_nil, Nat.zero_add] at ih2 ⊢
    rw [ih2]; congr 1; omega

/-! ## From one iteration to ParseTags -/

theorem ParseTags_step_error (tag : Str) (st en ln : Int) (a : Abort) (hne : tag ≠ [])
    (h : parseStep tag st en ln = .error a) : ParseTags tag st en ln = .error a := by
  simp [ParseTags, parseLoop, hne, h]

theorem ParseTags_step_brk (tag : Str) (st en ln : Int) (hne : tag ≠ [])
    (h : parseStep tag st en ln = .ok .brk) : ParseTags tag st en ln = .ok none := by
  simp [ParseTags, parseLoop, hne, h]

theorem ParseTags_step_last (tag : Str) (st en ln : Int) (t : Tag) (hne : tag ≠ [])
    (h : parseStep tag st en ln = .ok (.emit t [])) :
    ParseTags tag st en ln = .ok (some { tags := [t] }) := by
  obtain ⟨c, r, rfl⟩ : ∃ c r, tag = c :: r := by
    cases tag with
    | nil => exact absurd rfl hne
    | cons c r => exact ⟨c, r, rfl⟩
  simp [ParseTags, parseLoop, h]

/-- A key is a non-empty block of key bytes: the head of the input after it is
not a key byte when it is a colon. -/
theorem colon_not_key (post : Str) : ∀ c r, (58 :: post) = c :: r → isKeyByte c = false := by
  intro c r h
  cases h
  rfl

theorem key_head_not_space (key post : Str) (hk : ∀ b ∈ key, isKeyByte b = true)
    (hpost : ∀ c r, post = c :: r → c ≠ 32) : ∀ c r, key ++ post = c :: r → c ≠ 32 := by
  intro c r h
  cases key with
  | nil => exact hpost c r h
  | cons b k =>
    cases h
    intro hc
    have := hk c (by simp)
    rw [hc] at this
    exact absurd this (by decide)

/-- The start of an iteration on spaces, a key and a colon: the input is cut
after the spaces and the key is scanned up to the colon. -/
theorem parseStep_colon_last (sp key : Str) (st en ln : Int) (hsp : ∀ b ∈ sp, b = 32)
    (hk : ∀ b ∈ key, isKeyByte b = true) (hne : key ≠ []) :
    parseStep (sp ++ (key ++ [58])) st en ln = .error (.err .errTagSyntax) := by
  have h1 := skipSpace_run sp hsp (key ++ [58])
    (key_head_not_space key [58] hk (by intro c r h; cases h; decide)) []
    ((sp ++ (key ++ [58])).length + 1) (by simp; omega)
  have h2 := scanKey_run key hk [58] (colon_not_key []) [] ((key ++ [58]).length + 1)
    (by simp only [List.length_append, List.length_singleton]; omega)
  have h3 : sliceFrom (sp ++ (key ++ [58])) sp.length = .ok (key ++ [58]) := sliceFrom_append _ _
  simp only [List.nil_append, List.length_nil, Nat.zero_add] at h1 h2
  have hl : 0 < key.length := List.length_pos.mpr hne
  unfold parseStep
  simp only [h1, h3, h2]
  simp [hne]

/-- An iteration on spaces, a key, a colon and a byte that is not a quote. -/
theorem parseStep_no_quote (sp key rest : Str) (b : Nat) (st en ln : Int)
    (hsp : ∀ b ∈ sp, b = 32) (hk : ∀ b ∈ key, isKeyByte b = true) (hne : key ≠ [])
    (hb : b ≠ 34) :
    parseStep (sp ++ (key ++ 58 :: b :: rest)) st en ln = .error (.err .errTagValueSyntax) := by
  have h1 := skipSpace_run sp hsp (key ++ 58 :: b :: rest)
    (key_head_not_space key _ hk (by intro c r h; cases h; decide)) []
    ((sp ++ (key ++ 58 :: b :: rest)).length + 1) (by simp; omega)
  have h2 := scanKey_run key hk (58 :: b :: rest) (colon_not_key _) []
    ((key ++ 58 :: b :: rest).length + 1)
    (by simp only [List.length_append, List.length_cons]; omega)
  have h3 : sliceFrom (sp ++ (key ++ 58 :: b :: rest)) sp.length = .ok (key ++ 58 :: b :: rest) :=
    sliceFrom_append _ _
  have h4 : idx (key ++ 58 :: b :: rest) key.length = .ok 58 := idx_append_cons _ _ _
  have h5 : idx (key ++ 58 :: b :: rest) (key.length + 1) = .ok b := by
    have := idx_append_cons (key ++ [58]) b rest
    simpa using this
  simp only [List.nil_append, List.length_nil, Nat.zero_add] at h1 h2
  unfold parseStep
  simp only [h1, h3, h2, h4, h5]
  simp [hne, hb]

/-- An iteration on spaces, a key, a colon and a quote: what remains is the scan
of the quoted string and the statements after it. -/
theorem parseStep_quote (sp key body : Str) (st en ln : Int)
    (hsp : ∀ b ∈ sp, b = 32) (hk : ∀ b ∈ key, isKeyByte b = true) (hne : key ≠ []) :
    parseStep (sp ++ (key ++ 58 :: 34 :: body)) st en ln =
      match scanQuoted (34 :: body) ((34 :: body).length + 1) 1 with
      | .error a => .error a
      | .ok i => valueTail key (34 :: body) i st en ln := by
  have h1 := skipSpace_run sp hsp (key ++ 58 :: 34 :: body)
    (key_head_not_space key _ hk (by intro c r h; cases h; decide)) []
    ((sp ++ (key ++ 58 :: 34 :: body)).length + 1) (by simp; omega)
  have h2 := scanKey_run key hk (58 :: 34 :: body) (colon_not_key _) []
    ((key ++ 58 :: 34 :: body).length + 1)
    (by simp only [List.length_append, List.length_cons]; omega)
  have h3 : sliceFrom (sp ++ (key ++ 58 :: 34 :: body)) sp.length
      = .ok (key ++ 58 :: 34 :: body) := sliceFrom_append _ _
  have h4 : idx (key ++ 58 :: 34 :: body) key.length = .ok 58 := idx_append_cons _ _ _
  have h5 : idx (key ++ 58 :: 34 :: body) (key.length + 1) = .ok 34 := by
    have := idx_append_cons (key ++ [58]) 34 body
    simpa using this
  have h6 : sliceTo (key ++ 58 :: 34 :: body) key.length = .ok key := sliceTo_append _ _
  have h7 : sliceFrom (key ++ 58 :: 34 :: body) (key.length + 1) = .ok (34 :: body) := by
    have := sliceFrom_append (key ++ [58]) (34 :: body)
    simpa using this
  simp only [List.nil_append, List.length_nil, Nat.zero_add] at h1 h2
  unfold parseStep
  simp only [h1, h3, h2, h4, h5, h6, h7]
  have e1 : ¬ (key ++ 58 :: 34 :: body = []) := by simp
  have e2 : ¬ (key.length = 0) := by
    intro h; exact hne (List.length_eq_zero.mp h)
  have e3 : ¬ (key.length + 1 ≥ (key ++ 58 :: 34 :: body).length) := by
    simp only [List.length_append, List.length_cons]; omega
  rw [if_neg e1, if_neg e2, if_neg e3]
  simp only [ne_eq, not_true_eq_false, if_false]
  rfl

/-! ## Unquote on a body without escapes -/

theorem isPlain_iff (b : Nat) : isPlain b = true ↔ b < 128 ∧ b ≠ 34 ∧ b ≠ 92 ∧ b ≠ 10 := by
  simp [isPlain, and_assoc]

theorem validFrom_plain (v : Str) (hv : ∀ b ∈ v, b < 128) :
    ∀ f, v.length ≤ f → validFrom f v = true := by
  induction v with
  | nil => intro f _; cases f <;> rfl
  | cons b v ih =>
    intro f hf
    obtain ⟨f, rfl⟩ : ∃ g, f = g + 1 := ⟨f - 1, by simp at hf; omega⟩
    have hb : b < 128 := hv b (by simp)
    have hd : DecodeRuneInString (b :: v) = (b, 1) := by
      simp [DecodeRuneInString, hb]
    have hr : ¬ (b = RuneError ∧ True) := by
      unfold RuneError; omega
    simp only [validFrom, hd, List.drop_succ_cons, List.drop_zero]
    rw [if_neg hr]
    exact ih (fun c hc => hv c (by simp [hc])) f (by simp at hf; omega)

theorem indexOf?_plain (v rest : Str) (hv : ∀ b ∈ v, b ≠ 34) :
    (v ++ 34 :: rest).indexOf? 34 = some v.length := by
  induction v with
  | nil => simp [List.indexOf?]
  | cons b v ih =>
    have hb : b ≠ 34 := hv b (by simp)
    have := ih (fun c hc => hv c (by simp [hc]))
    simp only [List.indexOf?] at this ⊢
    simp [List.findIdx?_cons, hb, this]

theorem Unquote_plain (v : Str) (hv : ∀ b ∈ v, isPlain b = true) :
    Unquote (34 :: (v ++ [34])) = some v := by
  have h1 : (v ++ [34]).indexOf? 34 = some v.length :=
    indexOf?_plain v [] (fun b hb => ((isPlain_iff b).mp (hv b hb)).2.1)
  have h2 : ValidString v = true :=
    validFrom_plain v (fun b hb => ((isPlain_iff b).mp (hv b hb)).1) _ (le_refl _)
  have h3 : ¬ 92 ∈ v := fun h => ((isPlain_iff 92).mp (hv 92 h)).2.2.1 rfl
  have h4 : ¬ 10 ∈ v := fun h => ((isPlain_iff 10).mp (hv 10 h)).2.2.2 rfl
  unfold Unquote
  simp only [h1]
  simp [h2, h3, h4]

/-! ## An iteration on a well-formed pair -/

theorem scanQuoted_plain (v rest : Str) (hv : ∀ b ∈ v, isPlain b = true) :
    scanQuoted (34 :: (v ++ 34 :: rest)) ((34 :: (v ++ 34 :: rest)).length + 1) 1 =
      .ok (v.length + 1) := by
  have := scanQuoted_run v (fun b hb => ⟨((isPlain_iff b).mp (hv b hb)).2.1,
    ((isPlain_iff b).mp (hv b hb)).2.2.1⟩) rest [34] ((34 :: (v ++ 34 :: rest)).length + 1)
    (by simp only [List.length_append, List.length_cons]; omega)
  simp only [List.singleton_append, List.length_singleton] at this
  rw [this]; congr 1; omega

theorem Split_ne_nil (s : Str) : Split s ≠ [] := List.splitOnP_ne_nil _ _

/-- The statements after the scan, on a body without escapes. -/
theorem valueTail_plain (key v rest : Str) (st en ln : Int) (hv : ∀ b ∈ v, isPlain b = true)
    (name : Str) (opts : List Str) (hs : Split v = name :: opts) :
    valueTail key (34 :: (v ++ 34 :: rest)) (v.length + 1) st en ln =
      .ok (.emit { Key := key, Name := name,
                   Options := if opts = [] then none else some opts,
                   Start := st, End := en, Line := ln } rest) := by
  have h1 : sliceTo (34 :: (v ++ 34 :: rest)) (v.length + 1 + 1) = .ok (34 :: (v ++ [34])) := by
    have := sliceTo_append (34 :: (v ++ [34])) rest
    simpa using this
  have h2 : sliceFrom (34 :: (v ++ 34 :: rest)) (v.length + 1 + 1) = .ok rest := by
    have := sliceFrom_append (34 :: (v ++ [34])) rest
    simpa using this
  have h3 : ¬ (v.length + 1 ≥ (34 :: (v ++ 34 :: rest)).length) := by
    simp only [List.length_append, List.length_cons]; omega
  unfold valueTail
  rw [if_neg h3]
  simp only [h1, h2, Unquote_plain v hv, hs]
  simp [idx, sliceFrom]

theorem parseStep_plain (sp key v rest : Str) (st en ln : Int)
    (hsp : ∀ b ∈ sp, b = 32) (hk : ∀ b ∈ key, isKeyByte b = true) (hne : key ≠ [])
    (hv : ∀ b ∈ v, isPlain b = true) (name : Str) (opts : List Str)
    (hs : Split v = name :: opts) :
    parseStep (sp ++ (key ++ 58 :: 34 :: (v ++ 34 :: rest))) st en ln =
      .ok (.emit { Key := key, Name := name,
                   Options := if opts = [] then none else some opts,
                   Start := st, End := en, Line := ln } rest) := by
  rw [parseStep_quote sp key _ st en ln hsp hk hne, scanQuoted_plain v rest hv]
  exact valueTail_plain key v rest st en ln hv name opts hs

theorem isLetter_keyByte (b : Nat) (h : isLetter b = true) : isKeyByte b = true := by
  simp only [isLetter, isKeyByte, Bool.or_eq_true, Bool.and_eq_true, decide_eq_true_eq,
    bne_iff_ne, ne_eq, gt_iff_lt] at h ⊢
  omega

theorem isAlnum_plain (b : Nat) (h : isAlnum b = true) : isPlain b = true := by
  simp only [isAlnum, isLetter, isPlain, Bool.or_eq_true, Bool.and_eq_true, decide_eq_true_eq,
    bne_iff_ne, ne_eq] at h ⊢
  omega

theorem isAlnum_ne_comma (b : Nat) (h : isAlnum b = true) : b ≠ 44 := by
  simp only [isAlnum, isLetter, Bool.or_eq_true, Bool.and_eq_true, decide_eq_true_eq] at h
  omega

theorem isPlain_comma : isPlain 44 = true := by decide

theorem Join_plain (xs : List Str) (h : ∀ x ∈ xs, ∀ b ∈ x, isPlain b = true) :
    ∀ b ∈ Join xs, isPlain b = true := by
  intro b hb
  unfold Join at hb
  induction xs with
  | nil => simp [List.intercalate] at hb
  | cons x xs ih =>
    cases xs with
    | nil =>
      simp [List.intercalate] at hb
      exact h x (by simp) b hb
    | cons y ys =>
      simp only [List.intercalate, List.intersperse, List.flatten_cons, List.mem_append,
        List.mem_singleton] at hb ih
      rcases hb with hb | hb | hb
      · exact h x (by simp) b hb
      · rw [hb]; exact isPlain_comma
      · exact ih (fun z hz => h z (by simp [hz])) hb

/-- A well-formed single pair whose value has no escapes parses to one tag. -/
theorem ParseTags_plain (key v : Str) (st en ln : Int)
    (hk : ∀ b ∈ key, isKeyByte b = true) (hne : key ≠ [])
    (hv : ∀ b ∈ v, isPlain b = true) (name : Str) (opts : List Str)
    (hs : Split v = name :: opts) :
    ParseTags (key ++ [58, 34] ++ v ++ [34]) st en ln =
      .ok (some { tags := [{ Key := key, Name := name,
                             Options := if opts = [] then none else some opts,
                             Line := ln, Start := st, End := en }] }) := by
  have h := parseStep_plain [] key v [] st en ln (by simp) hk hne hv name opts hs
  have e : key ++ [58, 34] ++ v ++ [34] = [] ++ (key ++ 58 :: 34 :: (v ++ [34])) := by simp
  rw [e]
  exact ParseTags_step_last _ st en ln _ (by simp) h

/-! ## C1 -/

/-- C1, as stated, fails at the empty key: the literal `:"a"` (the key, made only
of ASCII letters since it has no byte, followed by `:"a"`) is rejected with the
key-syntax error instead of giving one tag. -/
theorem C1_counterexample :
    (∀ b ∈ ([] : Str), isLetter b = true) ∧ (∀ b ∈ ascii "a", isAlnum b = true) ∧
    ParseTags ([] ++ [58, 34] ++ Join [ascii "a"] ++ [34]) 1 2 3 =
      .error (.err .errTagKeySyntax) := by
  decide

/-- C1 (amended): for every non-empty key of ASCII letters, every name and list of
options of ASCII letters and digits and all integers start, end, line,
`ParseTags` on `key:"name,opt1,...,optk"` returns no error and exactly one tag,
with that key, that name, the options in order (nil when there is none) and the
positions of the caller. -/
theorem C1_single_pair (key name : Str) (opts : List Str) (start end_ line : Int)
    (hne : key ≠ []) (hkey : ∀ b ∈ key, isLetter b = true)
    (hname : ∀ b ∈ name, isAlnum b = true)
    (hopts : ∀ o ∈ opts, ∀ b ∈ o, isAlnum b = true) :
    ParseTags (key ++ [58, 34] ++ Join (name :: opts) ++ [34]) start end_ line =
      .ok (some { tags := [{ Key := key, Name := name,
                             Options := if opts = [] then none else some opts,
                             Line := line, Start := start, End := end_ }] }) := by
  have hparts : ∀ x ∈ name :: opts, ∀ b ∈ x, isAlnum b = true := by
    intro x hx
    rcases List.mem_cons.mp hx with h | h
    · rw [h]; exact hname
    · exact hopts x h
  have hsplit : Split (Join (name :: opts)) = name :: opts :=
    List.splitOn_intercalate (name :: opts) 44
      (fun l hl h44 => isAlnum_ne_comma 44 (hparts l hl 44 h44) rfl) (List.cons_ne_nil _ _)
  exact ParseTags_plain key (Join (name :: opts)) start end_ line
    (fun b hb => isLetter_keyByte b (hkey b hb)) hne
    (Join_plain _ (fun x hx b hb => isAlnum_plain b (hparts x hx b hb))) name opts hsplit

/-- C1 at `json:"a,omitempty"`: one tag `{json, a, [omitempty]}`. -/
theorem C1_single_pair_witness :
    ParseTags (ascii "json" ++ [58, 34] ++ Join (ascii "a" :: [ascii "omitempty"]) ++ [34])
        7 30 2 =
      .ok (some { tags := [{ Key := ascii "json", Name := ascii "a",
                             Options := if [ascii "omitempty"] = [] then none
                                        else some [ascii "omitempty"],
                             Line := 2, Start := 7, End := 30 }] }) :=
  C1_single_pair (ascii "json") (ascii "a") [ascii "omitempty"] 7 30 2 (by decide) (by decide)
    (by decide) (by decide)

/-! ## C2 -/

/-- C2: a literal made of spaces, a non-empty key, a colon and a byte that is not
a double quote (whatever follows) is rejected with the value-syntax error. -/
theorem C2_missing_quote (sp key rest : Str) (b : Nat) (start end_ line : Int)
    (hsp : ∀ c ∈ sp, c = 32) (hne : key ≠ []) (hkey : ∀ c ∈ key, isKeyByte c = true)
    (hb : b ≠ 34) :
    ParseTags (sp ++ key ++ [58] ++ b :: rest) start end_ line =
      .error (.err .errTagValueSyntax) := by
  have e : sp ++ key ++ [58] ++ b :: rest = sp ++ (key ++ 58 :: b :: rest) := by simp
  rw [e]
  exact ParseTags_step_error _ start end_ line _ (by simp)
    (parseStep_no_quote sp key rest b start end_ line hsp hkey hne hb)

/-- C2 at `json:a`. -/
theorem C2_missing_quote_witness :
    ParseTags ([] ++ ascii "json" ++ [58] ++ 97 :: []) 0 0 0 =
      .error (.err .errTagValueSyntax) :=
  C2_missing_quote [] (ascii "json") [] 97 0 0 0 (by decide) (by decide) (by decide) (by decide)

/-! ## C3 -/

/-- C3, as stated, fails at `json:`: the error is the pair-syntax error, not the
value-syntax error. -/
theorem C3_counterexample :
    ParseTags (ascii "json:") 0 0 0 = .error (.err .errTagSyntax) ∧
    ParseTags (ascii "json:") 0 0 0 ≠ .error (.err .errTagValueSyntax) := by
  decide

/-- C3 (amended): a literal made of spaces and a non-empty key followed by a colon
as the last byte is rejected with the pair-syntax error `errTagSyntax`. -/
theorem C3_colon_last (sp key : Str) (start end_ line : Int)
    (hsp : ∀ c ∈ sp, c = 32) (hne : key ≠ []) (hkey : ∀ c ∈ key, isKeyByte c = true) :
    ParseTags (sp ++ key ++ [58]) start end_ line = .error (.err .errTagSyntax) := by
  have e : sp ++ key ++ [58] = sp ++ (key ++ [58]) := by simp
  rw [e]
  exact ParseTags_step_error _ start end_ line _ (by simp)
    (parseStep_colon_last sp key start end_ line hsp hkey hne)

/-- C3 (amended) at ` json:`. -/
theorem C3_colon_last_witness :
    ParseTags ([32] ++ ascii "json" ++ [58]) 0 0 0 = .error (.err .errTagSyntax) :=
  C3_colon_last [32] (ascii "json") 0 0 0 (by decide) (by decide) (by decide)

/-! ## C4 -/

/-- C4, as stated, fails at the key made of the control byte 0x01: the literal
`\x01:"v"` is rejected with the key-syntax error. -/
theorem C4_counterexample :
    (∀ b ∈ [1], b ≠ 32 ∧ b ≠ 58 ∧ b ≠ 34 ∧ b ≠ 127) ∧
    ParseTags ([1] ++ [58, 34] ++ ascii "v" ++ [34]) 0 0 0 =
      .error (.err .errTagKeySyntax) := by
  decide

/-- C4 (amended): for every non-empty key whose bytes are all above the space
(0x20) and different from `:`, `"` and 0x7F, and every value of ASCII letters,
`ParseTags` on `key:"v"` returns no error and exactly one tag, whose Key is the
whole key. -/
theorem C4_key_bytes (key v : Str) (start end_ line : Int) (hne : key ≠ [])
    (hkey : ∀ b ∈ key, 32 < b ∧ b ≠ 58 ∧ b ≠ 34 ∧ b ≠ 127)
    (hv : ∀ b ∈ v, isLetter b = true) :
    ∃ t : Tag, t.Key = key ∧
      ParseTags (key ++ [58, 34] ++ v ++ [34]) start end_ line = .ok (some { tags := [t] }) := by
  have hk : ∀ b ∈ key, isKeyByte b = true := by
    intro b hb
    have := hkey b hb
    simp only [isKeyByte, Bool.and_eq_true, decide_eq_true_eq, bne_iff_ne, ne_eq, gt_iff_lt]
    omega
  have hp : ∀ b ∈ v, isPlain b = true := fun b hb =>
    isAlnum_plain b (by simp [isAlnum, hv b hb])
  obtain ⟨name, opts, hs⟩ : ∃ name opts, Split v = name :: opts := by
    cases h : Split v with
    | nil => exact absurd h (Split_ne_nil v)
    | cons name opts => exact ⟨name, opts, rfl⟩
  exact ⟨_, rfl, ParseTags_plain key v start end_ line hk hne hp name opts hs⟩

/-- C4 (amended) at a key of six bytes, the last two above 0x7F, and the value `v`. -/
theorem C4_key_bytes_witness :
    ∃ t : Tag, t.Key = [115, 101, 108, 45, 195, 169] ∧
      ParseTags ([115, 101, 108, 45, 195, 169] ++ [58, 34] ++ ascii "v" ++ [34]) 0 0 0 =
        .ok (some { tags := [t] }) :=
  C4_key_bytes [115, 101, 108, 45, 195, 169] (ascii "v") 0 0 0 (by decide) (by decide)
    (by decide)

theorem trailingBackslashes_snoc (l : Str) (c : Nat) :
    trailingBackslashes (l ++ [c]) = if c = 92 then trailingBackslashes l + 1 else 0 := by
  unfold trailingBackslashes
  rw [List.reverse_append, List.reverse_singleton, List.singleton_append, List.takeWhile_cons]
  by_cases h : c = 92 <;> simp [h]

theorem take_succ_of_get? (body : Str) (p c : Nat) (h : body.get? p = some c) :
    body.take (p + 1) = body.take p ++ [c] := by
  rw [List.take_succ]
  simp only [List.get?_eq_getElem?] at h
  simp [h]

theorem noUnescapedQuote_at (body : Str) (h : noUnescapedQuote body = true) (p : Nat)
    (hp : body.get? p = some 34) : trailingBackslashes (body.take p) % 2 = 1 := by
  have hlt : p < body.length := by
    by_contra hn
    rw [List.get?_eq_none.mpr (by omega)] at hp
    cases hp
  unfold noUnescapedQuote at h
  rw [List.all_eq_true] at h
  have := h p (List.mem_range.mpr hlt)
  rw [hp] at this
  simpa using this

/-- On an input without unescaped quote the scan of the quoted string runs to
the end of the input (or one byte past it, after a final backslash). -/
theorem scanQuoted_unterminated (body : Str) (h : noUnescapedQuote body = true) :
    ∀ (n p f : Nat), body.length + 1 - p ≤ n → n < f →
      (p ≤ body.length → trailingBackslashes (body.take p) % 2 = 0) →
      ∃ i, scanQuoted (34 :: body) f (p + 1) = .ok i ∧ (34 :: body).length ≤ i := by
  intro n
  induction n with
  | zero =>
    intro p f hm hf _
    obtain ⟨f, rfl⟩ : ∃ g, f = g + 1 := ⟨f - 1, by omega⟩
    exact ⟨p + 1, scanQuoted_end _ f _ (by simp only [List.length_cons]; omega),
      by simp only [List.length_cons]; omega⟩
  | succ n ih =>
    intro p f hm hf hinv
    obtain ⟨f, rfl⟩ : ∃ g, f = g + 1 := ⟨f - 1, by omega⟩
    by_cases hp : body.length ≤ p
    · exact ⟨p + 1, scanQuoted_end _ f _ (by simp only [List.length_cons]; omega),
        by simp only [List.length_cons]; omega⟩
    · have hlt : p < body.length := by omega
      obtain ⟨c, hc⟩ : ∃ c, body.get? p = some c := ⟨body.get ⟨p, hlt⟩, List.get?_eq_get hlt⟩
      have hc' : (34 :: body).get? (p + 1) = some c := by simpa using hc
      have hev := hinv (by omega)
      have hne : c ≠ 34 := by
        intro h34
        have := noUnescapedQuote_at body h p (h34 ▸ hc)
        omega
      rw [scanQuoted_at _ f _ c hc', if_pos hne]
      have htake := take_succ_of_get? body p c hc
      by_cases h92 : c = 92
      · rw [if_pos h92]
        apply ih (p + 2) f (by omega) (by omega)
        intro hp2
        have hlt2 : p + 1 < body.length := by omega
        obtain ⟨d, hd⟩ : ∃ d, body.get? (p + 1) = some d :=
          ⟨body.get ⟨p + 1, hlt2⟩, List.get?_eq_get hlt2⟩
        rw [take_succ_of_get? body (p + 1) d hd, htake, trailingBackslashes_snoc,
          trailingBackslashes_snoc, if_pos h92]
        by_cases hd92 : d = 92
        · rw [if_pos hd92]; omega
        · rw [if_neg hd92]
      · rw [if_neg h92]
        apply ih (p + 1) f (by omega) (by omega)
        intro _
        rw [htake, trailingBackslashes_snoc, if_neg h92]

/-! ## C5 -/

/-- C5: for every non-empty key and every sequence of bytes without unescaped
double quote (a quote after an odd number of backslashes does not close the
string), `ParseTags` on the key, `:"` and these bytes fails with the value-syntax
error, so no tag is returned. -/
theorem C5_unterminated (key body : Str) (start end_ line : Int) (hne : key ≠ [])
    (hkey : ∀ c ∈ key, isKeyByte c = true) (hbody : noUnescapedQuote body = true) :
    ParseTags (key ++ [58, 34] ++ body) start end_ line = .error (.err .errTagValueSyntax) := by
  have e : key ++ [58, 34] ++ body = [] ++ (key ++ 58 :: 34 :: body) := by simp
  rw [e]
  apply ParseTags_step_error _ start end_ line _ (by simp)
  rw [parseStep_quote [] key body start end_ line (by simp) hkey hne]
  obtain ⟨i, hi, hle⟩ := scanQuoted_unterminated body hbody (body.length + 1) 0
    ((34 :: body).length + 1) (by omega) (by simp only [List.length_cons]; omega)
    (fun _ => by simp [trailingBackslashes])
  rw [hi]
  simp only [valueTail]
  rw [if_pos hle]

/-- C5 at the key `a` and the bytes `x`, backslash, quote: the quote is escaped. -/
theorem C5_unterminated_witness :
    ParseTags (ascii "a" ++ [58, 34] ++ [120, 92, 34]) 0 0 0 =
      .error (.err .errTagValueSyntax) :=
  C5_unterminated (ascii "a") [120, 92, 34] 0 0 0 (by decide) (by decide) (by decide)

/-! ## C6 -/

/-- C6: on the empty literal `ParseTags` returns no error and a (non-nil) `Tags`
value that holds no tag: `Tags()`, `Keys()` and `String()` of it are empty. -/
theorem C6_empty_literal (start end_ line : Int) (tbl : Nat → Bool) :
    ∃ T : Tags, ParseTags [] start end_ line = .ok (some T) ∧
      T.Tags = [] ∧ T.Keys = [] ∧ T.String tbl = [] :=
  ⟨{ tags := [] }, rfl, rfl, rfl, rfl⟩

/-! ## C7 -/

theorem parseStep_spaces (sp : Str) (st en ln : Int) (hsp : ∀ b ∈ sp, b = 32) :
    parseStep sp st en ln = .ok .brk := by
  have h1 := skipSpace_run sp hsp [] (by intro c r h; cases h) [] (sp.length + 1) (by omega)
  simp only [List.nil_append, List.append_nil, List.length_nil, Nat.zero_add] at h1
  unfold parseStep
  simp only [h1, sliceFrom, le_refl, if_true, List.drop_length]

/-- C7, as stated, fails at the literal made of one space: what is returned is
the nil pointer, not a `Tags` value with zero tags. -/
theorem C7_counterexample :
    ParseTags [32] 0 0 0 = .ok none ∧ ¬ ∃ T : Tags, ParseTags [32] 0 0 0 = .ok (some T) := by
  have h0 : ParseTags [32] 0 0 0 = .ok none := by decide
  refine ⟨h0, ?_⟩
  rintro ⟨T, h⟩
  rw [h0] at h
  cases h

/-- C7 (amended): on every non-empty literal made only of spaces `ParseTags`
returns no error and the nil result (no `Tags` value, so no tag), which differs
from the result for the empty literal, a non-nil `Tags` value with zero tags. -/
theorem C7_only_spaces (sp : Str) (start end_ line : Int) (hne : sp ≠ [])
    (hsp : ∀ b ∈ sp, b = 32) :
    ParseTags sp start end_ line = .ok none ∧
      ParseTags [] start end_ line = .ok (some { tags := [] }) ∧
      ParseTags sp start end_ line ≠ ParseTags [] start end_ line := by
  have h := ParseTags_step_brk sp start end_ line hne (parseStep_spaces sp start end_ line hsp)
  refine ⟨h, rfl, ?_⟩
  rw [h]
  intro hc
  cases hc

/-- C7 (amended) at the literal made of three spaces. -/
theorem C7_only_spaces_witness :
    ParseTags [32, 32, 32] 0 0 0 = .ok none ∧
      ParseTags [] 0 0 0 = .ok (some { tags := [] }) ∧
      ParseTags [32, 32, 32] 0 0 0 ≠ ParseTags [] 0 0 0 :=
  C7_only_spaces [32, 32, 32] 0 0 0 (by decide) (by decide)

/-! ## Totality of the loops -/

theorem get?_some_of_lt {α : Type} (s : List α) (i : Nat) (h : i < s.length) :
    ∃ c, s.get? i = some c := ⟨s.get ⟨i, h⟩, List.get?_eq_get h⟩

theorem skipSpace_total (tag : Str) :
    ∀ (f i : Nat), tag.length - i < f → i ≤ tag.length →
      ∃ j, skipSpace tag f i = .ok j ∧ j ≤ tag.length := by
  intro f
  induction f with
  | zero => intro i h _; omega
  | succ f ih =>
    intro i hf hi
    by_cases hlt : i < tag.length
    · obtain ⟨c, hc⟩ := get?_some_of_lt tag i hlt
      rw [skipSpace_at tag f i c hc]
      by_cases h32 : c = 32
      · rw [if_pos h32]; exact ih (i + 1) (by omega) (by omega)
      · rw [if_neg h32]; exact ⟨i, rfl, hi⟩
    · exact ⟨i, skipSpace_end tag f i (by omega), hi⟩

theorem scanKey_total (tag : Str) :
    ∀ (f i : Nat), tag.length - i < f → i ≤ tag.length →
      ∃ j, scanKey tag f i = .ok j ∧ j ≤ tag.length := by
  intro f
  induction f with
  | zero => intro i h _; omega
  | succ f ih =>
    intro i hf hi
    by_cases hlt : i < tag.length
    · obtain ⟨c, hc⟩ := get?_some_of_lt tag i hlt
      rw [scanKey_at tag f i c hc]
      by_cases hk : isKeyByte c = true
      · rw [if_pos hk]; exact ih (i + 1) (by omega) (by omega)
      · rw [if_neg hk]; exact ⟨i, rfl, hi⟩
    · exact ⟨i, scanKey_end tag f i (by omega), hi⟩

theorem scanQuoted_total (tag : Str) :
    ∀ (f i : Nat), tag.length - i < f → ∃ j, scanQuoted tag f i = .ok j := by
  intro f
  induction f with
  | zero => intro i h; omega
  | succ f ih =>
    intro i hf
    by_cases hlt : i < tag.length
    · obtain ⟨c, hc⟩ := get?_some_of_lt tag i hlt
      rw [scanQuoted_at tag f i c hc]
      by_cases h34 : c ≠ 34
      · rw [if_pos h34]
        exact ih _ (by split <;> omega)
      · rw [if_neg h34]; exact ⟨i, rfl⟩
    · exact ⟨i, scanQuoted_end tag f i (by omega)⟩

theorem valueTail_returns (key tag : Str) (i : Nat) (st en ln : Int) :
    StepReturns tag (valueTail key tag i st en ln) := by
  unfold valueTail
  by_cases h : i ≥ tag.length
  · rw [if_pos h]; exact Or.inl ⟨_, rfl⟩
  · rw [if_neg h]
    have h1 : i + 1 ≤ tag.length := by omega
    simp only [sliceTo, sliceFrom, if_pos h1]
    cases hu : Unquote (tag.take (i + 1)) with
    | none => exact Or.inl ⟨_, rfl⟩
    | some value =>
      cases hs : Split value with
      | nil => exact absurd hs (Split_ne_nil value)
      | cons name opts =>
        have h2 : 1 ≤ opts.length + 1 := by omega
        simp only [hs, idx, List.get?_cons_zero, List.length_cons, List.drop_succ_cons,
          List.drop_zero, if_pos h2]
        refine Or.inr (Or.inr ⟨_, _, rfl, ?_⟩)
        rw [List.length_drop]; omega

theorem parseStep_tail (tag : Str) (st en ln : Int) (i0 i j : Nat)
    (h0 : skipSpace tag (tag.length + 1) 0 = .ok i0) (hi0 : i0 ≤ tag.length)
    (hne : tag.drop i0 ≠ [])
    (h1 : scanKey (tag.drop i0) ((tag.drop i0).length + 1) 0 = .ok i)
    (hi : i ≠ 0) (hlen : ¬ i + 1 ≥ (tag.drop i0).length)
    (hc : (tag.drop i0).get? i = some 58) (hq : (tag.drop i0).get? (i + 1) = some 34)
    (h2 : scanQuoted ((tag.drop i0).drop (i + 1)) (((tag.drop i0).drop (i + 1)).length + 1) 1
      = .ok j) :
    parseStep tag st en ln =
      valueTail ((tag.drop i0).take i) ((tag.drop i0).drop (i + 1)) j st en ln := by
  have hle : i ≤ (tag.drop i0).length := by omega
  have hle1 : i + 1 ≤ (tag.drop i0).length := by omega
  unfold parseStep
  simp only [h0, sliceFrom, sliceTo, if_pos hi0, if_neg hne, h1, if_neg hi, if_neg hlen,
    idx_eq_ok hc, idx_eq_ok hq, if_pos hle, if_pos hle1, h2]
  simp only [ne_eq, not_true_eq_false, if_false]
  rfl

theorem parseStep_returns (tag : Str) (st en ln : Int) :
    StepReturns tag (parseStep tag st en ln) := by
  obtain ⟨i0, h0, hi0⟩ := skipSpace_total tag (tag.length + 1) 0 (by omega) (by omega)
  by_cases hne : tag.drop i0 = []
  · right; left
    unfold parseStep
    simp only [h0, sliceFrom, if_pos hi0, if_pos hne]
  obtain ⟨i, h1, hi⟩ := scanKey_total (tag.drop i0) ((tag.drop i0).length + 1) 0
    (by omega) (by omega)
  by_cases hz : i = 0
  · left
    unfold parseStep
    simp only [h0, sliceFrom, if_pos hi0, if_neg hne, h1, if_pos hz]
    exact ⟨_, rfl⟩
  by_cases hlen : i + 1 ≥ (tag.drop i0).length
  · left
    unfold parseStep
    simp only [h0, sliceFrom, if_pos hi0, if_neg hne, h1, if_neg hz, if_pos hlen]
    exact ⟨_, rfl⟩
  obtain ⟨c, hc⟩ := get?_some_of_lt (tag.drop i0) i (by omega)
  by_cases hc58 : c ≠ 58
  · left
    unfold parseStep
    simp only [h0, sliceFrom, if_pos hi0, if_neg hne, h1, if_neg hz, if_neg hlen,
      idx_eq_ok hc, if_pos hc58]
    exact ⟨_, rfl⟩
  obtain ⟨q, hq⟩ := get?_some_of_lt (tag.drop i0) (i + 1) (by omega)
  by_cases hq34 : q ≠ 34
  · left
    unfold parseStep
    simp only [h0, sliceFrom, if_pos hi0, if_neg hne, h1, if_neg hz, if_neg hlen,
      idx_eq_ok hc, if_neg hc58, idx_eq_ok hq, if_pos hq34]
    exact ⟨_, rfl⟩
  have hc' : c = 58 := by simpa using hc58
  have hq' : q = 34 := by simpa using hq34
  subst hc' hq'
  obtain ⟨j, h2⟩ := scanQuoted_total ((tag.drop i0).drop (i + 1))
    (((tag.drop i0).drop (i + 1)).length + 1) 1 (by omega)
  rw [parseStep_tail tag st en ln i0 i j h0 hi0 hne h1 hz hlen hc hq h2]
  rcases valueTail_returns ((tag.drop i0).take i) ((tag.drop i0).drop (i + 1)) j st en ln
    with h | h | ⟨t, rest, h, hlt⟩
  · exact Or.inl h
  · exact Or.inr (Or.inl h)
  · refine Or.inr (Or.inr ⟨t, rest, h, ?_⟩)
    have e1 : ((tag.drop i0).drop (i + 1)).length ≤ tag.length := by
      simp only [List.length_drop]; omega
    have e2 : ((tag.drop i0).drop (i + 1)).length < (tag.drop i0).length := by
      rw [List.length_drop]; omega
    have e3 : (tag.drop i0).length ≤ tag.length := by
      rw [List.length_drop]; omega
    omega

theorem parseLoop_returns (st en ln : Int) :
    ∀ (f : Nat) (tag : Str) (tags : List Tag), tag.length < f →
      (∃ r, parseLoop st en ln f tag tags = .ok r) ∨
        ∃ e, parseLoop st en ln f tag tags = .error (.err e) := by
  intro f
  induction f with
  | zero => intro tag tags h; omega
  | succ f ih =>
    intro tag tags hf
    by_cases hne : tag ≠ []
    · rcases parseStep_returns tag st en ln with ⟨e, h⟩ | h | ⟨t, rest, h, hlt⟩
      · right; exact ⟨e, by simp only [parseLoop, if_pos hne, h]⟩
      · left; exact ⟨tags, by simp only [parseLoop, if_pos hne, h]⟩
      · have := ih rest (tags ++ [t]) (by omega)
        simpa only [parseLoop, if_pos hne, h] using this
    · left; exact ⟨tags, by simp only [parseLoop, if_neg hne]⟩

/-! ## C8 -/

/-- C8: on every input and all positions `ParseTags` returns, either a result or
one of its declared errors: it never reads a byte or takes a slice out of the
bounds of the remaining input (no panic) and its loops stop within the bounds of
this embedding (the length of the input plus one); and an iteration on any
remaining input that does not return appends a tag and leaves a strictly shorter
remaining input. -/
theorem C8_total (tag : Str) (start end_ line : Int) :
    ((∃ r, ParseTags tag start end_ line = .ok r) ∨
      (∃ e, ParseTags tag start end_ line = .error (.err e))) ∧
    ((∃ e, parseStep tag start end_ line = .error (.err e)) ∨
      parseStep tag start end_ line = .ok .brk ∨
      ∃ t rest, parseStep tag start end_ line = .ok (.emit t rest) ∧
        rest.length < tag.length) := by
  refine ⟨?_, parseStep_returns tag start end_ line⟩
  rcases parseLoop_returns start end_ line (tag.length + 1) tag [] (by omega) with ⟨r, h⟩ | ⟨e, h⟩
  · left
    unfold ParseTags
    simp only [h]
    split <;> exact ⟨_, rfl⟩
  · right
    unfold ParseTags
    simp only [h]
    exact ⟨e, rfl⟩

/-! ## C9 -/

/-- C9 at `a:"x,"`: the literal parses to one tag with the single option `""`;
`String()` of the result is `a:"x"`, which parses to a tag without options, so
the tags read back are not the tags written. -/
theorem C9_roundtrip_fails (tbl : Nat → Bool) :
    ∃ T T2 : Tags,
      ParseTags (ascii "a:" ++ [34] ++ ascii "x," ++ [34]) 0 0 0 = .ok (some T) ∧
      T.tags = [{ Key := ascii "a", Name := ascii "x", Options := some [[]],
                  Line := 0, Start := 0, End := 0 }] ∧
      T.String tbl = ascii "a:" ++ [34] ++ ascii "x" ++ [34] ∧
      ParseTags (T.String tbl) 0 0 0 = .ok (some T2) ∧
      T2.tags = [{ Key := ascii "a", Name := ascii "x", Options := none,
                   Line := 0, Start := 0, End := 0 }] ∧
      T2.tags ≠ T.tags := by
  refine ⟨{ tags := [{ Key := ascii "a", Name := ascii "x", Options := some [[]],
                       Line := 0, Start := 0, End := 0 }] },
          { tags := [{ Key := ascii "a", Name := ascii "x", Options := none,
                       Line := 0, Start := 0, End := 0 }] },
          by decide, rfl, rfl, ?_, rfl, by decide⟩
  show ParseTags (ascii "a:" ++ [34] ++ ascii "x" ++ [34]) 0 0 0 = _
  decide

/-! ## C10 -/

/-- C10 at `json:"a,"`: the value between the quotes is `a,`, and `Value()` of
the tag that `ParseTags` returns is `a`. -/
theorem C10_value_not_raw :
    ∃ t : Tag,
      ParseTags (ascii "json:" ++ [34] ++ ascii "a," ++ [34]) 0 0 0
        = .ok (some { tags := [t] }) ∧
      t.Name = ascii "a" ∧ t.Options = some [[]] ∧
      t.Value = ascii "a" ∧ t.Value ≠ ascii "a," :=
  ⟨{ Key := ascii "json", Name := ascii "a", Options := some [[]],
     Line := 0, Start := 0, End := 0 }, by decide, rfl, rfl, by decide, by decide⟩

/-! ## C11 -/

theorem find?_map_set (g : Tag) (l : List Tag) (h : ∃ x ∈ l, x.Key = g.Key) :
    (l.map (fun tg => if tg.Key = g.Key then g else tg)).find? (fun tag => tag.Key = g.Key)
      = some g := by
  induction l with
  | nil => obtain ⟨x, hx, _⟩ := h; cases hx
  | cons a l ih =>
    by_cases ha : a.Key = g.Key
    · simp [ha]
    · have h2 : ∃ x ∈ l, x.Key = g.Key := by
        obtain ⟨x, hx, hk⟩ := h
        rcases List.mem_cons.mp hx with rfl | hx
        · exact absurd hk ha
        · exact ⟨x, hx, hk⟩
      simpa [ha] using ih h2

theorem map_set_absent (g : Tag) (l : List Tag) (h : ∀ x ∈ l, x.Key ≠ g.Key) :
    l.map (fun tg => if tg.Key = g.Key then g else tg) = l := by
  induction l with
  | nil => rfl
  | cons a l ih =>
    have ha : a.Key ≠ g.Key := h a (by simp)
    simp only [List.map_cons, if_neg ha]
    rw [ih (fun x hx => h x (by simp [hx]))]

theorem find?_append_absent (g : Tag) (l : List Tag) (h : ∀ x ∈ l, x.Key ≠ g.Key) :
    (l ++ [g]).find? (fun tag => tag.Key = g.Key) = some g := by
  induction l with
  | nil => simp
  | cons a l ih =>
    have ha : a.Key ≠ g.Key := h a (by simp)
    simp only [List.cons_append, List.find?_cons, ha, decide_False]
    exact ih (fun x hx => h x (by simp [hx]))

/-- C11: `Set` is an upsert. It returns an error exactly when the key of the tag
is empty, and then leaves the tags as they were. Otherwise it returns nil, `Get`
of the key returns the tag, and: when the key was present, the tags keep their
number and the order of their keys and every tag with another key is untouched;
when it was absent, the tag is appended after the unchanged earlier tags. -/
theorem C11_set_upsert (t : Tags) (g : Tag) :
    ((t.Set g).2 ≠ none ↔ g.Key = []) ∧
    (g.Key = [] → (t.Set g).1 = t) ∧
    (g.Key ≠ [] →
      (t.Set g).2 = none ∧ (t.Set g).1.Get g.Key = .ok g ∧
      ((∃ x ∈ t.tags, x.Key = g.Key) →
        (t.Set g).1.tags.length = t.tags.length ∧
        (t.Set g).1.Keys = t.Keys ∧
        List.Forall₂ (fun old new => (old.Key ≠ g.Key → new = old) ∧
          (old.Key = g.Key → new = g)) t.tags (t.Set g).1.tags) ∧
      ((∀ x ∈ t.tags, x.Key ≠ g.Key) → (t.Set g).1.tags = t.tags ++ [g])) := by
  refine ⟨?_, ?_, ?_⟩
  · by_cases hk : g.Key = []
    · simp [Tags.Set, hk]
    · simp [Tags.Set, hk]
  · intro hk
    simp [Tags.Set, hk]
  · intro hk
    refine ⟨by simp [Tags.Set, hk], ?_, ?_, ?_⟩
    · by_cases hp : ∃ x ∈ t.tags, x.Key = g.Key
      · have hany : t.tags.any (fun tg => decide (tg.Key = g.Key)) = true := by
          simpa using hp
        simp only [Tags.Set, if_neg hk, hany, Bool.not_true, Tags.Get]
        simp only [Bool.false_eq_true, if_false]
        rw [find?_map_set g t.tags hp]
      · have hab : ∀ x ∈ t.tags, x.Key ≠ g.Key := by
          intro x hx hxk; exact hp ⟨x, hx, hxk⟩
        have hany : t.tags.any (fun tg => decide (tg.Key = g.Key)) = false := by
          simpa using hab
        simp only [Tags.Set, if_neg hk, hany, Bool.not_false, if_true, Tags.Get]
        rw [map_set_absent g t.tags hab, find?_append_absent g t.tags hab]
    · intro hp
      have hany : t.tags.any (fun tg => decide (tg.Key = g.Key)) = true := by
        simpa using hp
      simp only [Tags.Set, if_neg hk, hany, Bool.not_true, Bool.false_eq_true, if_false]
      refine ⟨by simp, ?_, ?_⟩
      · simp only [Tags.Keys, List.map_map]
        apply List.map_congr_left
        intro a _
        by_cases ha : a.Key = g.Key
        · simp [ha]
        · simp [ha]
      · rw [List.forall₂_map_right_iff]
        apply List.forall₂_same.mpr
        intro a _
        by_cases ha : a.Key = g.Key
        · simp [ha]
        · simp [ha]
    · intro hab
      have hany : t.tags.any (fun tg => decide (tg.Key = g.Key)) = false := by
        simpa using hab
      simp only [Tags.Set, if_neg hk, hany, Bool.not_false, if_true]
      rw [map_set_absent g t.tags hab]

/-! ## AddOptions on values -/

theorem HasOption_iff (t : Tag) (opt : Str) : t.HasOption opt = true ↔ opt ∈ elems t.Options := by
  simp [Tag.HasOption]

theorem addOption_present (tag : Tag) (opt : Str) (h : opt ∈ elems tag.Options) :
    addOption tag opt = tag := by
  simp [addOption, (HasOption_iff tag opt).mpr h]

theorem addOption_absent (tag : Tag) (opt : Str) (h : opt ∉ elems tag.Options) :
    addOption tag opt = { tag with Options := some (elems tag.Options ++ [opt]) } := by
  have : tag.HasOption opt = false := by
    cases hh : tag.HasOption opt
    · rfl
    · exact absurd ((HasOption_iff tag opt).mp hh) h
  simp [addOption, this]

/-- The options of a tag after the inner loop of `AddOptions`: the former options
stay in front, and every option counts as before when it was there, once when it
was not there and is asked for, and not at all otherwise. -/
theorem addOptions_tag (os : List Str) :
    ∀ tag : Tag,
      (os.foldl addOption tag).Key = tag.Key ∧ (os.foldl addOption tag).Name = tag.Name ∧
      (os.foldl addOption tag).Line = tag.Line ∧ (os.foldl addOption tag).Start = tag.Start ∧
      (os.foldl addOption tag).End = tag.End ∧
      elems tag.Options <+: elems (os.foldl addOption tag).Options ∧
      ∀ o : Str, (elems (os.foldl addOption tag).Options).count o =
        if o ∈ elems tag.Options then (elems tag.Options).count o
        else if o ∈ os then 1 else 0 := by
  induction os with
  | nil =>
    intro tag
    refine ⟨rfl, rfl, rfl, rfl, rfl, List.prefix_refl _, ?_⟩
    intro o
    by_cases h : o ∈ elems tag.Options
    · simp [h]
    · simp [h, List.count_eq_zero.mpr h]
  | cons x xs ih =>
    intro tag
    rw [List.foldl_cons]
    by_cases hx : x ∈ elems tag.Options
    · rw [addOption_present tag x hx]
      obtain ⟨h1, h2, h3, h4, h5, h6, h7⟩ := ih tag
      refine ⟨h1, h2, h3, h4, h5, h6, ?_⟩
      intro o
      rw [h7 o]
      by_cases ho : o ∈ elems tag.Options
      · simp [ho]
      · have hox : o ≠ x := fun e => ho (e ▸ hx)
        simp [ho, hox]
    · rw [addOption_absent tag x hx]
      obtain ⟨h1, h2, h3, h4, h5, h6, h7⟩ :=
        ih { tag with Options := some (elems tag.Options ++ [x]) }
      have he : elems ({ tag with Options := some (elems tag.Options ++ [x]) } : Tag).Options
          = elems tag.Options ++ [x] := rfl
      rw [he] at h6 h7
      refine ⟨h1, h2, h3, h4, h5, (List.prefix_append _ _).trans h6, ?_⟩
      intro o
      rw [h7 o]
      by_cases ho : o ∈ elems tag.Options
      · have hox : o ≠ x := fun e => hx (e ▸ ho)
        simp [ho, List.count_append, hox]
      · by_cases hox : o = x
        · subst hox
          simp [ho, List.count_append, List.count_eq_zero.mpr ho]
        · simp [ho, hox]

theorem addOptions_tag_fixed (os : List Str) :
    ∀ tag : Tag, (∀ o ∈ os, o ∈ elems tag.Options) → os.foldl addOption tag = tag := by
  induction os with
  | nil => intro tag _; rfl
  | cons x xs ih =>
    intro tag h
    rw [List.foldl_cons, addOption_present tag x (h x (by simp))]
    exact ih tag (fun o ho => h o (by simp [ho]))

theorem addOptions_tag_mem (os : List Str) (tag : Tag) :
    ∀ o ∈ os, o ∈ elems (os.foldl addOption tag).Options := by
  intro o ho
  have h := (addOptions_tag os tag).2.2.2.2.2.2 o
  by_cases hin : o ∈ elems tag.Options
  · exact (addOptions_tag os tag).2.2.2.2.2.1.subset hin
  · rw [if_neg hin, if_pos ho] at h
    exact List.count_pos_iff.mp (by omega)

/-- What `Tags.AddOptions` does to the values of the tags: they are as many and in
the same order; a tag whose key is not `k` is unchanged; a tag with key `k` keeps
its key, name and positions, has every option of `os`, keeps its former options as
a prefix, counts each former option as often as before and each option of `os`
that was absent exactly once. Nothing changes when no tag has key `k`, and a
second time changes nothing. -/
theorem Tags_AddOptions_spec (t : Tags) (k : Str) (os : List Str) :
    List.Forall₂ (fun old new =>
        (old.Key ≠ k → new = old) ∧
        (old.Key = k →
          new.Key = old.Key ∧ new.Name = old.Name ∧ new.Line = old.Line ∧
          new.Start = old.Start ∧ new.End = old.End ∧
          (∀ o ∈ os, o ∈ elems new.Options) ∧
          elems old.Options <+: elems new.Options ∧
          (∀ o ∈ elems old.Options,
            (elems new.Options).count o = (elems old.Options).count o) ∧
          (∀ o ∈ os, o ∉ elems old.Options → (elems new.Options).count o = 1)))
      t.tags (t.AddOptions k os).tags ∧
    ((∀ x ∈ t.tags, x.Key ≠ k) → t.AddOptions k os = t) ∧
    (t.AddOptions k os).AddOptions k os = t.AddOptions k os := by
  refine ⟨?_, ?_, ?_⟩
  · simp only [Tags.AddOptions]
    rw [List.forall₂_map_right_iff]
    apply List.forall₂_same.mpr
    intro a _
    by_cases ha : a.Key = k
    · have hne : ¬ a.Key ≠ k := fun h => h ha
      rw [if_neg hne]
      obtain ⟨h1, h2, h3, h4, h5, h6, h7⟩ := addOptions_tag os a
      refine ⟨fun h => absurd ha h, fun _ => ⟨h1, h2, h3, h4, h5, addOptions_tag_mem os a, h6, ?_, ?_⟩⟩
      · intro o ho
        rw [h7 o, if_pos ho]
      · intro o ho hno
        rw [h7 o, if_neg hno, if_pos ho]
    · rw [if_pos ha]
      exact ⟨fun _ => rfl, fun h => absurd h ha⟩
  · intro h
    cases t with
    | mk tags =>
      simp only [Tags.AddOptions, Tags.mk.injEq]
      conv => rhs; rw [← List.map_id tags]
      apply List.map_congr_left
      intro a ha
      rw [if_pos (h a ha)]
      rfl
  · simp only [Tags.AddOptions, List.map_map, Tags.mk.injEq]
    apply List.map_congr_left
    intro a _
    by_cases ha : a.Key = k
    · have hne : ¬ a.Key ≠ k := fun h => h ha
      have hk2 : (os.foldl addOption a).Key = k := by
        rw [(addOptions_tag os a).1]; exact ha
      have hne2 : ¬ (os.foldl addOption a).Key ≠ k := fun h => h hk2
      simp only [Function.comp, if_neg hne, if_neg hne2]
      exact addOptions_tag_fixed os _ (addOptions_tag_mem os a)
    · simp only [Function.comp, if_pos ha]

/-! ## AddOptions in memory -/

theorem readSlice_congr (slots slots2 : Nat → Str) (s : Slice)
    (h : ∀ i, i < s.len → slots2 (s.ptr + i) = slots (s.ptr + i)) :
    readSlice slots2 s = readSlice slots s := by
  unfold readSlice
  apply List.map_congr_left
  intro i hi
  exact h i (List.mem_range.mp hi)

theorem elems_map_readSlice (slots : Nat → Str) (o : Option Slice) :
    elems (o.map (readSlice slots)) = readSlice slots (hdr o) := by
  cases o with
  | none => rfl
  | some s => rfl

/-- Go `append` on a valid slice: the slice it returns holds the former elements
and the new one; it writes into the spare capacity of the slice or into memory
that was not allocated. -/
theorem append_spec (grow : Nat → Nat) (m : Memory) (s : Option Slice) (x : Str)
    (hv : (hdr s).valid m.next) :
    readSlice (m.append grow s x).1.slots (m.append grow s x).2
        = readSlice m.slots (hdr s) ++ [x] ∧
    (m.append grow s x).1.objs = m.objs ∧
    m.next ≤ (m.append grow s x).1.next ∧
    (m.append grow s x).2.valid (m.append grow s x).1.next ∧
    (∀ a, a < m.next → ¬ ((hdr s).ptr + (hdr s).len ≤ a ∧ a < (hdr s).ptr + (hdr s).cap) →
      (m.append grow s x).1.slots a = m.slots a) ∧
    (((m.append grow s x).2.ptr = (hdr s).ptr ∧ (m.append grow s x).2.cap = (hdr s).cap ∧
        (hdr s).len ≤ (m.append grow s x).2.len) ∨
      m.next ≤ (m.append grow s x).2.ptr) := by
  obtain ⟨hv1, hv2⟩ := hv
  by_cases hc : (hdr s).len < (hdr s).cap
  · have e : m.append grow s x =
        ({ m with slots := Function.update m.slots ((hdr s).ptr + (hdr s).len) x },
          { ptr := (hdr s).ptr, len := (hdr s).len + 1, cap := (hdr s).cap }) := by
      unfold Memory.append
      rw [if_pos hc]
    rw [e]
    refine ⟨?_, rfl, Nat.le_refl _, ⟨?_, ?_⟩, ?_, Or.inl ⟨rfl, rfl, ?_⟩⟩
    · show (List.range ((hdr s).len + 1)).map
          (fun i => Function.update m.slots ((hdr s).ptr + (hdr s).len) x ((hdr s).ptr + i))
        = (List.range (hdr s).len).map (fun i => m.slots ((hdr s).ptr + i)) ++ [x]
      rw [List.range_succ, List.map_append]
      congr 1
      · apply List.map_congr_left
        intro i hi
        have hi2 := List.mem_range.mp hi
        exact Function.update_noteq (by omega) _ _
      · simp
    · show (hdr s).len + 1 ≤ (hdr s).cap
      omega
    · exact hv2
    · intro a _ hna
      show Function.update m.slots ((hdr s).ptr + (hdr s).len) x a = m.slots a
      exact Function.update_noteq (by omega) _ _
    · show (hdr s).len ≤ (hdr s).len + 1
      omega
  · have hg : (hdr s).len + 1 ≤ growslice grow (hdr s).cap ((hdr s).len + 1) := by
      unfold growslice
      exact Nat.le_max_right _ _
    have e : m.append grow s x =
        ({ m with
            slots := fun a =>
              if m.next ≤ a ∧ a < m.next + growslice grow (hdr s).cap ((hdr s).len + 1) then
                if a < m.next + (hdr s).len then m.slots ((hdr s).ptr + (a - m.next))
                else if a = m.next + (hdr s).len then x
                else []
              else m.slots a
            next := m.next + growslice grow (hdr s).cap ((hdr s).len + 1) },
          { ptr := m.next, len := (hdr s).len + 1,
            cap := growslice grow (hdr s).cap ((hdr s).len + 1) }) := by
      unfold Memory.append
      rw [if_neg hc]
    rw [e]
    refine ⟨?_, rfl, Nat.le_add_right _ _, ⟨hg, Nat.le_refl _⟩, ?_, Or.inr (Nat.le_refl _)⟩
    · show (List.range ((hdr s).len + 1)).map
          (fun i =>
            if m.next ≤ m.next + i ∧
                m.next + i < m.next + growslice grow (hdr s).cap ((hdr s).len + 1) then
              if m.next + i < m.next + (hdr s).len then
                m.slots ((hdr s).ptr + (m.next + i - m.next))
              else if m.next + i = m.next + (hdr s).len then x
              else []
            else m.slots (m.next + i))
        = (List.range (hdr s).len).map (fun i => m.slots ((hdr s).ptr + i)) ++ [x]
      rw [List.range_succ, List.map_append]
      congr 1
      · apply List.map_congr_left
        intro i hi
        have hi2 := List.mem_range.mp hi
        show (if m.next ≤ m.next + i ∧
                m.next + i < m.next + growslice grow (hdr s).cap ((hdr s).len + 1) then
              if m.next + i < m.next + (hdr s).len then
                m.slots ((hdr s).ptr + (m.next + i - m.next))
              else if m.next + i = m.next + (hdr s).len then x
              else []
            else m.slots (m.next + i)) = m.slots ((hdr s).ptr + i)
        rw [if_pos ⟨by omega, by omega⟩, if_pos (by omega)]
        congr 2
        omega
      · show [if m.next ≤ m.next + (hdr s).len ∧
                m.next + (hdr s).len < m.next + growslice grow (hdr s).cap ((hdr s).len + 1) then
              if m.next + (hdr s).len < m.next + (hdr s).len then
                m.slots ((hdr s).ptr + (m.next + (hdr s).len - m.next))
              else if m.next + (hdr s).len = m.next + (hdr s).len then x
              else []
            else m.slots (m.next + (hdr s).len)] = [x]
        rw [if_pos ⟨by omega, by omega⟩, if_neg (by omega), if_pos rfl]
    · intro a ha _
      show (if m.next ≤ a ∧ a < m.next + growslice grow (hdr s).cap ((hdr s).len + 1) then _
            else m.slots a) = m.slots a
      rw [if_neg (by omega)]

theorem tagAt_Key (m : Memory) (p : Nat) : (m.tagAt p).Key = (m.objs p).Key := rfl

theorem tagAt_elems (m : Memory) (p : Nat) :
    elems (m.tagAt p).Options = readSlice m.slots (hdr (m.objs p).Options) :=
  elems_map_readSlice m.slots (m.objs p).Options

/-- One option in memory, for a tag whose options are a valid slice: the tag at
`p` becomes what `addOption` makes of its value; no other struct is written, and
no slot but spare capacity of the options of `p` or memory that was not
allocated. -/
theorem addOption_spec (grow : Nat → Nat) (p : Nat) (m : Memory) (opt : Str)
    (hv : (hdr (m.objs p).Options).valid m.next) :
    (m.addOption grow p opt).tagAt p = addOption (m.tagAt p) opt ∧
    (∀ q, q ≠ p → (m.addOption grow p opt).objs q = m.objs q) ∧
    m.next ≤ (m.addOption grow p opt).next ∧
    (hdr ((m.addOption grow p opt).objs p).Options).valid (m.addOption grow p opt).next ∧
    (∀ a, a < m.next →
      ¬ ((hdr (m.objs p).Options).ptr + (hdr (m.objs p).Options).len ≤ a ∧
          a < (hdr (m.objs p).Options).ptr + (hdr (m.objs p).Options).cap) →
      (m.addOption grow p opt).slots a = m.slots a) ∧
    (((hdr ((m.addOption grow p opt).objs p).Options).ptr = (hdr (m.objs p).Options).ptr ∧
        (hdr ((m.addOption grow p opt).objs p).Options).cap = (hdr (m.objs p).Options).cap ∧
        (hdr (m.objs p).Options).len ≤ (hdr ((m.addOption grow p opt).objs p).Options).len) ∨
      m.next ≤ (hdr ((m.addOption grow p opt).objs p).Options).ptr) := by
  by_cases hh : (m.tagAt p).HasOption opt = true
  · have e : m.addOption grow p opt = m := by
      unfold Memory.addOption
      simp [hh]
    have e2 : addOption (m.tagAt p) opt = m.tagAt p := by
      unfold addOption
      simp [hh]
    rw [e, e2]
    exact ⟨rfl, fun _ _ => rfl, Nat.le_refl _, hv, fun _ _ _ => rfl,
      Or.inl ⟨rfl, rfl, Nat.le_refl _⟩⟩
  · have hf : (m.tagAt p).HasOption opt = false := by
      cases h : (m.tagAt p).HasOption opt
      · rfl
      · exact absurd h hh
    obtain ⟨a1, a2, a3, a4, a5, a6⟩ := append_spec grow m (m.objs p).Options opt hv
    have e : m.addOption grow p opt =
        { slots := (m.append grow (m.objs p).Options opt).1.slots,
          next := (m.append grow (m.objs p).Options opt).1.next,
          objs := Function.update (m.append grow (m.objs p).Options opt).1.objs p
            { Key := (m.objs p).Key, Name := (m.objs p).Name,
              Options := some (m.append grow (m.objs p).Options opt).2,
              Line := (m.objs p).Line, Start := (m.objs p).Start, End := (m.objs p).End } } := by
      unfold Memory.addOption
      simp only [hf, Bool.not_false, if_true, a2]
    have e2 : addOption (m.tagAt p) opt =
        { Key := (m.objs p).Key, Name := (m.objs p).Name,
          Options := some (elems (m.tagAt p).Options ++ [opt]),
          Line := (m.objs p).Line, Start := (m.objs p).Start, End := (m.objs p).End } := by
      unfold addOption
      simp only [hf, Bool.not_false, if_true]
      rfl
    have ep : (m.addOption grow p opt).objs p =
        { Key := (m.objs p).Key, Name := (m.objs p).Name,
          Options := some (m.append grow (m.objs p).Options opt).2,
          Line := (m.objs p).Line, Start := (m.objs p).Start, End := (m.objs p).End } := by
      rw [e]
      exact Function.update_same _ _ _
    have es : (m.addOption grow p opt).slots = (m.append grow (m.objs p).Options opt).1.slots := by
      rw [e]
    have en : (m.addOption grow p opt).next = (m.append grow (m.objs p).Options opt).1.next := by
      rw [e]
    refine ⟨?_, ?_, ?_, ?_, ?_, ?_⟩
    · rw [e2, tagAt_elems, ← a1]
      unfold Memory.tagAt
      rw [ep, es]
      rfl
    · intro q hq
      rw [e]
      show Function.update (m.append grow (m.objs p).Options opt).1.objs p _ q = _
      rw [Function.update_noteq hq, a2]
    · rw [en]
      exact a3
    · rw [ep, en]
      exact a4
    · rw [es]
      exact a5
    · rw [ep]
      exact a6

/-- The inner loop of `AddOptions` in memory, for a tag whose options are a valid
slice: the tag at `p` becomes what the loop makes of its value. -/
theorem addOptions_spec (grow : Nat → Nat) (p : Nat) (os : List Str) :
    ∀ m : Memory, (hdr (m.objs p).Options).valid m.next →
      (os.foldl (Memory.addOption grow p) m).tagAt p = os.foldl addOption (m.tagAt p) ∧
      (∀ q, q ≠ p → (os.foldl (Memory.addOption grow p) m).objs q = m.objs q) ∧
      m.next ≤ (os.foldl (Memory.addOption grow p) m).next ∧
      (hdr ((os.foldl (Memory.addOption grow p) m).objs p).Options).valid
        (os.foldl (Memory.addOption grow p) m).next ∧
      (∀ a, a < m.next →
        ¬ ((hdr (m.objs p).Options).ptr + (hdr (m.objs p).Options).len ≤ a ∧
            a < (hdr (m.objs p).Options).ptr + (hdr (m.objs p).Options).cap) →
        (os.foldl (Memory.addOption grow p) m).slots a = m.slots a) ∧
      (((hdr ((os.foldl (Memory.addOption grow p) m).objs p).Options).ptr
            = (hdr (m.objs p).Options).ptr ∧
          (hdr ((os.foldl (Memory.addOption grow p) m).objs p).Options).cap
            = (hdr (m.objs p).Options).cap ∧
          (hdr (m.objs p).Options).len
            ≤ (hdr ((os.foldl (Memory.addOption grow p) m).objs p).Options).len) ∨
        m.next ≤ (hdr ((os.foldl (Memory.addOption grow p) m).objs p).Options).ptr) := by
  induction os with
  | nil =>
    intro m hv
    exact ⟨rfl, fun _ _ => rfl, Nat.le_refl _, hv, fun _ _ _ => rfl,
      Or.inl ⟨rfl, rfl, Nat.le_refl _⟩⟩
  | cons o os ih =>
    intro m hv
    obtain ⟨b1, b2, b3, b4, b5, b6⟩ := addOption_spec grow p m o hv
    obtain ⟨c1, c2, c3, c4, c5, c6⟩ := ih (m.addOption grow p o) b4
    rw [List.foldl_cons, List.foldl_cons]
    refine ⟨?_, ?_, Nat.le_trans b3 c3, c4, ?_, ?_⟩
    · rw [c1, b1]
    · intro q hq
      rw [c2 q hq, b2 q hq]
    · intro a ha hna
      rw [c5 a (by omega) (by omega), b5 a ha hna]
    · omega

/-- The inner loop of `AddOptions` over a slice of options that shares no slot
with the options of the tag: the options it reads are those that the slice holds
before the loop. -/
theorem addOptions_read (grow : Nat → Nat) (p : Nat) (options : Slice) :
    ∀ (is : List Nat) (m : Memory), (∀ i ∈ is, i < options.len) →
      (hdr (m.objs p).Options).valid m.next → options.valid m.next →
      (hdr (m.objs p).Options).apart options →
      is.foldl (fun m i => m.addOption grow p (m.slots (options.ptr + i))) m
        = (is.map (fun i => m.slots (options.ptr + i))).foldl (Memory.addOption grow p) m := by
  intro is
  induction is with
  | nil => intro m _ _ _ _; rfl
  | cons i is ih =>
    intro m his hv ho ha
    obtain ⟨_, _, b3, b4, b5, b6⟩ :=
      addOption_spec grow p m (m.slots (options.ptr + i)) hv
    obtain ⟨ho1, ho2⟩ := ho
    obtain ⟨hv1, hv2⟩ := hv
    have ha2 := ha
    unfold Slice.apart at ha2
    rw [List.foldl_cons, List.map_cons, List.foldl_cons]
    rw [ih (m.addOption grow p (m.slots (options.ptr + i)))
      (fun j hj => his j (List.mem_cons_of_mem i hj)) b4 ⟨ho1, by omega⟩
      (by unfold Slice.apart; omega)]
    congr 1
    apply List.map_congr_left
    intro j hj
    have hjl := his j (List.mem_cons_of_mem i hj)
    exact b5 _ (by omega) (by omega)

theorem addOptions_eq (grow : Nat → Nat) (p : Nat) (options : Slice) (m : Memory)
    (hv : (hdr (m.objs p).Options).valid m.next) (ho : options.valid m.next)
    (ha : (hdr (m.objs p).Options).apart options) :
    m.addOptions grow p options
      = (readSlice m.slots options).foldl (Memory.addOption grow p) m := by
  unfold Memory.addOptions readSlice
  exact addOptions_read grow p options (List.range options.len) m
    (fun i hi => List.mem_range.mp hi) hv ho ha

/-- The value of a tag is the same in two memories that hold the same struct at
its address and the same strings in the slots of its options. -/
theorem tagAt_congr (m m2 : Memory) (q : Nat) (ho : m2.objs q = m.objs q)
    (hs : ∀ i, i < (hdr (m.objs q).Options).len →
      m2.slots ((hdr (m.objs q).Options).ptr + i) = m.slots ((hdr (m.objs q).Options).ptr + i)) :
    m2.tagAt q = m.tagAt q := by
  unfold Memory.tagAt
  rw [ho]
  unfold TagObj.val
  cases hO : (m.objs q).Options with
  | none => rfl
  | some s =>
    rw [hO] at hs
    simp only [Option.map_some']
    rw [readSlice_congr m.slots m2.slots s hs]

theorem visit_skip (grow : Nat → Nat) (k : Str) (options : Slice) (m : Memory) (p : Nat)
    (h : (m.objs p).Key ≠ k) : m.visit grow k options p = m := by
  unfold Memory.visit
  rw [if_pos h]

theorem visit_key (grow : Nat → Nat) (k : Str) (options : Slice) (m : Memory) (p : Nat)
    (h : (m.objs p).Key = k) :
    m.visit grow k options p = m.addOptions grow p options := by
  unfold Memory.visit
  rw [if_neg (fun hn => hn h)]

/-- One pointer of the outer loop, in a memory in which the options of the tags
are valid slices and those of the tags with the key share no slot with those of
another tag nor with the slice of the options to add: this holds again afterwards,
the slice of the options to add holds what it held, the tag at the pointer, when
it has the key, becomes what the inner loop makes of its value, and the value of
every other tag is what it was. -/
theorem visit_spec (grow : Nat → Nat) (ptrs : List Nat) (k : Str) (options : Slice)
    (m : Memory) (p : Nat) (hp : p ∈ ptrs) (hv : m.validAt ptrs) (hu : m.unshared ptrs k)
    (ho : m.optionsApart ptrs k options) :
    (m.visit grow k options p).validAt ptrs ∧ (m.visit grow k options p).unshared ptrs k ∧
    (m.visit grow k options p).optionsApart ptrs k options ∧
    readSlice (m.visit grow k options p).slots options = readSlice m.slots options ∧
    (∀ q, ((m.visit grow k options p).objs q).Key = (m.objs q).Key) ∧
    (m.visit grow k options p).tagAt p
      = (if (m.objs p).Key = k then (readSlice m.slots options).foldl addOption (m.tagAt p)
         else m.tagAt p) ∧
    (∀ q ∈ ptrs, q ≠ p → (m.visit grow k options p).tagAt q = m.tagAt q) := by
  by_cases hk : (m.objs p).Key = k
  · obtain ⟨ho1, ho2⟩ := ho
    obtain ⟨vo1, vo2⟩ := ho1
    obtain ⟨vp1, vp2⟩ := hv p hp
    have hpo := ho2 p hp hk
    rw [visit_key grow k options m p hk, if_pos hk,
      addOptions_eq grow p options m (hv p hp) ⟨vo1, vo2⟩ hpo]
    obtain ⟨c1, c2, c3, c4, c5, c6⟩ :=
      addOptions_spec grow p (readSlice m.slots options) m (hv p hp)
    have hkeys : ∀ q, (((readSlice m.slots options).foldl (Memory.addOption grow p) m).objs q).Key
        = (m.objs q).Key := by
      intro q
      by_cases hq : q = p
      · rw [hq, ← tagAt_Key, c1, (addOptions_tag (readSlice m.slots options) (m.tagAt p)).1]
        rfl
      · rw [c2 q hq]
    unfold Slice.apart at hpo
    refine ⟨?_, ?_, ⟨⟨vo1, by omega⟩, ?_⟩, ?_, hkeys, c1, ?_⟩
    · intro q hq
      by_cases hqp : q = p
      · rw [hqp]
        exact c4
      · rw [c2 q hqp]
        obtain ⟨v1, v2⟩ := hv q hq
        exact ⟨v1, by omega⟩
    · intro a ha b hb hak hba
      rw [hkeys a] at hak
      obtain ⟨va1, va2⟩ := hv a ha
      obtain ⟨vb1, vb2⟩ := hv b hb
      by_cases hap : a = p
      · have hbp : b ≠ p := fun h => hba (h.trans hap.symm)
        rw [c2 b hbp, hap]
        have h0 := hu p hp b hb hk hbp
        unfold Slice.apart at h0 ⊢
        omega
      · rw [c2 a hap]
        by_cases hbp : b = p
        · rw [hbp]
          have h0 := hu a ha p hp hak (fun h => hap h.symm)
          unfold Slice.apart at h0 ⊢
          omega
        · rw [c2 b hbp]
          exact hu a ha b hb hak hba
    · intro a ha hak
      rw [hkeys a] at hak
      by_cases hap : a = p
      · rw [hap]
        unfold Slice.apart
        omega
      · rw [c2 a hap]
        exact ho2 a ha hak
    · apply readSlice_congr
      intro i hi
      exact c5 _ (by omega) (by omega)
    · intro q hq hqp
      apply tagAt_congr m _ q (c2 q hqp)
      intro i hi
      obtain ⟨vq1, vq2⟩ := hv q hq
      have h0 := hu p hp q hq hk hqp
      unfold Slice.apart at h0
      exact c5 _ (by omega) (by omega)
  · rw [visit_skip grow k options m p hk, if_neg hk]
    exact ⟨hv, hu, ho, rfl, fun _ => rfl, rfl, fun _ _ _ => rfl⟩

/-- The inner loop of `AddOptions` on a value that has all the options already
changes nothing. -/
theorem addOptions_tag_twice (os : List Str) (tag : Tag) :
    os.foldl addOption (os.foldl addOption tag) = os.foldl addOption tag :=
  addOptions_tag_fixed os _ (addOptions_tag_mem os tag)

/-- The outer loop of `AddOptions` over the pointers `l`, which are among
`ptrs`. -/
theorem visits_spec (grow : Nat → Nat) (ptrs : List Nat) (k : Str) (options : Slice) :
    ∀ (l : List Nat) (m : Memory), (∀ p ∈ l, p ∈ ptrs) → m.validAt ptrs → m.unshared ptrs k →
      m.optionsApart ptrs k options →
      readSlice (l.foldl (Memory.visit grow k options) m).slots options
        = readSlice m.slots options ∧
      (∀ q, ((l.foldl (Memory.visit grow k options) m).objs q).Key = (m.objs q).Key) ∧
      ∀ q ∈ ptrs, (l.foldl (Memory.visit grow k options) m).tagAt q
        = (if (m.objs q).Key = k ∧ q ∈ l then
            (readSlice m.slots options).foldl addOption (m.tagAt q)
           else m.tagAt q) := by
  intro l
  induction l with
  | nil =>
    intro m _ _ _ _
    refine ⟨rfl, fun _ => rfl, ?_⟩
    intro q _
    rw [if_neg (fun h => List.not_mem_nil q h.2)]
    rfl
  | cons p l ih =>
    intro m hl hv hu ho
    have hp : p ∈ ptrs := hl p (List.mem_cons_self p l)
    obtain ⟨d1, d2, d6, d7, d3, d4, d5⟩ := visit_spec grow ptrs k options m p hp hv hu ho
    obtain ⟨e0, e3, e4⟩ := ih (m.visit grow k options p)
      (fun x hx => hl x (List.mem_cons_of_mem p hx)) d1 d2 d6
    rw [List.foldl_cons]
    refine ⟨e0.trans d7, fun q => (e3 q).trans (d3 q), ?_⟩
    intro q hq
    rw [e4 q hq, d3 q, d7]
    have hcons : q ∈ p :: l ↔ q = p ∨ q ∈ l := List.mem_cons
    by_cases hqk : (m.objs q).Key = k
    · by_cases hqp : q = p
      · have hin : (m.objs q).Key = k ∧ q ∈ p :: l := ⟨hqk, hcons.mpr (Or.inl hqp)⟩
        rw [if_pos hin]
        rw [hqp] at hqk ⊢
        rw [d4, if_pos hqk]
        by_cases hql : p ∈ l
        · have h1 : (m.objs p).Key = k ∧ p ∈ l := ⟨hqk, hql⟩
          rw [if_pos h1, addOptions_tag_twice]
        · have h1 : ¬ ((m.objs p).Key = k ∧ p ∈ l) := fun h => hql h.2
          rw [if_neg h1]
      · rw [d5 q hq hqp]
        by_cases hql : q ∈ l
        · have h1 : (m.objs q).Key = k ∧ q ∈ l := ⟨hqk, hql⟩
          have h2 : (m.objs q).Key = k ∧ q ∈ p :: l := ⟨hqk, hcons.mpr (Or.inr hql)⟩
          rw [if_pos h1, if_pos h2]
        · have h1 : ¬ ((m.objs q).Key = k ∧ q ∈ l) := fun h => hql h.2
          have h2 : ¬ ((m.objs q).Key = k ∧ q ∈ p :: l) :=
            fun h => (hcons.mp h.2).elim hqp hql
          rw [if_neg h1, if_neg h2]
    · have h1 : ¬ ((m.objs q).Key = k ∧ q ∈ l) := fun h => hqk h.1
      have h2 : ¬ ((m.objs q).Key = k ∧ q ∈ p :: l) := fun h => hqk h.1
      rw [if_neg h1, if_neg h2]
      by_cases hqp : q = p
      · rw [hqp] at hqk ⊢
        rw [d4, if_neg hqk]
      · exact d5 q hq hqp

/-- In a memory in which the options of the tags are valid slices and those of the
tags with the key share no slot with those of another tag nor with the slice of
the options to add, `AddOptions` does to the values of the tags what
`Tags.AddOptions` says, for the options that the slice holds at the call. -/
theorem AddOptions_refines (grow : Nat → Nat) (m : Memory) (ptrs : List Nat) (k : Str)
    (options : Slice) (hv : m.validAt ptrs) (hu : m.unshared ptrs k)
    (ho : m.optionsApart ptrs k options) :
    (m.AddOptions grow ptrs k options).tagsAt ptrs
      = (m.tagsAt ptrs).AddOptions k (readSlice m.slots options) := by
  obtain ⟨_, _, h⟩ := visits_spec grow ptrs k options ptrs m (fun _ hp => hp) hv hu ho
  unfold Memory.tagsAt Tags.AddOptions Memory.AddOptions
  simp only [List.map_map, Tags.mk.injEq]
  apply List.map_congr_left
  intro q hq
  rw [h q hq]
  show _ = (if (m.tagAt q).Key ≠ k then m.tagAt q
            else (readSlice m.slots options).foldl addOption (m.tagAt q))
  rw [tagAt_Key]
  by_cases hqk : (m.objs q).Key = k
  · rw [if_pos ⟨hqk, hq⟩, if_neg (fun hn => hn hqk)]
  · rw [if_neg (fun h => hqk h.1), if_pos hqk]

/-- The inner loop in memory writes nothing when the tag has all the options that
the slice holds. -/
theorem addOptions_mem_fixed (grow : Nat → Nat) (p : Nat) (options : Slice) (m : Memory)
    (h : ∀ o ∈ readSlice m.slots options, o ∈ elems (m.tagAt p).Options) :
    m.addOptions grow p options = m := by
  have key : ∀ is : List Nat, (∀ i ∈ is, i < options.len) →
      is.foldl (fun m i => m.addOption grow p (m.slots (options.ptr + i))) m = m := by
    intro is
    induction is with
    | nil => intro _; rfl
    | cons i is ih =>
      intro his
      have hi : m.slots (options.ptr + i) ∈ readSlice m.slots options := by
        unfold readSlice
        exact List.mem_map.mpr
          ⟨i, List.mem_range.mpr (his i (List.mem_cons_self i is)), rfl⟩
      have e : m.addOption grow p (m.slots (options.ptr + i)) = m := by
        unfold Memory.addOption
        rw [(HasOption_iff (m.tagAt p) _).mpr (h _ hi)]
        rfl
      rw [List.foldl_cons, e]
      exact ih (fun j hj => his j (List.mem_cons_of_mem i hj))
  unfold Memory.addOptions
  exact key (List.range options.len) (fun i hi => List.mem_range.mp hi)

/-- The outer loop writes nothing when no tag has the key, or when every tag with
the key has all the options. -/
theorem visits_fixed (grow : Nat → Nat) (k : Str) (options : Slice) (m : Memory) (l : List Nat)
    (h : ∀ p ∈ l, (m.objs p).Key = k →
      ∀ o ∈ readSlice m.slots options, o ∈ elems (m.tagAt p).Options) :
    l.foldl (Memory.visit grow k options) m = m := by
  induction l with
  | nil => rfl
  | cons p l ih =>
    have e : m.visit grow k options p = m := by
      by_cases hk : (m.objs p).Key = k
      · rw [visit_key grow k options m p hk]
        exact addOptions_mem_fixed grow p options m (h p (List.mem_cons_self p l) hk)
      · exact visit_skip grow k options m p hk
    rw [List.foldl_cons, e]
    exact ih (fun x hx => h x (List.mem_cons_of_mem p hx))

/-- In memory `AddOptions` never writes a key, whatever the slices share: the keys
of the tags are the same sequence afterwards. -/
theorem AddOptions_keys (grow : Nat → Nat) (k : Str) (options : Slice) (ptrs : List Nat) :
    ∀ (m : Memory) (q : Nat),
      ((m.AddOptions grow ptrs k options).objs q).Key = (m.objs q).Key := by
  have happ : ∀ (m : Memory) (s : Option Slice) (x : Str), (m.append grow s x).1.objs = m.objs := by
    intro m s x
    unfold Memory.append
    split <;> rfl
  have step : ∀ (p : Nat) (m : Memory) (o : Str) (q : Nat),
      ((m.addOption grow p o).objs q).Key = (m.objs q).Key := by
    intro p m o q
    unfold Memory.addOption
    by_cases hh : (m.tagAt p).HasOption o = true
    · simp only [hh, Bool.not_true, Bool.false_eq_true, if_false]
    · have hf : (m.tagAt p).HasOption o = false := by
        cases h : (m.tagAt p).HasOption o
        · rfl
        · exact absurd h hh
      simp only [hf, Bool.not_false, if_true]
      by_cases hq : q = p
      · rw [hq]
        simp only [Function.update_same, happ]
      · simp only [Function.update_noteq hq, happ]
  have inner : ∀ (p : Nat) (is : List Nat) (m : Memory) (q : Nat),
      ((is.foldl (fun m i => m.addOption grow p (m.slots (options.ptr + i))) m).objs q).Key
        = (m.objs q).Key := by
    intro p is
    induction is with
    | nil => intro m q; rfl
    | cons i is ih =>
      intro m q
      rw [List.foldl_cons, ih, step]
  have one : ∀ (m : Memory) (p q : Nat),
      ((m.visit grow k options p).objs q).Key = (m.objs q).Key := by
    intro m p q
    unfold Memory.visit
    split
    · rfl
    · exact inner p (List.range options.len) m q
  induction ptrs with
  | nil => intro m q; rfl
  | cons p l ih =>
    intro m q
    unfold Memory.AddOptions at ih ⊢
    rw [List.foldl_cons, ih, one]

/-! ## C12 -/

/-- C12, as stated, fails when slices share a backing array. In `sharedMemory` the
tags `json` and `xml` have the array `o1 o2 o3 a` in common, of which `xml` holds
three elements with a capacity of four: `AddOptions("xml", "b")` appends in place
and writes `b` over `a`, so that the tag `json`, whose key is not `xml`, has the
options `o1 o2 o3 b` afterwards and is not what it was. In `overlapMemory` the
options `w x y` of the call are the array of which the tag `json` holds the
element `x` with a capacity of two: `w` is appended in place over `y` before `y`
is read, and `json` has the options `x w` afterwards, without `y`. -/
theorem C12_counterexample :
    (sharedMemory.tagAt 0).Key = ascii "json" ∧
    (sharedMemory.tagAt 0).Key ≠ ascii "xml" ∧
    (sharedMemory.tagAt 0).Options = some [ascii "o1", ascii "o2", ascii "o3", ascii "a"] ∧
    readSlice sharedMemory.slots { ptr := 4, len := 1, cap := 1 } = [ascii "b"] ∧
    ((sharedMemory.AddOptions (fun c => 2 * c) [0, 1] (ascii "xml")
        { ptr := 4, len := 1, cap := 1 }).tagAt 0).Options
      = some [ascii "o1", ascii "o2", ascii "o3", ascii "b"] ∧
    (sharedMemory.AddOptions (fun c => 2 * c) [0, 1] (ascii "xml")
        { ptr := 4, len := 1, cap := 1 }).tagAt 0 ≠ sharedMemory.tagAt 0 ∧
    (overlapMemory.tagAt 0).Key = ascii "json" ∧
    (overlapMemory.tagAt 0).Options = some [ascii "x"] ∧
    readSlice overlapMemory.slots { ptr := 0, len := 3, cap := 3 }
      = [ascii "w", ascii "x", ascii "y"] ∧
    ((overlapMemory.AddOptions (fun c => 2 * c) [0] (ascii "json")
        { ptr := 0, len := 3, cap := 3 }).tagAt 0).Options = some [ascii "x", ascii "w"] ∧
    ascii "y" ∉ elems ((overlapMemory.AddOptions (fun c => 2 * c) [0] (ascii "json")
        { ptr := 0, len := 3, cap := 3 }).tagAt 0).Options := by
  decide

/-- C12 (amended): when the options of the tags with key `k` share no backing
array with the options of another tag of `t` nor with the slice of the options to
add (all of them being valid slices, as they are in a Go program), then after
`AddOptions(k, os...)`, `os` being what the slice holds at the call, the tags are
as many and in the same order; a tag whose key is not `k` is unchanged; a tag with
key `k` keeps its key, name and positions, has every option of `os`, keeps its
former options as a prefix, counts each former option as often as before and each
option of `os` that was absent exactly once. Nothing is written when no tag has
key `k`, and a second call with the same arguments writes nothing. -/
theorem C12_add_options_unshared (grow : Nat → Nat) (m : Memory) (ptrs : List Nat) (k : Str)
    (options : Slice) (hvalid : m.validAt ptrs) (hunshared : m.unshared ptrs k)
    (hoptions : m.optionsApart ptrs k options) :
    List.Forall₂ (fun old new =>
        (old.Key ≠ k → new = old) ∧
        (old.Key = k →
          new.Key = old.Key ∧ new.Name = old.Name ∧ new.Line = old.Line ∧
          new.Start = old.Start ∧ new.End = old.End ∧
          (∀ o ∈ readSlice m.slots options, o ∈ elems new.Options) ∧
          elems old.Options <+: elems new.Options ∧
          (∀ o ∈ elems old.Options,
            (elems new.Options).count o = (elems old.Options).count o) ∧
          (∀ o ∈ readSlice m.slots options,
            o ∉ elems old.Options → (elems new.Options).count o = 1)))
      (m.tagsAt ptrs).tags ((m.AddOptions grow ptrs k options).tagsAt ptrs).tags ∧
    ((∀ p ∈ ptrs, (m.tagAt p).Key ≠ k) → m.AddOptions grow ptrs k options = m) ∧
    (m.AddOptions grow ptrs k options).AddOptions grow ptrs k options
      = m.AddOptions grow ptrs k options := by
  refine ⟨?_, ?_, ?_⟩
  · rw [AddOptions_refines grow m ptrs k options hvalid hunshared hoptions]
    exact (Tags_AddOptions_spec (m.tagsAt ptrs) k (readSlice m.slots options)).1
  · intro h
    exact visits_fixed grow k options m ptrs (fun p hp hk => absurd hk (h p hp))
  · obtain ⟨hread, hkeys, hval⟩ :=
      visits_spec grow ptrs k options ptrs m (fun _ hp => hp) hvalid hunshared hoptions
    apply visits_fixed grow k options (m.AddOptions grow ptrs k options) ptrs
    intro p hp hk o ho
    have hk0 : (m.objs p).Key = k := by
      rw [← hkeys p]
      exact hk
    have e : (m.AddOptions grow ptrs k options).tagAt p
        = (readSlice m.slots options).foldl addOption (m.tagAt p) := by
      have h1 := hval p hp
      rw [if_pos ⟨hk0, hp⟩] at h1
      exact h1
    have ho2 : o ∈ readSlice m.slots options := by
      rw [← hread]
      exact ho
    rw [e]
    exact addOptions_tag_mem (readSlice m.slots options) (m.tagAt p) o ho2

/-- C12 (amended) at `apartMemory`, where `json` has the options `o1 o2` in an
array of four slots, `xml` an array of its own, and the options `b o1 b c d` of
the call a third one: `b` and `c` are appended in place, `d` into a new array, and
`json` has the options `o1 o2 b c d` afterwards. -/
theorem C12_add_options_unshared_witness :
    apartMemory.validAt [0, 1] ∧ apartMemory.unshared [0, 1] (ascii "json") ∧
    apartMemory.optionsApart [0, 1] (ascii "json") { ptr := 5, len := 5, cap := 5 } ∧
    readSlice apartMemory.slots { ptr := 5, len := 5, cap := 5 }
      = [ascii "b", ascii "o1", ascii "b", ascii "c", ascii "d"] ∧
    (List.Forall₂ (fun old new =>
        (old.Key ≠ ascii "json" → new = old) ∧
        (old.Key = ascii "json" →
          new.Key = old.Key ∧ new.Name = old.Name ∧ new.Line = old.Line ∧
          new.Start = old.Start ∧ new.End = old.End ∧
          (∀ o ∈ readSlice apartMemory.slots { ptr := 5, len := 5, cap := 5 },
            o ∈ elems new.Options) ∧
          elems old.Options <+: elems new.Options ∧
          (∀ o ∈ elems old.Options,
            (elems new.Options).count o = (elems old.Options).count o) ∧
          (∀ o ∈ readSlice apartMemory.slots { ptr := 5, len := 5, cap := 5 },
            o ∉ elems old.Options → (elems new.Options).count o = 1)))
      (apartMemory.tagsAt [0, 1]).tags
      ((apartMemory.AddOptions (fun c => 2 * c) [0, 1] (ascii "json")
        { ptr := 5, len := 5, cap := 5 }).tagsAt [0, 1]).tags ∧
    ((∀ p ∈ [0, 1], (apartMemory.tagAt p).Key ≠ ascii "json") →
      apartMemory.AddOptions (fun c => 2 * c) [0, 1] (ascii "json")
        { ptr := 5, len := 5, cap := 5 } = apartMemory) ∧
    (apartMemory.AddOptions (fun c => 2 * c) [0, 1] (ascii "json")
        { ptr := 5, len := 5, cap := 5 }).AddOptions (fun c => 2 * c)
        [0, 1] (ascii "json") { ptr := 5, len := 5, cap := 5 }
      = apartMemory.AddOptions (fun c => 2 * c) [0, 1] (ascii "json")
        { ptr := 5, len := 5, cap := 5 }) ∧
    ((apartMemory.AddOptions (fun c => 2 * c) [0, 1] (ascii "json")
        { ptr := 5, len := 5, cap := 5 }).tagAt 0).Options
      = some [ascii "o1", ascii "o2", ascii "b", ascii "c", ascii "d"] ∧
    ((apartMemory.AddOptions (fun c => 2 * c) [0, 1] (ascii "json")
        { ptr := 5, len := 5, cap := 5 }).objs 0).Options
      = some { ptr := 10, len := 5, cap := 8 } :=
  ⟨by decide, by decide, by decide, by decide,
    C12_add_options_unshared (fun c => 2 * c) apartMemory [0, 1] (ascii "json")
      { ptr := 5, len := 5, cap := 5 } (by decide) (by decide) (by decide),
    by decide, by decide⟩

/-! ## The tasks of a struct type -/

theorem fieldTask_wellTagged (f : AstField) (h : wellTagged f = true) :
    fieldTask f = .ok (taskField f) ∧ entryOf f (taskField f) := by
  unfold wellTagged at h
  cases hT : f.Tag with
  | none => rw [hT] at h; cases h
  | some value =>
    cases hN : f.Names with
    | nil => rw [hT, hN] at h; cases h
    | cons name rest =>
      rw [hT, hN] at h
      simp only [Bool.and_eq_true, decide_eq_true_eq] at h
      obtain ⟨hlen, hp⟩ := h
      cases hP : ParseTags (tagInterior value) f.Offset f.EndOffset f.Line with
      | error a => rw [hP] at hp; cases hp
      | ok r =>
        cases r with
        | none => rw [hP] at hp; cases hp
        | some tags =>
          have hlt : ¬ value.length < 2 := by omega
          have e : fieldTask f = .ok (⟨name, f.Type_, f.Line, tags, f.Offset, 0⟩ : Field) := by
            simp only [fieldTask, hT, hN, if_neg hlt, hP]
          refine ⟨by simp only [taskField, e], ?_⟩
          simp only [taskField, e, entryOf, hN, List.head?_cons, true_and]
          exact ⟨value, hT, hP⟩

/-- When every task of a struct type stores a field, the slots after the tasks
hold, at every index that a task had, the field of that task. -/
theorem runTasks_ok (fields : List AstField)
    (hok : ∀ f ∈ fields, fieldTask f = .ok (taskField f)) :
    ∀ (order : List Nat) (slots : List Field) (err : Option TagError),
      ∃ slots2, runTasks fields order slots err = .ok (slots2, err) ∧
        slots2.length = slots.length ∧
        (∀ i f, i ∈ order → fields.get? i = some f → i < slots.length →
          slots2.get? i = some (taskField f)) ∧
        (∀ i, i ∉ order → slots2.get? i = slots.get? i) := by
  intro order
  induction order with
  | nil =>
    intro slots err
    exact ⟨slots, rfl, rfl, fun i f h => absurd h (List.not_mem_nil i), fun _ _ => rfl⟩
  | cons idx order ih =>
    intro slots err
    cases hg : fields.get? idx with
    | none =>
      obtain ⟨s2, h1, h2, h3, h4⟩ := ih slots err
      refine ⟨s2, by simp only [runTasks, hg, h1], h2, ?_, ?_⟩
      · intro i f hi hf hlt
        rcases List.mem_cons.mp hi with rfl | hi
        · rw [hg] at hf; cases hf
        · exact h3 i f hi hf hlt
      · intro i hi
        exact h4 i (fun h => hi (List.mem_cons_of_mem _ h))
    | some field =>
      have hfield : fieldTask field = .ok (taskField field) :=
        hok field (List.get?_mem hg)
      obtain ⟨s2, h1, h2, h3, h4⟩ := ih (slots.set idx (taskField field)) err
      refine ⟨s2, by simp only [runTasks, hg, hfield, h1], by rw [h2, List.length_set], ?_, ?_⟩
      · intro i f hi hf hlt
        by_cases hio : i ∈ order
        · exact h3 i f hio hf (by rw [List.length_set]; exact hlt)
        · have hidx : i = idx := by
            rcases List.mem_cons.mp hi with h | h
            · exact h
            · exact absurd h hio
          subst hidx
          rw [h4 i hio]
          rw [hg] at hf
          cases hf
          simp [List.getElem?_set, hlt]
      · intro i hi
        have hne : idx ≠ i := fun h => hi (h ▸ List.mem_cons_self _ _)
        rw [h4 i (fun h => hi (List.mem_cons_of_mem _ h))]
        simp [List.getElem?_set, hne]

theorem runTasks_perm (fields : List AstField)
    (hok : ∀ f ∈ fields, fieldTask f = .ok (taskField f)) (order : List Nat)
    (hperm : order.Perm (List.range fields.length)) (err : Option TagError) :
    runTasks fields order (List.replicate fields.length zeroField) err
      = .ok (fields.map taskField, err) := by
  obtain ⟨s2, h1, h2, h3, _⟩ :=
    runTasks_ok fields hok order (List.replicate fields.length zeroField) err
  rw [h1]
  have hlen : s2.length = fields.length := by rw [h2, List.length_replicate]
  have : s2 = fields.map taskField := by
    apply List.ext_get?
    intro i
    by_cases hi : i < fields.length
    · obtain ⟨f, hf⟩ : ∃ f, fields.get? i = some f := ⟨_, List.get?_eq_get hi⟩
      have hmem : i ∈ order := (hperm.mem_iff).mpr (List.mem_range.mpr hi)
      rw [h3 i f hmem hf (by rw [List.length_replicate]; exact hi)]
      simp only [List.get?_eq_getElem?] at hf
      simp [hf]
    · rw [List.get?_eq_none.mpr (by omega), List.get?_eq_none.mpr (by simp; omega)]
  rw [this]

theorem inspectStructs_ok (sched : Nat → List Nat) :
    ∀ (structs : List (List AstField)) (k : Nat) (structures : List Structure),
      (∀ fields ∈ structs, ∀ f ∈ fields, fieldTask f = .ok (taskField f)) →
      (∀ j fields, structs.get? j = some fields →
        (sched (k + j)).Perm (List.range fields.length)) →
      inspectStructs sched k structs structures none =
        .ok (structures ++ structs.map (fun fields => { Fields := fields.map taskField }), none)
    := by
  intro structs
  induction structs with
  | nil => intro k structures _ _; simp [inspectStructs]
  | cons fields rest ih =>
    intro k structures hok hs
    have h0 := hs 0 fields rfl
    rw [Nat.add_zero] at h0
    rw [inspectStructs, runTasks_perm fields (hok fields (by simp)) (sched k) h0 none]
    simp only []
    rw [ih (k + 1) _ (fun fs hfs => hok fs (by simp [hfs]))
      (fun j fs hj => by
        have := hs (j + 1) fs (by simpa using hj)
        rw [show k + 1 + j = k + (j + 1) by omega]
        exact this)]
    simp

theorem ParseStructs_ok (ParseFile : Str → Except Str AstFile) (sched : Nat → List Nat)
    (src : Str) (file : AstFile) (hparse : ParseFile (wrapSource src) = .ok file)
    (hsched : validSched file sched)
    (hok : ∀ fields ∈ file, ∀ f ∈ fields, fieldTask f = .ok (taskField f)) :
    ParseStructs ParseFile sched src
      = .ok (file.map (fun fields => { Fields := fields.map taskField })) := by
  unfold ParseStructs
  rw [hparse]
  simp only []
  rw [inspectStructs_ok sched file 0 [] hok (fun j fields hj => by
    rw [Nat.zero_add]; exact hsched j fields hj)]
  simp

theorem validSched_seq (file : AstFile) : validSched file (seqSched file) := by
  intro k fields hk
  have : file.getD k [] = fields := by
    simp only [List.get?_eq_getElem?] at hk
    simp [List.getD, hk]
  simp only [seqSched, this]
  exact List.Perm.refl _

/-! ## The entries in the order of the declarations -/

/-- When the source parses and every field of every struct type has a name and a
tag literal from which `ParseTags` makes a set of tags, `ParseStructs` returns,
for every order in which the tasks of each struct type complete, one `Structure`
per struct type in the order of the file, with one entry per field in the order of
the declarations, the entry of a field carrying its first name, its line, its
start offset and the tags `ParseTags` yields for its literal; and this is what the
run returns in which the tasks complete from the first field to the last. -/
theorem ParseStructs_declaration_order (ParseFile : Str → Except Str AstFile) (sched : Nat → List Nat)
    (src : Str) (file : AstFile) (hparse : ParseFile (wrapSource src) = .ok file)
    (hsched : validSched file sched)
    (hwf : ∀ fields ∈ file, ∀ f ∈ fields, wellTagged f = true) :
    ∃ structures : List Structure,
      ParseStructs ParseFile sched src = .ok structures ∧
      ParseStructs ParseFile (seqSched file) src = .ok structures ∧
      List.Forall₂ (fun fields s => List.Forall₂ entryOf fields s.Fields) file structures := by
  have hok : ∀ fields ∈ file, ∀ f ∈ fields, fieldTask f = .ok (taskField f) :=
    fun fields hf f hff => (fieldTask_wellTagged f (hwf fields hf f hff)).1
  refine ⟨_, ParseStructs_ok ParseFile sched src file hparse hsched hok,
    ParseStructs_ok ParseFile (seqSched file) src file hparse (validSched_seq file) hok, ?_⟩
  rw [List.forall₂_map_right_iff]
  apply List.forall₂_same.mpr
  intro fields hf
  show List.Forall₂ entryOf fields (fields.map taskField)
  rw [List.forall₂_map_right_iff]
  apply List.forall₂_same.mpr
  intro f hff
  exact (fieldTask_wellTagged f (hwf fields hf f hff)).2

/-! ## The first error of the tasks -/

theorem fieldTask_rejected (f : AstField) (h : rejectedTag f = true) :
    ∃ e, fieldTask f = .error (.parseTags e) := by
  unfold rejectedTag at h
  cases hT : f.Tag with
  | none => rw [hT] at h; cases h
  | some value =>
    rw [hT] at h
    simp only [Bool.and_eq_true, decide_eq_true_eq] at h
    obtain ⟨hlen, hp⟩ := h
    have hlt : ¬ value.length < 2 := by omega
    cases hP : ParseTags (tagInterior value) f.Offset f.EndOffset f.Line with
    | ok r => rw [hP] at hp; cases hp
    | error a =>
      cases a with
      | err e => exact ⟨e, by simp only [fieldTask, hT, if_neg hlt, hP]⟩
      | indexOutOfRange => rw [hP] at hp; cases hp
      | outOfFuel => rw [hP] at hp; cases hp

/-- The error that a task returns is the error of `ParseTags` on the literal of its
field. -/
theorem fieldTask_error_origin (f : AstField) (e : TagError)
    (h : fieldTask f = .error (.parseTags e)) :
    ∃ value, f.Tag = some value ∧
      ParseTags (tagInterior value) f.Offset f.EndOffset f.Line = .error (.err e) := by
  unfold fieldTask at h
  cases hT : f.Tag with
  | none => rw [hT] at h; cases h
  | some value =>
    rw [hT] at h
    simp only [] at h
    by_cases hlt : value.length < 2
    · rw [if_pos hlt] at h; cases h
    · rw [if_neg hlt] at h
      refine ⟨value, rfl, ?_⟩
      cases hP : ParseTags (tagInterior value) f.Offset f.EndOffset f.Line with
      | error a =>
        cases a with
        | err e2 =>
          rw [hP] at h
          simp only [Except.error.injEq, StructsAbort.parseTags.injEq] at h
          rw [h]
        | indexOutOfRange => rw [hP] at h; cases h
        | outOfFuel => rw [hP] at h; cases h
      | ok r =>
        rw [hP] at h
        simp only [] at h
        cases hN : f.Names with
        | nil => rw [hN] at h; cases h
        | cons name rest =>
          rw [hN] at h
          cases r with
          | none => cases h
          | some tags => cases h

/-- When no task panics, the tasks of a struct type all run; the group keeps an
error it already has, has one afterwards when a task fails, and has none but
an error it had or the error of one of the tasks. -/
theorem runTasks_returns (fields : List AstField)
    (hnp : ∀ f ∈ fields, (∃ x, fieldTask f = .ok x) ∨ ∃ e, fieldTask f = .error (.parseTags e)) :
    ∀ (order : List Nat) (slots : List Field) (err : Option TagError),
      ∃ slots2 err2, runTasks fields order slots err = .ok (slots2, err2) ∧
        (∀ e0, err = some e0 → err2 = some e0) ∧
        ((∃ i ∈ order, ∃ f e, fields.get? i = some f ∧ fieldTask f = .error (.parseTags e)) →
          err2 ≠ none) ∧
        (∀ e, err2 = some e → err = some e ∨
          ∃ f ∈ fields, fieldTask f = .error (.parseTags e)) := by
  intro order
  induction order with
  | nil =>
    intro slots err
    refine ⟨slots, err, rfl, fun _ h => h, ?_, fun e h => Or.inl h⟩
    rintro ⟨i, hi, _⟩
    cases hi
  | cons idx order ih =>
    intro slots err
    cases hg : fields.get? idx with
    | none =>
      obtain ⟨s2, e2, h1, h2, h3, h4⟩ := ih slots err
      refine ⟨s2, e2, by simp only [runTasks, hg, h1], h2, ?_, h4⟩
      rintro ⟨i, hi, f, e, hf, hfe⟩
      rcases List.mem_cons.mp hi with rfl | hi
      · rw [hg] at hf; cases hf
      · exact h3 ⟨i, hi, f, e, hf, hfe⟩
    | some field =>
      have hmem : field ∈ fields := List.get?_mem hg
      rcases hnp field hmem with ⟨x, hx⟩ | ⟨e1, he1⟩
      · obtain ⟨s2, e2, h1, h2, h3, h4⟩ := ih (slots.set idx x) err
        refine ⟨s2, e2, by simp only [runTasks, hg, hx, h1], h2, ?_, h4⟩
        rintro ⟨i, hi, f, e, hf, hfe⟩
        rcases List.mem_cons.mp hi with rfl | hi
        · rw [hg] at hf
          cases hf
          rw [hx] at hfe
          cases hfe
        · exact h3 ⟨i, hi, f, e, hf, hfe⟩
      · cases err with
        | none =>
          obtain ⟨s2, e2, h1, h2, h3, h4⟩ := ih slots (some e1)
          refine ⟨s2, e2, by simp only [runTasks, hg, he1, h1], ?_, ?_, ?_⟩
          · intro e0 h0; cases h0
          · intro _
            rw [h2 e1 rfl]
            exact Option.some_ne_none e1
          · intro e he
            rcases h4 e he with h | h
            · cases h
              exact Or.inr ⟨field, hmem, he1⟩
            · exact Or.inr h
        | some e0 =>
          obtain ⟨s2, e2, h1, h2, h3, h4⟩ := ih slots (some e0)
          refine ⟨s2, e2, by simp only [runTasks, hg, he1, h1], h2, ?_, h4⟩
          intro _
          rw [h2 e0 rfl]
          exact Option.some_ne_none e0

theorem inspectStructs_returns (sched : Nat → List Nat) :
    ∀ (structs : List (List AstField)) (k : Nat) (structures : List Structure)
      (err : Option TagError),
      (∀ fields ∈ structs, ∀ f ∈ fields,
        (∃ x, fieldTask f = .ok x) ∨ ∃ e, fieldTask f = .error (.parseTags e)) →
      (∀ j fields, structs.get? j = some fields →
        (sched (k + j)).Perm (List.range fields.length)) →
      ∃ structures2 err2, inspectStructs sched k structs structures err
          = .ok (structures2, err2) ∧
        (∀ e0, err = some e0 → err2 = some e0) ∧
        ((∃ fields ∈ structs, ∃ f ∈ fields, ∃ e, fieldTask f = .error (.parseTags e)) →
          err2 ≠ none) ∧
        (∀ e, err2 = some e → err = some e ∨
          ∃ fields ∈ structs, ∃ f ∈ fields, fieldTask f = .error (.parseTags e)) := by
  intro structs
  induction structs with
  | nil =>
    intro k structures err _ _
    refine ⟨structures, err, rfl, fun _ h => h, ?_, fun e h => Or.inl h⟩
    rintro ⟨fields, hf, _⟩
    cases hf
  | cons fields rest ih =>
    intro k structures err hnp hs
    have hperm := hs 0 fields rfl
    rw [Nat.add_zero] at hperm
    obtain ⟨s1, e1, r1, r2, r3, r4⟩ := runTasks_returns fields (hnp fields (by simp))
      (sched k) (List.replicate fields.length zeroField) err
    have hrest : ∀ j fs, rest.get? j = some fs →
        (sched (k + 1 + j)).Perm (List.range fs.length) := by
      intro j fs hj
      have := hs (j + 1) fs (by simpa using hj)
      rw [show k + 1 + j = k + (j + 1) by omega]
      exact this
    have hnprest : ∀ fs ∈ rest, ∀ f ∈ fs,
        (∃ x, fieldTask f = .ok x) ∨ ∃ e, fieldTask f = .error (.parseTags e) :=
      fun fs hfs => hnp fs (by simp [hfs])
    have key : ∀ structuresN, ∃ structures2 err2,
        inspectStructs sched (k + 1) rest structuresN e1 = .ok (structures2, err2) ∧
        (∀ e0, err = some e0 → err2 = some e0) ∧
        ((∃ fs ∈ fields :: rest, ∃ f ∈ fs, ∃ e, fieldTask f = .error (.parseTags e)) →
          err2 ≠ none) ∧
        (∀ e, err2 = some e → err = some e ∨
          ∃ fs ∈ fields :: rest, ∃ f ∈ fs, fieldTask f = .error (.parseTags e)) := by
      intro structuresN
      obtain ⟨s2, e2, q1, q2, q3, q4⟩ := ih (k + 1) structuresN e1 hnprest hrest
      refine ⟨s2, e2, q1, fun e0 h0 => q2 e0 (r2 e0 h0), ?_, ?_⟩
      · rintro ⟨fs, hfs, f, hf, e, hfe⟩
        rcases List.mem_cons.mp hfs with rfl | hfs
        · obtain ⟨i, hi⟩ := List.mem_iff_get?.mp hf
          have hlt : i < fs.length := by
            by_contra hn
            rw [List.get?_eq_none.mpr (by omega)] at hi
            cases hi
          have hne : e1 ≠ none :=
            r3 ⟨i, (hperm.mem_iff).mpr (List.mem_range.mpr hlt), f, e, hi, hfe⟩
          cases he1 : e1 with
          | none => exact absurd he1 hne
          | some ev =>
            rw [q2 ev he1]
            exact Option.some_ne_none ev
        · exact q3 ⟨fs, hfs, f, hf, e, hfe⟩
      · intro e he
        rcases q4 e he with h | ⟨fs, hfs, f, hf, hfe⟩
        · rcases r4 e h with h2 | ⟨f, hf, hfe⟩
          · exact Or.inl h2
          · exact Or.inr ⟨fields, by simp, f, hf, hfe⟩
        · exact Or.inr ⟨fs, by simp [hfs], f, hf, hfe⟩
    cases he1 : e1 with
    | none =>
      obtain ⟨s2, e2, q⟩ := key (structures ++ [{ Fields := s1 }])
      rw [he1] at q
      exact ⟨s2, e2, by simp only [inspectStructs, r1, he1, q.1], q.2⟩
    | some ev =>
      obtain ⟨s2, e2, q⟩ := key structures
      rw [he1] at q
      exact ⟨s2, e2, by simp only [inspectStructs, r1, he1, q.1], q.2⟩

/-- When the source parses, every field of every struct type carries a tag literal
that `ParseTags` either rejects or makes a set of tags from (the field then having
a name), and at least one literal is rejected, `ParseStructs` returns, for every
order in which the tasks complete, an error around the error of `ParseTags` on one
of the literals, and so no structure, whatever the other fields are. -/
theorem ParseStructs_fail_fast (ParseFile : Str → Except Str AstFile) (sched : Nat → List Nat)
    (src : Str) (file : AstFile) (hparse : ParseFile (wrapSource src) = .ok file)
    (hsched : validSched file sched)
    (hall : ∀ fields ∈ file, ∀ f ∈ fields, wellTagged f = true ∨ rejectedTag f = true)
    (hrej : ∃ fields ∈ file, ∃ f ∈ fields, rejectedTag f = true) :
    ∃ e, ParseStructs ParseFile sched src = .error (.parseTags e) ∧
      ∃ fields ∈ file, ∃ f ∈ fields, ∃ value, f.Tag = some value ∧
        ParseTags (tagInterior value) f.Offset f.EndOffset f.Line = .error (.err e) := by
  have hnp : ∀ fields ∈ file, ∀ f ∈ fields,
      (∃ x, fieldTask f = .ok x) ∨ ∃ e, fieldTask f = .error (.parseTags e) := by
    intro fields hf f hff
    rcases hall fields hf f hff with h | h
    · exact Or.inl ⟨_, (fieldTask_wellTagged f h).1⟩
    · exact Or.inr (fieldTask_rejected f h)
  obtain ⟨s2, e2, q1, _, q3, q4⟩ := inspectStructs_returns sched file 0 [] none hnp
    (fun j fields hj => by rw [Nat.zero_add]; exact hsched j fields hj)
  have hne : e2 ≠ none := by
    apply q3
    obtain ⟨fields, hf, f, hff, hr⟩ := hrej
    exact ⟨fields, hf, f, hff, fieldTask_rejected f hr⟩
  cases he2 : e2 with
  | none => exact absurd he2 hne
  | some e =>
    refine ⟨e, ?_, ?_⟩
    · unfold ParseStructs
      rw [hparse]
      simp only [q1, he2]
    · rcases q4 e he2 with h | ⟨fields, hf, f, hff, hfe⟩
      · cases h
      · exact ⟨fields, hf, f, hff, fieldTask_error_origin f e hfe⟩

/-! ## C15 -/

theorem ParseTags_returns (tag : Str) (st en ln : Int) :
    (∃ r, ParseTags tag st en ln = .ok r) ∨ ∃ e, ParseTags tag st en ln = .error (.err e) := by
  rcases parseLoop_returns st en ln (tag.length + 1) tag [] (by omega) with ⟨r, h⟩ | ⟨e, h⟩
  · left
    unfold ParseTags
    simp only [h]
    split <;> exact ⟨_, rfl⟩
  · right
    unfold ParseTags
    simp only [h]
    exact ⟨e, rfl⟩

/-- A task stores a field, returns an error of `ParseTags`, or panics. -/
theorem fieldTask_kinds (f : AstField) (a : StructsAbort) (h : fieldTask f = .error a) :
    (∃ e, a = .parseTags e) ∨ isPanic a := by
  unfold fieldTask at h
  cases hT : f.Tag with
  | none =>
    rw [hT] at h
    cases h
    exact Or.inr (Or.inl rfl)
  | some value =>
    rw [hT] at h
    simp only [] at h
    by_cases hlt : value.length < 2
    · rw [if_pos hlt] at h
      cases h
      exact Or.inr (Or.inr rfl)
    · rw [if_neg hlt] at h
      rcases ParseTags_returns (tagInterior value) f.Offset f.EndOffset f.Line with
        ⟨r, hP⟩ | ⟨e, hP⟩
      · rw [hP] at h
        simp only [] at h
        cases hN : f.Names with
        | nil =>
          rw [hN] at h
          cases h
          exact Or.inr (Or.inr rfl)
        | cons name rest =>
          rw [hN] at h
          cases r with
          | none =>
            cases h
            exact Or.inr (Or.inl rfl)
          | some tags => cases h
      · rw [hP] at h
        cases h
        exact Or.inl ⟨e, rfl⟩

theorem fieldTask_untagged (f : AstField) (h : f.Tag = none) :
    fieldTask f = .error .nilDereference := by
  simp only [fieldTask, h]

/-- The tasks of a struct type end in a panic or all run. -/
theorem runTasks_kinds (fields : List AstField) :
    ∀ (order : List Nat) (slots : List Field) (err : Option TagError) (a : StructsAbort),
      runTasks fields order slots err = .error a → isPanic a := by
  intro order
  induction order with
  | nil => intro slots err a h; cases h
  | cons idx order ih =>
    intro slots err a h
    cases hg : fields.get? idx with
    | none =>
      simp only [runTasks, hg] at h
      exact ih slots err a h
    | some field =>
      cases hf : fieldTask field with
      | ok x =>
        simp only [runTasks, hg, hf] at h
        exact ih _ err a h
      | error b =>
        rcases fieldTask_kinds field b hf with ⟨e, rfl⟩ | hb
        · simp only [runTasks, hg, hf] at h
          exact ih slots _ a h
        · rcases hb with rfl | rfl
          · simp only [runTasks, hg, hf] at h
            cases h
            exact Or.inl rfl
          · simp only [runTasks, hg, hf] at h
            cases h
            exact Or.inr rfl

/-- When a task of the struct type is that of a field without tag, the tasks end
in a panic. -/
theorem runTasks_untagged (fields : List AstField) :
    ∀ (order : List Nat) (slots : List Field) (err : Option TagError),
      (∃ i ∈ order, ∃ f, fields.get? i = some f ∧ f.Tag = none) →
      ∃ a, runTasks fields order slots err = .error a ∧ isPanic a := by
  intro order
  induction order with
  | nil =>
    intro slots err h
    obtain ⟨i, hi, _⟩ := h
    cases hi
  | cons idx order ih =>
    intro slots err h
    obtain ⟨i, hi, f, hf, hT⟩ := h
    cases hg : fields.get? idx with
    | none =>
      have hio : i ∈ order := by
        rcases List.mem_cons.mp hi with rfl | hio
        · rw [hg] at hf; cases hf
        · exact hio
      obtain ⟨a, ha, hp⟩ := ih slots err ⟨i, hio, f, hf, hT⟩
      exact ⟨a, by simp only [runTasks, hg, ha], hp⟩
    | some field =>
      cases hft : fieldTask field with
      | ok x =>
        have hio : i ∈ order := by
          rcases List.mem_cons.mp hi with rfl | hio
          · have hff : field = f := by
              rw [hg] at hf
              exact Option.some.inj hf
            rw [hff, fieldTask_untagged f hT] at hft
            cases hft
          · exact hio
        obtain ⟨a, ha, hp⟩ := ih (slots.set idx x) err ⟨i, hio, f, hf, hT⟩
        exact ⟨a, by simp only [runTasks, hg, hft, ha], hp⟩
      | error b =>
        rcases fieldTask_kinds field b hft with ⟨e, rfl⟩ | hb
        · have hio : i ∈ order := by
            rcases List.mem_cons.mp hi with rfl | hio
            · have hff : field = f := by
                rw [hg] at hf
                exact Option.some.inj hf
              rw [hff, fieldTask_untagged f hT] at hft
              cases hft
            · exact hio
          obtain ⟨a, ha, hp⟩ := ih slots
            (match err with | none => some e | some e0 => some e0) ⟨i, hio, f, hf, hT⟩
          exact ⟨a, by simp only [runTasks, hg, hft, ha], hp⟩
        · refine ⟨b, ?_, hb⟩
          rcases hb with rfl | rfl
          · simp only [runTasks, hg, hft]
          · simp only [runTasks, hg, hft]

theorem inspectStructs_untagged (sched : Nat → List Nat) :
    ∀ (structs : List (List AstField)) (k : Nat) (structures : List Structure)
      (err : Option TagError),
      (∀ j fields, structs.get? j = some fields →
        (sched (k + j)).Perm (List.range fields.length)) →
      (∃ fields ∈ structs, ∃ f ∈ fields, f.Tag = none) →
      ∃ a, inspectStructs sched k structs structures err = .error a ∧ isPanic a := by
  intro structs
  induction structs with
  | nil =>
    intro k structures err _ h
    obtain ⟨fields, hf, _⟩ := h
    cases hf
  | cons fields rest ih =>
    intro k structures err hs h
    have hperm := hs 0 fields rfl
    rw [Nat.add_zero] at hperm
    have hrest : ∀ j fs, rest.get? j = some fs →
        (sched (k + 1 + j)).Perm (List.range fs.length) := by
      intro j fs hj
      have := hs (j + 1) fs (by simpa using hj)
      rw [show k + 1 + j = k + (j + 1) by omega]
      exact this
    cases hr : runTasks fields (sched k) (List.replicate fields.length zeroField) err with
    | error a =>
      exact ⟨a, by simp only [inspectStructs, hr], runTasks_kinds fields _ _ _ a hr⟩
    | ok p =>
      obtain ⟨slots, e1⟩ := p
      have hin : ∃ fs ∈ rest, ∃ f ∈ fs, f.Tag = none := by
        obtain ⟨fs, hfs, f, hf, hT⟩ := h
        rcases List.mem_cons.mp hfs with rfl | hfs
        · exfalso
          obtain ⟨i, hi⟩ := List.mem_iff_get?.mp hf
          have hlt : i < fs.length := by
            by_contra hn
            rw [List.get?_eq_none.mpr (by omega)] at hi
            cases hi
          obtain ⟨a, ha, _⟩ := runTasks_untagged fs (sched k)
            (List.replicate fs.length zeroField) err
            ⟨i, (hperm.mem_iff).mpr (List.mem_range.mpr hlt), f, hi, hT⟩
          rw [ha] at hr
          cases hr
        · exact ⟨fs, hfs, f, hf, hT⟩
      cases e1 with
      | none =>
        obtain ⟨a, ha, hp⟩ := ih (k + 1) (structures ++ [{ Fields := slots }]) none hrest hin
        exact ⟨a, by simp only [inspectStructs, hr, ha], hp⟩
      | some ev =>
        obtain ⟨a, ha, hp⟩ := ih (k + 1) structures (some ev) hrest hin
        exact ⟨a, by simp only [inspectStructs, hr, ha], hp⟩

/-- C15, the code at a struct type with a field without tag: when the source
parses and some field of some struct type has no tag literal, `ParseStructs`
panics, with a nil pointer dereference (in `field.Tag.Value`) or, when another
task panics before, an index out of range: it returns neither a `Structure` nor
an error. -/
theorem C15_untagged_panics (ParseFile : Str → Except Str AstFile) (sched : Nat → List Nat)
    (src : Str) (file : AstFile) (hparse : ParseFile (wrapSource src) = .ok file)
    (hsched : validSched file sched)
    (hun : ∃ fields ∈ file, ∃ f ∈ fields, f.Tag = none) :
    ParseStructs ParseFile sched src = .error .nilDereference ∨
      ParseStructs ParseFile sched src = .error .indexOutOfRange := by
  obtain ⟨a, ha, hp⟩ := inspectStructs_untagged sched file 0 [] none
    (fun j fields hj => by rw [Nat.zero_add]; exact hsched j fields hj) hun
  have e : ParseStructs ParseFile sched src = .error a := by
    unfold ParseStructs
    rw [hparse]
    simp only [ha]
  rw [e]
  rcases hp with rfl | rfl
  · exact Or.inl rfl
  · exact Or.inr rfl

/-! ## C16 -/

theorem fieldTask_End (f : AstField) (x : Field) (h : fieldTask f = .ok x) : x.End = 0 := by
  unfold fieldTask at h
  cases hT : f.Tag with
  | none => rw [hT] at h; cases h
  | some value =>
    rw [hT] at h
    simp only [] at h
    by_cases hlt : value.length < 2
    · rw [if_pos hlt] at h; cases h
    · rw [if_neg hlt] at h
      cases hP : ParseTags (tagInterior value) f.Offset f.EndOffset f.Line with
      | error a =>
        rw [hP] at h
        cases a <;> cases h
      | ok r =>
        rw [hP] at h
        simp only [] at h
        cases hN : f.Names with
        | nil => rw [hN] at h; cases h
        | cons name rest =>
          rw [hN] at h
          cases r with
          | none => cases h
          | some tags =>
            simp only [Except.ok.injEq] at h
            rw [← h]

theorem runTasks_End (fields : List AstField) :
    ∀ (order : List Nat) (slots : List Field) (err : Option TagError)
      (slots2 : List Field) (err2 : Option TagError),
      (∀ e ∈ slots, e.End = 0) → runTasks fields order slots err = .ok (slots2, err2) →
      ∀ e ∈ slots2, e.End = 0 := by
  intro order
  induction order with
  | nil =>
    intro slots err slots2 err2 h0 h
    simp only [runTasks, Except.ok.injEq, Prod.mk.injEq] at h
    rw [← h.1]
    exact h0
  | cons idx order ih =>
    intro slots err slots2 err2 h0 h
    cases hg : fields.get? idx with
    | none =>
      simp only [runTasks, hg] at h
      exact ih slots err slots2 err2 h0 h
    | some field =>
      cases hf : fieldTask field with
      | ok x =>
        simp only [runTasks, hg, hf] at h
        refine ih (slots.set idx x) err slots2 err2 ?_ h
        intro e he
        rcases List.mem_or_eq_of_mem_set he with h1 | h1
        · exact h0 e h1
        · rw [h1]; exact fieldTask_End field x hf
      | error b =>
        cases b with
        | parseTags e =>
          simp only [runTasks, hg, hf] at h
          exact ih slots _ slots2 err2 h0 h
        | parseFile e => simp only [runTasks, hg, hf] at h; cases h
        | nilDereference => simp only [runTasks, hg, hf] at h; cases h
        | indexOutOfRange => simp only [runTasks, hg, hf] at h; cases h
        | outOfFuel => simp only [runTasks, hg, hf] at h; cases h

theorem inspectStructs_End (sched : Nat → List Nat) :
    ∀ (structs : List (List AstField)) (k : Nat) (structures : List Structure)
      (err : Option TagError) (structures2 : List Structure) (err2 : Option TagError),
      (∀ s ∈ structures, ∀ e ∈ s.Fields, e.End = 0) →
      inspectStructs sched k structs structures err = .ok (structures2, err2) →
      ∀ s ∈ structures2, ∀ e ∈ s.Fields, e.End = 0 := by
  intro structs
  induction structs with
  | nil =>
    intro k structures err structures2 err2 h0 h
    simp only [inspectStructs, Except.ok.injEq, Prod.mk.injEq] at h
    rw [← h.1]
    exact h0
  | cons fields rest ih =>
    intro k structures err structures2 err2 h0 h
    cases hr : runTasks fields (sched k) (List.replicate fields.length zeroField) err with
    | error a => simp only [inspectStructs, hr] at h; cases h
    | ok p =>
      obtain ⟨slots, e1⟩ := p
      have hslots : ∀ e ∈ slots, e.End = 0 :=
        runTasks_End fields _ _ err slots e1
          (fun e he => by rw [(List.mem_replicate.mp he).2]; rfl) hr
      cases e1 with
      | none =>
        simp only [inspectStructs, hr] at h
        refine ih (k + 1) _ none structures2 err2 ?_ h
        intro s hs
        rcases List.mem_append.mp hs with h1 | h1
        · exact h0 s h1
        · rw [List.mem_singleton.mp h1]; exact hslots
      | some ev =>
        simp only [inspectStructs, hr] at h
        exact ih (k + 1) _ (some ev) structures2 err2 h0 h

/-- C16, the code at any source: `End` of every `Field` that `ParseStructs` returns
is 0, the zero value, whatever the span of the field is: the end offset is given
to `ParseTags` and is not stored in the `Field`. -/
theorem C16_end_is_zero (ParseFile : Str → Except Str AstFile) (sched : Nat → List Nat)
    (src : Str) (structures : List Structure)
    (h : ParseStructs ParseFile sched src = .ok structures) :
    ∀ s ∈ structures, ∀ e ∈ s.Fields, e.End = 0 := by
  unfold ParseStructs at h
  cases hp : ParseFile (wrapSource src) with
  | error e => rw [hp] at h; cases h
  | ok file =>
    rw [hp] at h
    simp only [] at h
    cases hi : inspectStructs sched 0 file [] none with
    | error a => rw [hi] at h; cases h
    | ok p =>
      obtain ⟨structures2, err2⟩ := p
      rw [hi] at h
      cases err2 with
      | some e => cases h
      | none =>
        simp only [Except.ok.injEq] at h
        rw [← h]
        exact inspectStructs_End sched file 0 [] none structures2 none
          (fun s hs => absurd hs (List.not_mem_nil s)) hi

/-! ## C13 -/

/-- The task of a field that carries a well-formed tag literal stores an entry
when the field has a name, and panics on `field.Names[0]` when it has none. -/
theorem fieldTask_carriesTags (f : AstField) (h : carriesTags f = true) :
    (f.Names ≠ [] → ∃ x, fieldTask f = .ok x) ∧
    (f.Names = [] → fieldTask f = .error .indexOutOfRange) := by
  unfold carriesTags at h
  cases hT : f.Tag with
  | none => rw [hT] at h; cases h
  | some value =>
    rw [hT] at h
    simp only [Bool.and_eq_true, decide_eq_true_eq] at h
    obtain ⟨hlen, hP⟩ := h
    have hlt : ¬ value.length < 2 := by omega
    cases hr : ParseTags (tagInterior value) f.Offset f.EndOffset f.Line with
    | error a => rw [hr] at hP; cases hP
    | ok r =>
      cases r with
      | none => rw [hr] at hP; cases hP
      | some tags =>
        constructor
        · intro hne
          cases hN : f.Names with
          | nil => exact absurd hN hne
          | cons name rest =>
            exact ⟨{ Name := name, Type_ := f.Type_, Tags := tags, Line := f.Line,
                     Start := f.Offset, End := 0 },
              by simp only [fieldTask, hT, if_neg hlt, hr, hN]⟩
        · intro hN
          simp only [fieldTask, hT, if_neg hlt, hr, hN]

/-- The tasks of a struct type of which each stores an entry or panics with an
index out of range: they all run, or the run ends in this panic; and it ends in
this panic when one of the tasks that complete panics. -/
theorem runTasks_indexPanic (fields : List AstField)
    (hall : ∀ f ∈ fields, (∃ x, fieldTask f = .ok x) ∨ fieldTask f = .error .indexOutOfRange) :
    ∀ (order : List Nat) (slots : List Field) (err : Option TagError),
      ((∃ r, runTasks fields order slots err = .ok r) ∨
        runTasks fields order slots err = .error .indexOutOfRange) ∧
      ((∃ i ∈ order, ∃ f, fields.get? i = some f ∧ fieldTask f = .error .indexOutOfRange) →
        runTasks fields order slots err = .error .indexOutOfRange) := by
  intro order
  induction order with
  | nil =>
    intro slots err
    refine ⟨Or.inl ⟨_, rfl⟩, ?_⟩
    intro h
    obtain ⟨i, hi, _⟩ := h
    cases hi
  | cons idx order ih =>
    intro slots err
    cases hg : fields.get? idx with
    | none =>
      have e : runTasks fields (idx :: order) slots err = runTasks fields order slots err := by
        simp only [runTasks, hg]
      rw [e]
      refine ⟨(ih slots err).1, ?_⟩
      intro h
      obtain ⟨i, hi, f, hf, hp⟩ := h
      apply (ih slots err).2
      rcases List.mem_cons.mp hi with rfl | hio
      · rw [hg] at hf; cases hf
      · exact ⟨i, hio, f, hf, hp⟩
    | some field =>
      have hmem : field ∈ fields := List.mem_iff_get?.mpr ⟨idx, hg⟩
      rcases hall field hmem with ⟨x, hx⟩ | hx
      · have e : runTasks fields (idx :: order) slots err
            = runTasks fields order (slots.set idx x) err := by
          simp only [runTasks, hg, hx]
        rw [e]
        refine ⟨(ih _ err).1, ?_⟩
        intro h
        obtain ⟨i, hi, f, hf, hp⟩ := h
        apply (ih _ err).2
        rcases List.mem_cons.mp hi with rfl | hio
        · have hff : field = f := by
            rw [hg] at hf
            exact Option.some.inj hf
          rw [hff, hp] at hx
          cases hx
        · exact ⟨i, hio, f, hf, hp⟩
      · have e : runTasks fields (idx :: order) slots err = .error .indexOutOfRange := by
          simp only [runTasks, hg, hx]
        rw [e]
        exact ⟨Or.inr rfl, fun _ => rfl⟩

theorem inspectStructs_indexPanic (sched : Nat → List Nat) :
    ∀ (structs : List (List AstField)) (k : Nat) (structures : List Structure)
      (err : Option TagError),
      (∀ j fields, structs.get? j = some fields →
        (sched (k + j)).Perm (List.range fields.length)) →
      (∀ fields ∈ structs, ∀ f ∈ fields,
        (∃ x, fieldTask f = .ok x) ∨ fieldTask f = .error .indexOutOfRange) →
      (∃ fields ∈ structs, ∃ f ∈ fields, fieldTask f = .error .indexOutOfRange) →
      inspectStructs sched k structs structures err = .error .indexOutOfRange := by
  intro structs
  induction structs with
  | nil =>
    intro k structures err _ _ h
    obtain ⟨fields, hf, _⟩ := h
    cases hf
  | cons fields rest ih =>
    intro k structures err hs hall h
    have hperm := hs 0 fields rfl
    rw [Nat.add_zero] at hperm
    have hrest : ∀ j fs, rest.get? j = some fs →
        (sched (k + 1 + j)).Perm (List.range fs.length) := by
      intro j fs hj
      have := hs (j + 1) fs (by simpa using hj)
      rw [show k + 1 + j = k + (j + 1) by omega]
      exact this
    have hall0 := hall fields (List.mem_cons_self fields rest)
    have hallr : ∀ fs ∈ rest, ∀ f ∈ fs,
        (∃ x, fieldTask f = .ok x) ∨ fieldTask f = .error .indexOutOfRange :=
      fun fs hfs => hall fs (List.mem_cons_of_mem fields hfs)
    obtain ⟨t1, t2⟩ := runTasks_indexPanic fields hall0 (sched k)
      (List.replicate fields.length zeroField) err
    rcases t1 with ⟨r, hr⟩ | hr
    · obtain ⟨slots, e1⟩ := r
      have hin : ∃ fs ∈ rest, ∃ f ∈ fs, fieldTask f = .error .indexOutOfRange := by
        obtain ⟨fs, hfs, f, hf, hp⟩ := h
        rcases List.mem_cons.mp hfs with rfl | hfs
        · exfalso
          obtain ⟨i, hi⟩ := List.mem_iff_get?.mp hf
          have hlt : i < fs.length := by
            by_contra hn
            rw [List.get?_eq_none.mpr (by omega)] at hi
            cases hi
          have := t2 ⟨i, (hperm.mem_iff).mpr (List.mem_range.mpr hlt), f, hi, hp⟩
          rw [this] at hr
          cases hr
        · exact ⟨fs, hfs, f, hf, hp⟩
      cases e1 with
      | none =>
        have := ih (k + 1) (structures ++ [{ Fields := slots }]) none hrest hallr hin
        simp only [inspectStructs, hr, this]
      | some ev =>
        have := ih (k + 1) structures (some ev) hrest hallr hin
        simp only [inspectStructs, hr, this]
    · simp only [inspectStructs, hr]

/-- C13, the code on an embedded field: when the source parses, every field of
every struct type carries a well-formed tag literal, as the claim asks, and some
field declares no name (an embedded field), `ParseStructs` panics on
`field.Names[0]` with an index out of range, for every order in which the tasks
complete: it returns no `Structure`. -/
theorem C13_embedded_field_panics (ParseFile : Str → Except Str AstFile)
    (sched : Nat → List Nat) (src : Str) (file : AstFile)
    (hparse : ParseFile (wrapSource src) = .ok file) (hsched : validSched file sched)
    (hall : ∀ fields ∈ file, ∀ f ∈ fields, carriesTags f = true)
    (hemb : ∃ fields ∈ file, ∃ f ∈ fields, f.Names = []) :
    ParseStructs ParseFile sched src = .error .indexOutOfRange := by
  have hkinds : ∀ fields ∈ file, ∀ f ∈ fields,
      (∃ x, fieldTask f = .ok x) ∨ fieldTask f = .error .indexOutOfRange := by
    intro fields hfs f hf
    obtain ⟨h1, h2⟩ := fieldTask_carriesTags f (hall fields hfs f hf)
    by_cases hN : f.Names = []
    · exact Or.inr (h2 hN)
    · exact Or.inl (h1 hN)
  have hp : ∃ fields ∈ file, ∃ f ∈ fields, fieldTask f = .error .indexOutOfRange := by
    obtain ⟨fields, hfs, f, hf, hN⟩ := hemb
    exact ⟨fields, hfs, f, hf, (fieldTask_carriesTags f (hall fields hfs f hf)).2 hN⟩
  have hi := inspectStructs_indexPanic sched file 0 [] none
    (fun j fields hj => by rw [Nat.zero_add]; exact hsched j fields hj) hkinds hp
  unfold ParseStructs
  rw [hparse]
  simp only [hi]

/-! ## C14 -/

/-- C14, the code on a rejected tag literal beside a field without tag: when the
source parses, the tag literal of some field is rejected by `ParseTags`, as the
claim asks, and some field carries no tag literal, then the task of the first
returns the error of `ParseTags`, but `ParseStructs` does not return it: it
panics, with a nil pointer dereference in the task of the second (or with the
panic of another task), for every order in which the tasks complete. -/
theorem C14_rejected_beside_untagged (ParseFile : Str → Except Str AstFile)
    (sched : Nat → List Nat) (src : Str) (file : AstFile)
    (hparse : ParseFile (wrapSource src) = .ok file) (hsched : validSched file sched)
    (hrej : ∃ fields ∈ file, ∃ f ∈ fields, rejectedTag f = true)
    (hun : ∃ fields ∈ file, ∃ f ∈ fields, f.Tag = none) :
    (∃ e, ∃ fields ∈ file, ∃ f ∈ fields, fieldTask f = .error (.parseTags e)) ∧
    (ParseStructs ParseFile sched src = .error .nilDereference ∨
      ParseStructs ParseFile sched src = .error .indexOutOfRange) ∧
    ∀ e, ParseStructs ParseFile sched src ≠ .error (.parseTags e) := by
  obtain ⟨a, ha, hp⟩ := inspectStructs_untagged sched file 0 [] none
    (fun j fields hj => by rw [Nat.zero_add]; exact hsched j fields hj) hun
  have e : ParseStructs ParseFile sched src = .error a := by
    unfold ParseStructs
    rw [hparse]
    simp only [ha]
  refine ⟨?_, ?_, ?_⟩
  · obtain ⟨fields, hfs, f, hf, hr⟩ := hrej
    obtain ⟨e, he⟩ := fieldTask_rejected f hr
    exact ⟨e, fields, hfs, f, hf, he⟩
  · rw [e]
    rcases hp with rfl | rfl
    · exact Or.inl rfl
    · exact Or.inr rfl
  · intro e2 h2
    rw [e] at h2
    rcases hp with rfl | rfl <;> cases h2

/-! ## The theorems of C13 to C16 at sample inputs -/

theorem validSched_single (fields : List AstField) (order : List Nat)
    (h : order.Perm (List.range fields.length)) : validSched [fields] (fun _ => order) := by
  intro k fs hk
  cases k with
  | zero =>
    simp only [List.get?_cons_zero, Option.some.injEq] at hk
    rw [← hk]
    exact h
  | succ k =>
    simp only [List.get?_cons_succ] at hk
    cases k <;> cases hk

/-- C13 at `type A struct { io.Reader `json:"r"` }`, whose one field carries a
well-formed tag literal and has no name: `ParseStructs` panics. And at
`type A struct { A, B int `json:"x"` }`, whose one field declares two names:
`ParseStructs` returns one entry, named `A`, and none for `B`. -/
theorem C13_embedded_field_panics_witness :
    carriesTags sampleEmbedded = true ∧ sampleEmbedded.Names = [] ∧
    ParseStructs (fun _ => .ok [[sampleEmbedded]]) (fun _ => [0])
        (ascii "type A struct \x7b" ++ [10, 9] ++ ascii "io.Reader " ++ [96] ++ ascii "json:" ++
          [34] ++ ascii "r" ++ [34, 96, 10] ++ ascii "\x7d")
      = .error .indexOutOfRange ∧
    carriesTags sampleTwoNames = true ∧ sampleTwoNames.Names = [ascii "A", ascii "B"] ∧
    ParseStructs (fun _ => .ok [[sampleTwoNames]]) (fun _ => [0])
        (ascii "type A struct \x7b" ++ [10, 9] ++ ascii "A, B int " ++ [96] ++ ascii "json:" ++
          [34] ++ ascii "x" ++ [34, 96, 10] ++ ascii "\x7d")
      = .ok [{ Fields := [{ Name := ascii "A", Type_ := ascii "int", Line := 3,
                            Tags := { tags := [{ Key := ascii "json", Name := ascii "x",
                                                 Options := none, Line := 3, Start := 30,
                                                 End := 49 }] },
                            Start := 30, End := 0 }] }] :=
  ⟨by decide, rfl,
    C13_embedded_field_panics (fun _ => .ok [[sampleEmbedded]]) (fun _ => [0])
      (ascii "type A struct \x7b" ++ [10, 9] ++ ascii "io.Reader " ++ [96] ++ ascii "json:" ++
        [34] ++ ascii "r" ++ [34, 96, 10] ++ ascii "\x7d")
      [[sampleEmbedded]] rfl (validSched_single [sampleEmbedded] [0] (by decide)) (by decide)
      (by decide),
    by decide, rfl, by decide⟩

/-- C14 at `type A struct { X int `json:x`; Y int }`: the literal of `X` is
rejected, `Y` has no tag, and `ParseStructs` panics with a nil pointer
dereference, whichever task completes first. -/
theorem C14_rejected_beside_untagged_witness :
    rejectedTag sampleBadX = true ∧ sampleBareY.Tag = none ∧
    ((∃ e, ∃ fields ∈ [[sampleBadX, sampleBareY]], ∃ f ∈ fields,
        fieldTask f = .error (.parseTags e)) ∧
      (ParseStructs (fun _ => .ok [[sampleBadX, sampleBareY]]) (fun _ => [0, 1])
          (ascii "type A struct \x7b" ++ [10, 9] ++ ascii "X int " ++ [96] ++ ascii "json:x" ++
            [96, 10, 9] ++ ascii "Y int" ++ [10] ++ ascii "\x7d") = .error .nilDereference ∨
        ParseStructs (fun _ => .ok [[sampleBadX, sampleBareY]]) (fun _ => [0, 1])
          (ascii "type A struct \x7b" ++ [10, 9] ++ ascii "X int " ++ [96] ++ ascii "json:x" ++
            [96, 10, 9] ++ ascii "Y int" ++ [10] ++ ascii "\x7d") = .error .indexOutOfRange) ∧
      ∀ e, ParseStructs (fun _ => .ok [[sampleBadX, sampleBareY]]) (fun _ => [0, 1])
          (ascii "type A struct \x7b" ++ [10, 9] ++ ascii "X int " ++ [96] ++ ascii "json:x" ++
            [96, 10, 9] ++ ascii "Y int" ++ [10] ++ ascii "\x7d") ≠ .error (.parseTags e)) ∧
    ParseStructs (fun _ => .ok [[sampleBadX, sampleBareY]]) (fun _ => [0, 1])
        (ascii "type A struct \x7b" ++ [10, 9] ++ ascii "X int " ++ [96] ++ ascii "json:x" ++
          [96, 10, 9] ++ ascii "Y int" ++ [10] ++ ascii "\x7d") = .error .nilDereference ∧
    ParseStructs (fun _ => .ok [[sampleBadX, sampleBareY]]) (fun _ => [1, 0])
        (ascii "type A struct \x7b" ++ [10, 9] ++ ascii "X int " ++ [96] ++ ascii "json:x" ++
          [96, 10, 9] ++ ascii "Y int" ++ [10] ++ ascii "\x7d") = .error .nilDereference :=
  ⟨by decide, rfl,
    C14_rejected_beside_untagged (fun _ => .ok [[sampleBadX, sampleBareY]]) (fun _ => [0, 1])
      (ascii "type A struct \x7b" ++ [10, 9] ++ ascii "X int " ++ [96] ++ ascii "json:x" ++
        [96, 10, 9] ++ ascii "Y int" ++ [10] ++ ascii "\x7d")
      [[sampleBadX, sampleBareY]] rfl
      (validSched_single [sampleBadX, sampleBareY] [0, 1] (by decide)) (by decide) (by decide),
    by decide, by decide⟩

/-- The entries of `sampleSrc` in the order of the declarations, the task of `Y`
completing before the task of `X`. -/
theorem ParseStructs_declaration_order_sample :
    ∃ structures : List Structure,
      ParseStructs (fun _ => .ok sampleFile) (fun _ => [1, 0]) sampleSrc = .ok structures ∧
      ParseStructs (fun _ => .ok sampleFile) (seqSched sampleFile) sampleSrc = .ok structures ∧
      List.Forall₂ (fun fields s => List.Forall₂ entryOf fields s.Fields) sampleFile structures :=
  ParseStructs_declaration_order (fun _ => .ok sampleFile) (fun _ => [1, 0]) sampleSrc sampleFile rfl
    (validSched_single [sampleX, sampleY] [1, 0] (by decide)) (by decide)

/-- The error of a struct type with the fields `X`, whose literal `json:x` is
rejected, and `Y`, whose literal is well-formed, the task of `Y` completing
first. -/
theorem ParseStructs_fail_fast_sample :
    ∃ e, ParseStructs (fun _ => .ok [[sampleBadX, sampleY]]) (fun _ => [1, 0]) sampleSrc
        = .error (.parseTags e) ∧
      ∃ fields ∈ [[sampleBadX, sampleY]], ∃ f ∈ fields, ∃ value, f.Tag = some value ∧
        ParseTags (tagInterior value) f.Offset f.EndOffset f.Line = .error (.err e) :=
  ParseStructs_fail_fast (fun _ => .ok [[sampleBadX, sampleY]]) (fun _ => [1, 0]) sampleSrc
    [[sampleBadX, sampleY]] rfl (validSched_single [sampleBadX, sampleY] [1, 0] (by decide))
    (by decide) (by decide)

/-- C15 at `type A struct { X int }`: the one field has no tag and `ParseStructs`
panics. -/
theorem C15_untagged_panics_witness :
    ParseStructs (fun _ => .ok [[sampleBareX]]) (fun _ => [0]) (ascii "type A struct \x7b X int \x7d")
        = .error .nilDereference ∨
      ParseStructs (fun _ => .ok [[sampleBareX]]) (fun _ => [0]) (ascii "type A struct \x7b X int \x7d")
        = .error .indexOutOfRange :=
  C15_untagged_panics (fun _ => .ok [[sampleBareX]]) (fun _ => [0])
    (ascii "type A struct \x7b X int \x7d") [[sampleBareX]] rfl
    (validSched_single [sampleBareX] [0] (by decide)) (by decide)

/-- C16 at `sampleSrc`: the entry of the field `X`, whose span is from offset 30 to
offset 46, has `Start` 30 and `End` 0. -/
theorem C16_end_is_zero_witness :
    ParseStructs (fun _ => .ok sampleFile) (fun _ => [0, 1]) sampleSrc
      = .ok [{ Fields := [taskField sampleX, taskField sampleY] }] ∧
    (taskField sampleX).Start = 30 ∧ sampleX.EndOffset = 46 ∧ (taskField sampleX).End = 0 :=
  ⟨by decide, by decide, rfl,
    C16_end_is_zero (fun _ => .ok sampleFile) (fun _ => [0, 1]) sampleSrc
      [{ Fields := [taskField sampleX, taskField sampleY] }] (by decide)
      { Fields := [taskField sampleX, taskField sampleY] } (by simp)
      (taskField sampleX) (by simp)⟩

/-! ## C17 -/

theorem Contains_iff (sub : Str) : ∀ s : Str, Contains s sub = true ↔ sub <:+: s := by
  intro s
  induction s with
  | nil =>
    simp only [Contains, List.isPrefixOf_iff_prefix, List.prefix_nil, List.infix_nil]
  | cons c s ih =>
    simp only [Contains, Bool.or_eq_true, List.isPrefixOf_iff_prefix, ih, List.infix_cons_iff]

theorem wrapSource_eq (src : Str) :
    wrapSource src =
      if ascii "package " <:+: src then src else ascii "package main" ++ [10] ++ src := by
  unfold wrapSource
  by_cases h : ascii "package " <:+: src
  · rw [if_pos h, (Contains_iff _ src).mpr h]
    rfl
  · rw [if_neg h]
    have : Contains src (ascii "package ") = false := by
      cases hc : Contains src (ascii "package ")
      · rfl
      · exact absurd ((Contains_iff _ src).mp hc) h
    rw [this]
    rfl

/-- C17, as stated, fails in both directions. The fragment made of the comment
line `// package x` and of `type A struct{}` has no package declaration, and is
handed to the parser as it is, without `package main` in front. The source
`package`, tab, `main` (and then `type A struct{}`) has a package declaration, and
`package main` is put in front of it. -/
theorem C17_counterexample :
    wrapSource (ascii "// package x" ++ [10] ++ ascii "type A struct\x7b\x7d")
      = ascii "// package x" ++ [10] ++ ascii "type A struct\x7b\x7d" ∧
    wrapSource (ascii "// package x" ++ [10] ++ ascii "type A struct\x7b\x7d")
      ≠ ascii "package main" ++ [10] ++ (ascii "// package x" ++ [10] ++ ascii "type A struct\x7b\x7d") ∧
    wrapSource (ascii "package" ++ [9] ++ ascii "main" ++ [10] ++ ascii "type A struct\x7b\x7d")
      ≠ ascii "package" ++ [9] ++ ascii "main" ++ [10] ++ ascii "type A struct\x7b\x7d" := by
  decide

/-- C17 (amended): the text that `ParseStructs` hands to the parser is the source
itself when the byte sequence `package ` (the word and a space) occurs in it, and
`package main`, a newline and the source when it does not occur; the parser is
consulted on this text only: two parsers that agree on it give the same result. -/
theorem C17_wrap_by_substring (src : Str) (sched : Nat → List Nat)
    (ParseFile ParseFile2 : Str → Except Str AstFile)
    (h : ParseFile (if ascii "package " <:+: src then src
                    else ascii "package main" ++ [10] ++ src)
       = ParseFile2 (if ascii "package " <:+: src then src
                     else ascii "package main" ++ [10] ++ src)) :
    wrapSource src
      = (if ascii "package " <:+: src then src else ascii "package main" ++ [10] ++ src) ∧
    ParseStructs ParseFile sched src = ParseStructs ParseFile2 sched src := by
  refine ⟨wrapSource_eq src, ?_⟩
  rw [← wrapSource_eq src] at h
  unfold ParseStructs
  rw [h]

/-- C17 (amended) at `sampleSrc`, which has no `package ` in it, for two parsers
that differ elsewhere. -/
theorem C17_wrap_by_substring_witness :
    wrapSource sampleSrc
      = (if ascii "package " <:+: sampleSrc then sampleSrc
         else ascii "package main" ++ [10] ++ sampleSrc) ∧
    ParseStructs (fun _ => .ok sampleFile) (fun _ => [0, 1]) sampleSrc
      = ParseStructs (fun text => if text = sampleSrc then .ok [] else .ok sampleFile)
          (fun _ => [0, 1]) sampleSrc :=
  C17_wrap_by_substring sampleSrc (fun _ => [0, 1]) (fun _ => .ok sampleFile)
    (fun text => if text = sampleSrc then .ok [] else .ok sampleFile) (by decide)

/-! ## C18 -/

theorem Write_all (w : Writer) (p : Str) (h : w.script = []) :
    w.Write p = ({ written := w.written ++ [p], script := [] }, p.length, none) := by
  unfold Writer.Write
  rw [h]

theorem writeResponse_ok (lib : Lib) (w : Writer) (method reply : Str) (r : Response)
    (he : lib.EncodeMessage r = .ok reply) (h : w.script = []) :
    writeResponse lib w method r = ({ written := w.written ++ [reply], script := [] }, none) := by
  unfold writeResponse
  rw [he]
  simp only [Write_all w reply h, ne_eq, not_true_eq_false, if_false]

/-- C18, the code on a well-formed `shutdown` request: when the frame decodes to
the method `shutdown`, its body to a request with id `id`, the response encodes
and the writer takes it, `HandleMessage` writes this one response, with `jsonrpc`
2.0 and the id of the request, and then ends the process with status 0: it does
not return to the read loop. -/
theorem C18_shutdown_exits (lib : Lib) (s : Root) (msg contents reply : Str) (id : Int)
    (hd : lib.DecodeMessage msg = .ok (ascii "shutdown", contents))
    (hu : lib.unmarshalShutdown contents = .ok id)
    (he : lib.EncodeMessage (.shutdown (ascii "2.0") id) = .ok reply)
    (hw : s.Writer.script = []) :
    s.HandleMessage lib msg =
      ({ s with Writer := { written := s.Writer.written ++ [reply], script := [] } },
        .exited 0) := by
  unfold Root.HandleMessage
  rw [hd]
  simp only []
  rw [if_neg (by decide), if_neg (by decide), if_neg (by decide), if_neg (by decide),
    if_neg (by decide), if_neg (by decide), if_neg (by decide), if_neg (by decide),
    if_neg (by decide), if_pos trivial, hu]
  simp only [writeResponse_ok lib s.Writer _ reply _ he hw]

/-- C18 at the frame `shutdown`, newline, `7` of the sample library: the response
is written and the process ends. -/
theorem C18_shutdown_exits_witness :
    sampleRoot.HandleMessage sampleLib (ascii "shutdown" ++ [10] ++ ascii "7") =
      ({ sampleRoot with
          Writer := { written := sampleRoot.Writer.written ++ [ascii "shutdown 2.0 " ++ [1]],
                      script := [] } },
        .exited 0) :=
  C18_shutdown_exits sampleLib sampleRoot (ascii "shutdown" ++ [10] ++ ascii "7") (ascii "7")
    (ascii "shutdown 2.0 " ++ [1]) 1 (by decide) (by decide) (by decide) rfl

/-! ## C19 -/

/-- C19, the code on an `initialized` notification whose body does not decode:
`HandleMessage` ends the process with status 1 (`Logger.Fatal`), although the
method is neither `exit` nor `shutdown`; it does not return to its caller. -/
theorem C19_initialized_fatal (lib : Lib) (s : Root) (msg contents e : Str)
    (hd : lib.DecodeMessage msg = .ok (ascii "initialized", contents))
    (hu : lib.unmarshalInitialized contents = .error e) :
    s.HandleMessage lib msg = (s, .exited 1) := by
  unfold Root.HandleMessage
  rw [hd]
  simp only []
  rw [if_neg (by decide), if_pos trivial, hu]

/-- C19 at the frame `initialized`, newline, and no contents, of the sample
library. -/
theorem C19_initialized_fatal_witness :
    sampleRoot.HandleMessage sampleLib (ascii "initialized" ++ [10]) = (sampleRoot, .exited 1) :=
  C19_initialized_fatal sampleLib sampleRoot (ascii "initialized" ++ [10]) [] (ascii "EOF")
    (by decide) (by decide)

/-! ## C20 -/

/-- C20: on a `textDocument/didClose` notification that decodes to the URI `uri`,
whatever the documents are, `HandleMessage` returns nil, writes nothing, and
afterwards the documents have an entry for `uri` whose text is empty, the entries
of all other URIs being what they were; the rest of the state is unchanged. -/
theorem C20_did_close (lib : Lib) (s : Root) (msg contents uri : Str)
    (hd : lib.DecodeMessage msg = .ok (ascii "textDocument/didClose", contents))
    (hu : lib.unmarshalDidClose contents = .ok uri) :
    (s.HandleMessage lib msg).2 = .returned none ∧
    (s.HandleMessage lib msg).1.Writer = s.Writer ∧
    (s.HandleMessage lib msg).1.State.Rest = s.State.Rest ∧
    (s.HandleMessage lib msg).1.State.Documents uri = some [] ∧
    ∀ v, v ≠ uri → (s.HandleMessage lib msg).1.State.Documents v = s.State.Documents v := by
  have e : s.HandleMessage lib msg =
      ({ s with State := { s.State with Documents := s.State.Documents.set uri [] } },
        .returned none) := by
    unfold Root.HandleMessage
    rw [hd]
    simp only []
    rw [if_neg (by decide), if_neg (by decide), if_neg (by decide), if_pos trivial, hu]
    rfl
  rw [e]
  refine ⟨rfl, rfl, rfl, ?_, ?_⟩
  · simp [Documents.set]
  · intro v hv
    simp [Documents.set, hv]

/-- C20 at the frame `textDocument/didClose`, newline, `a.go` of the sample
library, on the receiver in which `a.go` is open. -/
theorem C20_did_close_witness :
    (sampleRoot.HandleMessage sampleLib
      (ascii "textDocument/didClose" ++ [10] ++ ascii "a.go")).2 = .returned none ∧
    (sampleRoot.HandleMessage sampleLib
      (ascii "textDocument/didClose" ++ [10] ++ ascii "a.go")).1.Writer = sampleRoot.Writer ∧
    (sampleRoot.HandleMessage sampleLib
      (ascii "textDocument/didClose" ++ [10] ++ ascii "a.go")).1.State.Rest
        = sampleRoot.State.Rest ∧
    (sampleRoot.HandleMessage sampleLib
      (ascii "textDocument/didClose" ++ [10] ++ ascii "a.go")).1.State.Documents (ascii "a.go")
        = some [] ∧
    ∀ v, v ≠ ascii "a.go" →
      (sampleRoot.HandleMessage sampleLib
        (ascii "textDocument/didClose" ++ [10] ++ ascii "a.go")).1.State.Documents v
        = sampleRoot.State.Documents v :=
  C20_did_close sampleLib sampleRoot (ascii "textDocument/didClose" ++ [10] ++ ascii "a.go")
    (ascii "a.go") (ascii "a.go") (by decide) (by decide)

/-! ## C21 -/

/-- C21, the code on a frame that fails: in the read loop of `NewLSPCmd`, when the
frame `bad` does not decode, the command returns the decode error and neither
this frame nor any later frame is handed to the handler; and when the handler
returns an error for the frame `msg`, the command returns this error and no later
frame is decoded or handled. -/
theorem C21_loop_stops {σ : Type} (DecodeMessage : Str → Except Str (Str × Str))
    (handle : σ → Str → σ × Option Str) (s s1 : σ) (bad msg e1 e2 : Str) (decoded : Str × Str)
    (frames : List Str)
    (hbad : DecodeMessage bad = .error e1)
    (hmsg : DecodeMessage msg = .ok decoded)
    (hhandle : handle s msg = (s1, some e2)) :
    NewLSPCmd DecodeMessage handle s (bad :: frames)
      = (s, [], some (ascii "failed to decode message: " ++ e1)) ∧
    NewLSPCmd DecodeMessage handle s (msg :: frames)
      = (s1, [msg], some (ascii "failed to handle message: " ++ e2)) := by
  constructor
  · simp only [NewLSPCmd, hbad]
  · simp only [NewLSPCmd, hmsg, hhandle]

/-- C21 at the frames `garbage` (no newline: it does not decode) and `foo`,
newline (its method is unknown to the handler), each followed by the frame
`initialized`, newline, `1`, which the handler would accept: the command returns
the error and the later frame is not handed to the handler. -/
theorem C21_loop_stops_witness :
    sampleDecode (ascii "garbage") = .error (ascii "no header") ∧
    sampleDecode (ascii "foo" ++ [10]) = .ok (ascii "foo", []) ∧
    sampleHandler 0 (ascii "foo" ++ [10]) = (0, some (ascii "unknown method: foo")) ∧
    sampleHandler 0 (ascii "initialized" ++ [10] ++ ascii "1") = (1, none) ∧
    (NewLSPCmd sampleDecode sampleHandler 0
        (ascii "garbage" :: [ascii "initialized" ++ [10] ++ ascii "1"])
      = (0, [], some (ascii "failed to decode message: " ++ ascii "no header")) ∧
    NewLSPCmd sampleDecode sampleHandler 0
        ((ascii "foo" ++ [10]) :: [ascii "initialized" ++ [10] ++ ascii "1"])
      = (0, [ascii "foo" ++ [10]],
          some (ascii "failed to handle message: " ++ ascii "unknown method: foo"))) :=
  ⟨by decide, by decide, by decide, by decide,
    C21_loop_stops sampleDecode sampleHandler 0 0 (ascii "garbage") (ascii "foo" ++ [10])
      (ascii "no header") (ascii "unknown method: foo") (ascii "foo", [])
      [ascii "initialized" ++ [10] ++ ascii "1"] (by decide) (by decide) (by decide)⟩

/-! ## C22 -/

/-- C22, the code after a frame whose handling returns, with an error or without:
the read loop of `Root` hands the next frames to `handle` as well; in particular
after an error of `writeResponse` the loop goes on. -/
theorem C22_loop_goes_on (lib : Lib) (s : Root) (msg : Str) (frames : List Str)
    (err : Option Str) (hret : (s.HandleMessage lib msg).2 = .returned err) :
    Root.ReturnCmd lib s (msg :: frames) =
      ((Root.ReturnCmd lib (s.HandleMessage lib msg).1 frames).1,
        msg :: (Root.ReturnCmd lib (s.HandleMessage lib msg).1 frames).2.1,
        (Root.ReturnCmd lib (s.HandleMessage lib msg).1 frames).2.2) := by
  have h : s.HandleMessage lib msg = ((s.HandleMessage lib msg).1, .returned err) := by
    rw [← hret]
  have hh : Root.handle lib s msg = ((s.HandleMessage lib msg).1, .returned none) := by
    unfold Root.handle
    rw [h]
  rw [Root.ReturnCmd, hh]

/-- C22 at the frames `initialize`, newline, `7` and `textDocument/didClose`,
newline, `a.go` of the sample library, on a receiver whose writer fails on the
first write, and on one whose writer takes three bytes of it: `writeResponse`
returns an error for the first frame, and the second frame is handled all the
same: both frames were handed to `handle`, the command returns nil, and the text
of `a.go` is empty at the end. -/
theorem C22_loop_goes_on_witness :
    (writeResponse sampleLib sampleBrokenRoot.Writer (ascii "initialize")
        (.initializeResult 1)).2
      = some (ascii "failed to write message (initialize): broken pipe") ∧
    (sampleBrokenRoot.HandleMessage sampleLib (ascii "initialize" ++ [10] ++ ascii "7")).2
      = .returned (some (ascii
          "failed to write (initialize) response: failed to write message (initialize): broken pipe")) ∧
    Root.ReturnCmd sampleLib sampleBrokenRoot
        ((ascii "initialize" ++ [10] ++ ascii "7") ::
          [ascii "textDocument/didClose" ++ [10] ++ ascii "a.go"]) =
      ((Root.ReturnCmd sampleLib
          (sampleBrokenRoot.HandleMessage sampleLib (ascii "initialize" ++ [10] ++ ascii "7")).1
          [ascii "textDocument/didClose" ++ [10] ++ ascii "a.go"]).1,
        (ascii "initialize" ++ [10] ++ ascii "7") :: (Root.ReturnCmd sampleLib
          (sampleBrokenRoot.HandleMessage sampleLib (ascii "initialize" ++ [10] ++ ascii "7")).1
          [ascii "textDocument/didClose" ++ [10] ++ ascii "a.go"]).2.1,
        (Root.ReturnCmd sampleLib
          (sampleBrokenRoot.HandleMessage sampleLib (ascii "initialize" ++ [10] ++ ascii "7")).1
          [ascii "textDocument/didClose" ++ [10] ++ ascii "a.go"]).2.2) ∧
    (Root.ReturnCmd sampleLib sampleBrokenRoot
        ((ascii "initialize" ++ [10] ++ ascii "7") ::
          [ascii "textDocument/didClose" ++ [10] ++ ascii "a.go"])).2
      = ([ascii "initialize" ++ [10] ++ ascii "7",
          ascii "textDocument/didClose" ++ [10] ++ ascii "a.go"], none) ∧
    sampleBrokenRoot.State.Documents (ascii "a.go") = some (ascii "package a") ∧
    (Root.ReturnCmd sampleLib sampleBrokenRoot
        ((ascii "initialize" ++ [10] ++ ascii "7") ::
          [ascii "textDocument/didClose" ++ [10] ++ ascii "a.go"])).1.State.Documents
        (ascii "a.go") = some [] ∧
    (writeResponse sampleLib sampleShortRoot.Writer (ascii "initialize")
        (.initializeResult 1)).2
      = some (ascii "failed to write all message (initialize): %!w(<nil>)") ∧
    (Root.ReturnCmd sampleLib sampleShortRoot
        ((ascii "initialize" ++ [10] ++ ascii "7") ::
          [ascii "textDocument/didClose" ++ [10] ++ ascii "a.go"])).2
      = ([ascii "initialize" ++ [10] ++ ascii "7",
          ascii "textDocument/didClose" ++ [10] ++ ascii "a.go"], none) ∧
    (Root.ReturnCmd sampleLib sampleShortRoot
        ((ascii "initialize" ++ [10] ++ ascii "7") ::
          [ascii "textDocument/didClose" ++ [10] ++ ascii "a.go"])).1.State.Documents
        (ascii "a.go") = some [] :=
  ⟨by decide, by decide,
    C22_loop_goes_on sampleLib sampleBrokenRoot (ascii "initialize" ++ [10] ++ ascii "7")
      [ascii "textDocument/didClose" ++ [10] ++ ascii "a.go"]
      (some (ascii
        "failed to write (initialize) response: failed to write message (initialize): broken pipe"))
      (by decide),
    by decide, by decide, by decide, by decide, by decide, by decide⟩

/-! ## C23 -/

/-- C23: for a message whose method is not a name of the method table,
`Root.HandleMessage` (the frame decoding to this method) returns the error
`unknown method: ` followed by the method, with the state and the writer as they
were, and `server.HandleMessage`, with a context that is not cancelled, returns in
its first iteration no response and the same error, with the state as it was. -/
theorem C23_unknown_method (lib : Lib) (s : Root) (frame method contents : Str)
    (slib : ServerLib) (done : Nat → Bool) (fuel : Nat) (state : State) (msg : BaseMessage)
    (hd : lib.DecodeMessage frame = .ok (method, contents))
    (hroot : method ∉ methodTable) (hserver : msg.Method ∉ methodTable)
    (hlive : done 0 = false) :
    s.HandleMessage lib frame = (s, .returned (some (ascii "unknown method: " ++ method))) ∧
    Server.HandleMessage slib done (fuel + 1) 0 state msg
      = some (state, .returned none (some (ascii "unknown method: " ++ msg.Method))) := by
  constructor
  · have n1 : ¬ method = ascii "initialize" := fun h => hroot (by rw [h]; decide)
    have n2 : ¬ method = ascii "initialized" := fun h => hroot (by rw [h]; decide)
    have n3 : ¬ method = ascii "textDocument/didOpen" := fun h => hroot (by rw [h]; decide)
    have n4 : ¬ method = ascii "textDocument/didClose" := fun h => hroot (by rw [h]; decide)
    have n5 : ¬ method = ascii "textDocument/completion" := fun h => hroot (by rw [h]; decide)
    have n6 : ¬ method = ascii "textDocument/didChange" := fun h => hroot (by rw [h]; decide)
    have n7 : ¬ method = ascii "textDocument/hover" := fun h => hroot (by rw [h]; decide)
    have n8 : ¬ method = ascii "textDocument/codeAction" := fun h => hroot (by rw [h]; decide)
    have n9 : ¬ method = ascii "textDocument/didSave" := fun h => hroot (by rw [h]; decide)
    have n10 : ¬ method = ascii "shutdown" := fun h => hroot (by rw [h]; decide)
    have n11 : ¬ method = ascii "$/cancelRequest" := fun h => hroot (by rw [h]; decide)
    have n12 : ¬ method = ascii "exit" := fun h => hroot (by rw [h]; decide)
    unfold Root.HandleMessage
    rw [hd]
    simp only []
    rw [if_neg n1, if_neg n2, if_neg n3, if_neg n4, if_neg n5, if_neg n6, if_neg n7, if_neg n8,
      if_neg n9, if_neg n10, if_neg n11, if_neg n12]
  · have m1 : ¬ msg.Method = MethodInitialize := fun h => hserver (by rw [h]; decide)
    have m2 : ¬ msg.Method = MethodRequestTextDocumentDidOpen :=
      fun h => hserver (by rw [h]; decide)
    have m3 : ¬ msg.Method = MethodRequestTextDocumentCompletion :=
      fun h => hserver (by rw [h]; decide)
    have m4 : ¬ msg.Method = MethodRequestTextDocumentHover :=
      fun h => hserver (by rw [h]; decide)
    have m5 : ¬ msg.Method = MethodRequestTextDocumentCodeAction :=
      fun h => hserver (by rw [h]; decide)
    have m6 : ¬ msg.Method = MethodShutdown := fun h => hserver (by rw [h]; decide)
    have m7 : ¬ msg.Method = MethodCancelRequest := fun h => hserver (by rw [h]; decide)
    have m8 : ¬ msg.Method = MethodNotificationInitialized :=
      fun h => hserver (by rw [h]; decide)
    have m9 : ¬ msg.Method = MethodNotificationExit := fun h => hserver (by rw [h]; decide)
    have m10 : ¬ msg.Method = MethodNotificationTextDocumentDidSave :=
      fun h => hserver (by rw [h]; decide)
    have m11 : ¬ msg.Method = NotificationTextDocumentDidClose :=
      fun h => hserver (by rw [h]; decide)
    have m12 : ¬ msg.Method = NotificationMethodTextDocumentDidChange :=
      fun h => hserver (by rw [h]; decide)
    rw [Server.HandleMessage, hlive]
    simp only [Bool.false_eq_true, if_false]
    rw [if_neg m1, if_neg m2, if_neg m3, if_neg m4, if_neg m5, if_neg m6, if_neg m7, if_neg m8,
      if_neg m9, if_neg m10, if_neg m11, if_neg m12]

/-- C23 at the method `foo/bar`, which is not in the method table: the frame
`foo/bar`, newline, `1` of the sample library for `Root.HandleMessage`, and the
message with this method and the content `1` for `server.HandleMessage` under a
context that is never cancelled. -/
theorem C23_unknown_method_witness :
    sampleLib.DecodeMessage (ascii "foo/bar" ++ [10] ++ ascii "1")
      = .ok (ascii "foo/bar", ascii "1") ∧
    ascii "foo/bar" ∉ methodTable ∧
    sampleRoot.HandleMessage sampleLib (ascii "foo/bar" ++ [10] ++ ascii "1")
      = (sampleRoot, .returned (some (ascii "unknown method: " ++ ascii "foo/bar"))) ∧
    Server.HandleMessage sampleServerLib (fun _ => false) (0 + 1) 0 sampleRoot.State
        ⟨ascii "foo/bar", ascii "1"⟩
      = some (sampleRoot.State,
          .returned none (some (ascii "unknown method: " ++ ascii "foo/bar"))) :=
  ⟨by decide, by decide,
    C23_unknown_method sampleLib sampleRoot (ascii "foo/bar" ++ [10] ++ ascii "1")
      (ascii "foo/bar") (ascii "1") sampleServerLib (fun _ => false) 0 sampleRoot.State
      ⟨ascii "foo/bar", ascii "1"⟩ (by decide) (by decide) (by decide) rfl⟩

/-! ## C24 -/

/-- On a `didClose` message whose body decodes, an iteration of the loop of
`server.HandleMessage` under a context that is not cancelled leads to the next
iteration. -/
theorem Server_didClose_step (slib : ServerLib) (done : Nat → Bool) (state : State)
    (msg : BaseMessage) (request : Str) (fuel i : Nat)
    (hm : msg.Method = NotificationTextDocumentDidClose)
    (hu : slib.unmarshal NotificationTextDocumentDidClose msg.Content = .ok request)
    (hlive : done i = false) :
    Server.HandleMessage slib done (fuel + 1) i state msg
      = Server.HandleMessage slib done fuel (i + 1) state msg := by
  rw [Server.HandleMessage, hlive, hm]
  simp only [Bool.false_eq_true, if_false]
  rw [if_neg (by decide), if_neg (by decide), if_neg (by decide), if_neg (by decide),
    if_neg (by decide), if_neg (by decide), if_neg (by decide), if_neg (by decide),
    if_neg (by decide), if_neg (by decide), if_pos trivial]
  rw [hu]

/-- C24, the code on a `textDocument/didClose` notification whose body decodes,
under a context that is never cancelled: whatever the number of iterations,
`server.HandleMessage` is still in its loop after them: it does not return. -/
theorem C24_did_close_loops (slib : ServerLib) (done : Nat → Bool) (state : State)
    (msg : BaseMessage) (request : Str)
    (hm : msg.Method = NotificationTextDocumentDidClose)
    (hu : slib.unmarshal NotificationTextDocumentDidClose msg.Content = .ok request)
    (hlive : ∀ i, done i = false) :
    ∀ fuel : Nat, Server.HandleMessage slib done fuel 0 state msg = none := by
  have key : ∀ fuel i : Nat, Server.HandleMessage slib done fuel i state msg = none := by
    intro fuel
    induction fuel with
    | zero => intro i; rfl
    | succ fuel ih =>
      intro i
      rw [Server_didClose_step slib done state msg request fuel i hm hu (hlive i)]
      exact ih (i + 1)
  intro fuel
  exact key fuel 0

/-- C24 at the notification `textDocument/didClose` with the content `a.go` of the
sample library, under a context that is never cancelled: after a thousand
iterations the call is still in its loop. -/
theorem C24_did_close_loops_witness :
    sampleServerLib.unmarshal NotificationTextDocumentDidClose (ascii "a.go")
      = .ok (ascii "a.go") ∧
    Server.HandleMessage sampleServerLib (fun _ => false) 1000 0 sampleRoot.State
      ⟨NotificationTextDocumentDidClose, ascii "a.go"⟩ = none :=
  ⟨by decide,
    C24_did_close_loops sampleServerLib (fun _ => false) sampleRoot.State
      ⟨NotificationTextDocumentDidClose, ascii "a.go"⟩ (ascii "a.go") rfl (by decide)
      (fun _ => rfl) 1000⟩

/-! ## C25 -/

theorem Keys_set_present (t : Tags) (g : Tag) (hk : g.Key ≠ [])
    (hp : ∃ x ∈ t.tags, x.Key = g.Key) : (t.Set g).1.Keys = t.Keys := by
  have hany : t.tags.any (fun tg => decide (tg.Key = g.Key)) = true := by
    simpa using hp
  simp only [Tags.Set, if_neg hk, hany, Bool.not_true, Bool.false_eq_true, if_false, Tags.Keys,
    List.map_map]
  apply List.map_congr_left
  intro a _
  by_cases ha : a.Key = g.Key
  · simp [ha]
  · simp [ha]

theorem Keys_set_absent (t : Tags) (g : Tag) (hk : g.Key ≠ [])
    (hab : ∀ x ∈ t.tags, x.Key ≠ g.Key) : (t.Set g).1.Keys = t.Keys ++ [g.Key] := by
  have hany : t.tags.any (fun tg => decide (tg.Key = g.Key)) = false := by
    simpa using hab
  simp only [Tags.Set, if_neg hk, hany, Bool.not_false, if_true, Tags.Keys]
  rw [map_set_absent g t.tags hab]
  simp

theorem Keys_addOptions (t : Tags) (k : Str) (os : List Str) :
    (t.AddOptions k os).Keys = t.Keys := by
  simp only [Tags.AddOptions, Tags.Keys, List.map_map]
  apply List.map_congr_left
  intro a _
  by_cases ha : a.Key = k
  · have hne : ¬ a.Key ≠ k := fun h => h ha
    simp only [Function.comp, if_neg hne]
    exact (addOptions_tag os a).1
  · simp only [Function.comp, if_pos ha]

/-- C25: when the keys of the tags are pairwise distinct, they are pairwise
distinct after every `Set` that returns nil, which keeps the keys as they were
when the key of the tag was present (no second tag for it) and adds the key at
the end when it was absent; and after every `AddOptions`, which leaves the
sequence of the keys unchanged. -/
theorem C25_keys_stay_distinct (t : Tags) (g : Tag) (k : Str) (os : List Str)
    (hnodup : t.Keys.Nodup) (hset : (t.Set g).2 = none) :
    (t.Set g).1.Keys.Nodup ∧
    (g.Key ∈ t.Keys → (t.Set g).1.Keys = t.Keys) ∧
    g.Key ∈ (t.Set g).1.Keys ∧
    (t.AddOptions k os).Keys = t.Keys ∧
    (t.AddOptions k os).Keys.Nodup := by
  have hk : g.Key ≠ [] := by
    intro h
    simp [Tags.Set, h] at hset
  have hpres : g.Key ∈ t.Keys → (t.Set g).1.Keys = t.Keys := by
    intro hin
    obtain ⟨x, hx, hxk⟩ := List.mem_map.mp hin
    exact Keys_set_present t g hk ⟨x, hx, hxk⟩
  have habs : g.Key ∉ t.Keys → (t.Set g).1.Keys = t.Keys ++ [g.Key] := by
    intro hnin
    apply Keys_set_absent t g hk
    intro x hx hxk
    exact hnin (List.mem_map.mpr ⟨x, hx, hxk⟩)
  have hnd : (t.Set g).1.Keys.Nodup := by
    by_cases hin : g.Key ∈ t.Keys
    · rw [hpres hin]; exact hnodup
    · rw [habs hin]
      exact List.Nodup.append hnodup (List.nodup_singleton _)
        (fun a ha hb => hin (List.mem_singleton.mp hb ▸ ha))
  refine ⟨hnd, hpres, ?_, Keys_addOptions t k os, ?_⟩
  · by_cases hin : g.Key ∈ t.Keys
    · rw [hpres hin]; exact hin
    · rw [habs hin]; simp
  · rw [Keys_addOptions t k os]; exact hnodup

/-- C25 at the tags of `json:"x" xml:"y"`, for a `Set` of a tag with the key
`json`, which is present, and an `AddOptions` of `omitempty` to `json`. -/
theorem C25_keys_stay_distinct_witness :
    sampleTags.Keys = [ascii "json", ascii "xml"] ∧
    (sampleTags.Set { Key := ascii "json", Name := ascii "z", Options := none,
                      Line := 3, Start := 30, End := 54 }).2 = none ∧
    ((sampleTags.Set { Key := ascii "json", Name := ascii "z", Options := none,
                       Line := 3, Start := 30, End := 54 }).1.Keys.Nodup ∧
    (ascii "json" ∈ sampleTags.Keys →
      (sampleTags.Set { Key := ascii "json", Name := ascii "z", Options := none,
                        Line := 3, Start := 30, End := 54 }).1.Keys = sampleTags.Keys) ∧
    ascii "json" ∈ (sampleTags.Set { Key := ascii "json", Name := ascii "z", Options := none,
                                     Line := 3, Start := 30, End := 54 }).1.Keys ∧
    (sampleTags.AddOptions (ascii "json") [ascii "omitempty"]).Keys = sampleTags.Keys ∧
    (sampleTags.AddOptions (ascii "json") [ascii "omitempty"]).Keys.Nodup) :=
  ⟨by decide, by decide,
    C25_keys_stay_distinct sampleTags
      { Key := ascii "json", Name := ascii "z", Options := none, Line := 3, Start := 30, End := 54 }
      (ascii "json") [ascii "omitempty"] (by decide) (by decide)⟩

end Seltabl
